import Mathlib

/-!
# Alice3CDeuteron: the candidate search of `ALICE3/src/alice3-cdeuteron.cxx`

Shallow embedding of `Alice3CDeuteron::process` (lines 194-390 of the source):
the three nested loops over the track table, the propagation to the distance of
closest approach, the cut flag `iscut`, the truth flag `issig`, the covariance
checks, the call of the vertex fitter and the dispatch of `FillHistos` to the six
histogram groups.

Conventions of the embedding.
* `float`/`double` values are elements of a linearly ordered field `F`
  (exact arithmetic; `ℚ` for evaluation, `ℝ` for analytic statements).
* The loops are `List.foldl` over the track table, the loop variables that
  survive an iteration (`dca1`, `dca2`, `dca3`, `ncand`, the histogram registry)
  are threaded through as an explicit state.
* External collaborators (the O2 track propagator, the `DCAFitterN<3>` engine,
  the functions of `libm`) are parameters.
* The event level histograms filled before the search (`event/vtxX` ...
  `event/multiplicity`) and the `Printf` diagnostics are not part of the state.
-/

namespace Alice3CDeuteron

/-! ## Data model -/

/-- Row of `aod::McParticles`: the columns read by the task. `mother0Id` is the
row index of the first mother in the same table (negative when there is none). -/
structure McParticle (F : Type) where
  pdgCode : Int
  mother0Id : Int
  vx : F
  vy : F
  vz : F

/-- Row of the joined track table (`Tracks`, `McTrackLabels`, `TracksExtra`,
`TracksCov`): the columns read by the task. `sigmaY2`, `sigmaZ2`, `sigmaZY` are
the entries of the (Y,Z) covariance block returned by `getTrackParCov`. -/
structure Track (F : Type) where
  globalIndex : Int
  mcParticle : McParticle F
  pt : F
  eta : F
  phi : F
  sigmaY2 : F
  sigmaZ2 : F
  sigmaZY : F

/-- The type `math_utils::Point3D<float>`. -/
structure Point3D (F : Type) where
  x : F
  y : F
  z : F

/-- The collision row joined with its Monte Carlo collision: `mcPosX` is
`coll.mcCollision().posX()`. -/
structure Collision (F : Type) where
  posX : F
  posY : F
  posZ : F
  mcPosX : F
  mcPosY : F
  mcPosZ : F

/-- The configurables of the task (lines 31-41). -/
structure Config (F : Type) where
  magField : F
  minRadius : F
  maxRadius : F
  minMomPt : F
  minKaonPt : F
  minPionPt : F
  minVtxContrib : F
  minDca : F
  minDcaPion : F
  maxDca : F
  minCpa : F

/-- The default values of the configurables (lines 31-41). -/
def Config.default (F : Type) [LinearOrderedField F] : Config F :=
  { magField := 1 / 2, minRadius := -100, maxRadius := 100, minMomPt := -100,
    minKaonPt := -100, minPionPt := -100, minVtxContrib := 3, minDca := -100,
    minDcaPion := -100, maxDca := 100, minCpa := 0 }

/-- What `fitter.process(pc1, pc2, pc3)` leaves behind: the returned status
(number of candidates found), `getPCACandidate()` and
`getChi2AtPCACandidate(0)`, `getChi2AtPCACandidate(1)`. -/
structure FitResult (F : Type) where
  status : Int
  pca : Point3D F
  chi2AtPCACandidate0 : F
  chi2AtPCACandidate1 : F

/-- The functions of the C math library used by the task and by
`TLorentzVector`. -/
structure Libm (F : Type) where
  sqrt : F → F
  cos : F → F
  sin : F → F
  sinh : F → F

/-- External collaborators of `process`.
* `propagateParamToDCA t vtx b maxD` is
  `getTrackPar(t).propagateParamToDCA(vtx, b, &dca, maxD)`: `none` when the call
  returns `false`, `some d` when it returns `true` having written `d` to `dca`.
* `fitterProcess pc1 pc2 pc3` is `fitter.process(pc1, pc2, pc3)` for the fitter
  configured in `init`.
* `mcParticles i` is the row `i` of the `McParticles` table. -/
structure Env (F : Type) where
  libm : Libm F
  propagateParamToDCA : Track F → Point3D F → F → F → Option (F × F)
  fitterProcess : Track F → Track F → Track F → FitResult F
  mcParticles : Int → McParticle F

/-- Modelled from the spec: ROOT's `TLorentzVector` is not part of the sources.
Section 4.3: a four-momentum built from `(pt, eta, phi)` and a mass hypothesis;
`x`, `y`, `z` are the Cartesian momentum components and `t` the energy. -/
structure TLorentzVector (F : Type) where
  x : F
  y : F
  z : F
  t : F

namespace TLorentzVector

variable {F : Type} [LinearOrderedField F]

/-- Modelled from the spec: `TLorentzVector::SetXYZM` of ROOT, the energy is
`sqrt(x^2 + y^2 + z^2 + m^2)` for a non-negative mass. -/
def SetXYZM (m : Libm F) (x y z mass : F) : TLorentzVector F :=
  if 0 ≤ mass then
    { x := x, y := y, z := z, t := m.sqrt (x * x + y * y + z * z + mass * mass) }
  else
    { x := x, y := y, z := z, t := m.sqrt (max (x * x + y * y + z * z - mass * mass) 0) }

/-- Modelled from the spec: `TLorentzVector::SetPtEtaPhiM` of ROOT,
`p = (pt cos phi, pt sin phi, pt sinh eta)`. -/
def SetPtEtaPhiM (m : Libm F) (pt eta phi mass : F) : TLorentzVector F :=
  SetXYZM m (|pt| * m.cos phi) (|pt| * m.sin phi) (|pt| * m.sinh eta) mass

/-- Modelled from the spec: `operator+=`, the component-wise sum. -/
def add (a b : TLorentzVector F) : TLorentzVector F :=
  { x := a.x + b.x, y := a.y + b.y, z := a.z + b.z, t := a.t + b.t }

/-- Modelled from the spec: `Px()`. -/
def Px (v : TLorentzVector F) : F := v.x

/-- Modelled from the spec: `Py()`. -/
def Py (v : TLorentzVector F) : F := v.y

/-- Modelled from the spec: `Pz()`. -/
def Pz (v : TLorentzVector F) : F := v.z

/-- Modelled from the spec: `Pt()`, the transverse momentum. -/
def Pt (m : Libm F) (v : TLorentzVector F) : F := m.sqrt (v.x * v.x + v.y * v.y)

/-- Modelled from the spec: `P()`, the magnitude of the momentum. -/
def P (m : Libm F) (v : TLorentzVector F) : F := m.sqrt (v.x * v.x + v.y * v.y + v.z * v.z)

/-- Modelled from the spec: `M()`, the invariant mass (signed square root of
`t^2 - |p|^2`). -/
def M (m : Libm F) (v : TLorentzVector F) : F :=
  let mm := v.t * v.t - (v.x * v.x + v.y * v.y + v.z * v.z)
  if mm < 0 then -m.sqrt (-mm) else m.sqrt mm

end TLorentzVector

/-- The six histogram groups created by `MakeHistos` (lines 150-155). -/
inductive Tag where
  | sig
  | bkg
  | signocut
  | bkgnocut
  | sigcut
  | bkgcut
  deriving DecidableEq, Repr

/-- The variables in scope where `FillHistos` is expanded (lines 365-383). -/
structure Candidate (F : Type) where
  track1 : Track F
  track2 : Track F
  track3 : Track F
  dca1 : F × F
  dca2 : F × F
  dca3 : F × F
  issig : Bool
  iscut : Bool
  fit : FitResult F
  v1 : TLorentzVector F
  decay_radius : F
  magMom : F
  CPA : F
  vx : F
  vy : F
  vz : F
  rmc : F
  radius3xy : F

/-- One expansion of `FillHistos(tag)`: the histogram group and the variables
the twenty-five `histos.fill` calls read. -/
structure Fill (F : Type) where
  tag : Tag
  cand : Candidate F

/-- The loop-carried state of `process`: the three DCA arrays declared before
the loops (lines 194-196), the counter `ncand` of the current outer iteration,
the `FillHistos` expansions executed so far, the values filled in
`event/candperdeuteron`, and the arguments of the calls of `fitter.process`
made so far. -/
structure State (F : Type) where
  dca1 : F × F
  dca2 : F × F
  dca3 : F × F
  ncand : Int
  fills : List (Fill F)
  candperdeuteron : List Int
  fitCalls : List (Track F × Track F × Track F)

variable {F : Type} [LinearOrderedField F]

/-! ## The task -/

/-- The values handed to the twenty-five `histos.fill` calls of `FillHistos`
(lines 338-363), in the order of the macro, with the histogram name. -/
def FillHistos (m : Libm F) (c : Candidate F) : List (String × F) :=
  [("cpa", c.CPA),
   ("invmass", TLorentzVector.M m c.v1),
   ("decayradius", c.decay_radius),
   ("decayradiusResoX", c.fit.pca.x - c.vx),
   ("decayradiusResoY", c.fit.pca.y - c.vy),
   ("decayradiusResoZ", c.fit.pca.z - c.vz),
   ("radius3xy", c.radius3xy),
   ("decayradiusReso", c.rmc),
   ("decaydca0", m.sqrt c.fit.chi2AtPCACandidate0),
   ("decaydca1", m.sqrt c.fit.chi2AtPCACandidate1),
   ("dcaxy1", c.dca1.1),
   ("dcaz1", c.dca1.2),
   ("dcaxy2", c.dca2.1),
   ("dcaz2", c.dca2.2),
   ("dcaxy3", c.dca3.1),
   ("dcaz3", c.dca3.2),
   ("dcaxy1xdcaxy2", c.dca1.1 * c.dca2.1),
   ("dcaz1xdcaz2", c.dca1.2 * c.dca2.2),
   ("dcaxy3xdcaxy2", c.dca3.1 * c.dca2.1),
   ("dcaz3xdcaz2", c.dca3.2 * c.dca2.2),
   ("pt1", c.track1.pt),
   ("pt2", c.track2.pt),
   ("pt3", c.track3.pt),
   ("ptmom", TLorentzVector.Pt m c.v1),
   ("pmom", TLorentzVector.P m c.v1)]

/-- The bucket dispatch of lines 365-383: the no-cut group first, then the cut
group when `iscut`, the passing group otherwise. -/
def dispatch (c : Candidate F) : List (Fill F) :=
  (if c.issig then [Fill.mk Tag.signocut c] else [Fill.mk Tag.bkgnocut c]) ++
  (if c.iscut then
    (if c.issig then [Fill.mk Tag.sigcut c] else [Fill.mk Tag.bkgcut c])
  else
    (if c.issig then [Fill.mk Tag.sig c] else [Fill.mk Tag.bkg c]))

/-- The collision position used for the propagation (lines 172-174). -/
def collPos (coll : Collision F) : Point3D F :=
  { x := coll.mcPosX, y := coll.mcPosY, z := coll.mcPosZ }

/-- The flag `iscut` at line 256: the clauses on `dca1`, `dca2` and on the
transverse momenta of the second and third track (lines 234-256). -/
def iscutDaughters (cfg : Config F) (dca1 dca2 : F × F) (track2 track3 : Track F) : Bool :=
  let iscut := false
  let iscut := if |dca1.1| < cfg.minDca ∨ |dca1.2| < cfg.minDca then true else iscut
  let iscut := if |dca1.1| > cfg.maxDca ∨ |dca1.2| > cfg.maxDca then true else iscut
  let iscut := if |dca2.1| < cfg.minDca ∨ |dca2.2| < cfg.minDca then true else iscut
  let iscut := if |dca2.1| > cfg.maxDca ∨ |dca2.2| > cfg.maxDca then true else iscut
  let iscut := if |dca2.1| < cfg.minDcaPion ∨ |dca2.2| < cfg.minDcaPion then true else iscut
  let iscut := if track2.pt < cfg.minKaonPt then true else iscut
  let iscut := if track3.pt < cfg.minPionPt then true else iscut
  iscut

/-- The flag `iscut` at line 267: the clauses on `dca3` (lines 262-267) applied
to the value `iscut` of the flag at line 261. -/
def iscutPion (cfg : Config F) (dca3 : F × F) (iscut : Bool) : Bool :=
  let iscut := if |dca3.1| < cfg.minDca ∨ |dca3.2| < cfg.minDca then true else iscut
  let iscut := if |dca3.1| > cfg.maxDca ∨ |dca3.2| > cfg.maxDca then true else iscut
  iscut

/-- The flag `issig` (lines 269-278). The mothers are rows of one table, they
are compared by row index. -/
def issig (track1 track2 track3 : Track F) : Bool :=
  let mother1 := track1.mcParticle.mother0Id
  let mother2 := track2.mcParticle.mother0Id
  let mother3 := track3.mcParticle.mother0Id
  let issig := true
  let issig := if mother1 ≠ mother2 then false else issig
  let issig := if mother1 ≠ mother3 then false else issig
  issig

/-- Lines 300-336 for a triplet whose fit succeeded: the kinematics, the decay
radius, the pointing angle, the remaining clauses of `iscut` applied to the
value `iscut` of the flag at line 299, and the resolution observables; the
result collects the variables read by `FillHistos`. -/
def candidate (cfg : Config F) (env : Env F) (coll : Collision F)
    (track1 track2 track3 : Track F) (dca1 dca2 dca3 : F × F) (iscut issig : Bool)
    (fit : FitResult F) : Candidate F :=
  let v1 := TLorentzVector.SetPtEtaPhiM env.libm track1.pt track1.eta track1.phi
    (18756129 / 10000000)
  let v2 := TLorentzVector.SetPtEtaPhiM env.libm track2.pt track2.eta track2.phi
    (493677 / 1000000)
  let v3 := TLorentzVector.SetPtEtaPhiM env.libm track3.pt track3.eta track3.phi
    (139570 / 1000000)
  let v1 := TLorentzVector.add v1 v2
  let v1 := TLorentzVector.add v1 v3
  let iscut := if TLorentzVector.Pt env.libm v1 < cfg.minMomPt then true else iscut
  let secVtx := fit.pca
  let decay_radius :=
    env.libm.sqrt (secVtx.x * secVtx.x + secVtx.y * secVtx.y + secVtx.z * secVtx.z)
  let iscut := if decay_radius < cfg.minRadius then true else iscut
  let iscut := if decay_radius > cfg.maxRadius then true else iscut
  let magMom := env.libm.sqrt (v1.Px * v1.Px + v1.Py * v1.Py + v1.Pz * v1.Pz)
  let CPA := (v1.Px * secVtx.x + v1.Py * secVtx.y + v1.Pz * secVtx.z) /
    (decay_radius * magMom)
  let iscut := if |CPA| < cfg.minCpa then true else iscut
  let mother1 := env.mcParticles track1.mcParticle.mother0Id
  let vx := mother1.vx
  let vy := mother1.vy
  let vz := mother1.vz
  let rmc := env.libm.sqrt ((secVtx.x - vx) * (secVtx.x - vx) +
    (secVtx.y - vy) * (secVtx.y - vy) + (secVtx.z - vz) * (secVtx.z - vz))
  let radius3xy := env.libm.sqrt
    ((track3.mcParticle.vx - coll.mcPosX) * (track3.mcParticle.vx - coll.mcPosX) +
     (track3.mcParticle.vy - coll.mcPosY) * (track3.mcParticle.vy - coll.mcPosY))
  { track1 := track1, track2 := track2, track3 := track3,
    dca1 := dca1, dca2 := dca2, dca3 := dca3,
    issig := issig, iscut := iscut, fit := fit, v1 := v1,
    decay_radius := decay_radius, magMom := magMom, CPA := CPA,
    vx := vx, vy := vy, vz := vz, rmc := rmc, radius3xy := radius3xy }

/-- Body of the loop on pions (lines 223-386) for the outer tracks `track1`,
`track2`. The straight-line blocks are `iscutDaughters` (lines 234-256),
`iscutPion` (262-267), `issig` (269-278), `candidate` (300-336) and `dispatch`
(365-383); a `continue` returns the state reached so far. -/
def pionBody (cfg : Config F) (env : Env F) (coll : Collision F)
    (track1 track2 : Track F) (st : State F) (track3 : Track F) : State F :=
  let index1 := track1.globalIndex
  let index2 := track2.globalIndex
  let index3 := track3.globalIndex
  if index2 = index3 then st
  else if index1 = index3 then st
  else if track3.mcParticle.pdgCode ≠ 211 then st
  else
    let iscut := iscutDaughters cfg st.dca1 st.dca2 track2 track3
    match env.propagateParamToDCA track3 (collPos coll) (cfg.magField * 10) 100 with
    | none => st
    | some dca3 =>
      let st := { st with dca3 := dca3 }
      let iscut := iscutPion cfg st.dca3 iscut
      let issig := issig track1 track2 track3
      let pc1 := track1
      let pc2 := track2
      let pc3 := track3
      if pc1.sigmaY2 * pc1.sigmaZ2 - pc1.sigmaZY * pc1.sigmaZY < 0 then st
      else if pc2.sigmaY2 * pc2.sigmaZ2 - pc2.sigmaZY * pc2.sigmaZY < 0 then st
      else if pc3.sigmaY2 * pc3.sigmaZ2 - pc3.sigmaZY * pc3.sigmaZY < 0 then st
      else
        let fit := env.fitterProcess pc1 pc2 pc3
        let st := { st with fitCalls := st.fitCalls ++ [(pc1, pc2, pc3)] }
        if fit.status = 0 then st
        else
          let c := candidate cfg env coll track1 track2 track3 st.dca1 st.dca2 st.dca3
            iscut issig fit
          let st := { st with ncand := st.ncand + 1 }
          { st with fills := st.fills ++ dispatch c }

/-- Body of the loop on kaons (lines 209-388) for the outer track `track1`. -/
def kaonBody (cfg : Config F) (env : Env F) (coll : Collision F) (tracks : List (Track F))
    (track1 : Track F) (st : State F) (track2 : Track F) : State F :=
  let index1 := track1.globalIndex
  let index2 := track2.globalIndex
  if index1 = index2 then st
  else if track2.mcParticle.pdgCode ≠ -321 then st
  else
    match env.propagateParamToDCA track2 (collPos coll) (cfg.magField * 10) 100 with
    | none => st
    | some dca2 =>
      let st := { st with dca2 := dca2 }
      tracks.foldl (pionBody cfg env coll track1 track2) st

/-- Body of the loop on deuterons (lines 198-390). -/
def deuteronBody (cfg : Config F) (env : Env F) (coll : Collision F) (tracks : List (Track F))
    (st : State F) (track1 : Track F) : State F :=
  let st := { st with ncand := 0 }
  if track1.mcParticle.pdgCode ≠ 1000010020 then st
  else
    match env.propagateParamToDCA track1 (collPos coll) (cfg.magField * 10) 100 with
    | none => st
    | some dca1 =>
      let st := { st with dca1 := dca1 }
      let st := tracks.foldl (kaonBody cfg env coll tracks track1) st
      { st with candperdeuteron := st.candperdeuteron ++ [st.ncand] }

/-- The state at line 197: the three DCA arrays hold the placeholder `1e10`. -/
def initState : State F :=
  { dca1 := (10 ^ 10, 10 ^ 10), dca2 := (10 ^ 10, 10 ^ 10), dca3 := (10 ^ 10, 10 ^ 10),
    ncand := 0, fills := [], candperdeuteron := [], fitCalls := [] }

/-- The candidate search of `Alice3CDeuteron::process` (lines 194-390). -/
def process (cfg : Config F) (env : Env F) (coll : Collision F) (tracks : List (Track F)) :
    State F :=
  tracks.foldl (deuteronBody cfg env coll tracks) initState

/-! ## Per-iteration contributions

The contribution of one loop iteration to the histogram registry is read off a
run of the loop body on an empty registry. -/

/-- An empty registry with the given contents of the three DCA arrays. -/
def blank (d1 d2 d3 : F × F) : State F :=
  { dca1 := d1, dca2 := d2, dca3 := d3, ncand := 0, fills := [],
    candperdeuteron := [], fitCalls := [] }

/-- The `FillHistos` expansions of one iteration of the pion loop, when `dca1`
and `dca2` hold `d1` and `d2`. -/
def pionFills (cfg : Config F) (env : Env F) (coll : Collision F)
    (track1 track2 : Track F) (d1 d2 : F × F) (track3 : Track F) : List (Fill F) :=
  (pionBody cfg env coll track1 track2 (blank d1 d2 d2) track3).fills

/-- The `FillHistos` expansions of one iteration of the kaon loop, when `dca1`
holds `d1`. -/
def kaonFills (cfg : Config F) (env : Env F) (coll : Collision F) (tracks : List (Track F))
    (track1 : Track F) (d1 : F × F) (track2 : Track F) : List (Fill F) :=
  (kaonBody cfg env coll tracks track1 (blank d1 d1 d1) track2).fills

/-- The `FillHistos` expansions of one iteration of the deuteron loop. -/
def deuteronFills (cfg : Config F) (env : Env F) (coll : Collision F)
    (tracks : List (Track F)) (track1 : Track F) : List (Fill F) :=
  (deuteronBody cfg env coll tracks (blank (0, 0) (0, 0) (0, 0)) track1).fills

/-- The candidate built for a triplet whose three propagations returned `d1`,
`d2`, `d3`: the composition of the straight-line blocks of `pionBody`. -/
def scored (cfg : Config F) (env : Env F) (coll : Collision F)
    (t1 t2 t3 : Track F) (d1 d2 d3 : F × F) : Candidate F :=
  candidate cfg env coll t1 t2 t3 d1 d2 d3
    (iscutPion cfg d3 (iscutDaughters cfg d1 d2 t2 t3)) (issig t1 t2 t3)
    (env.fitterProcess t1 t2 t3)

/-- The propagation of a track to the collision position, as called at lines
203, 217 and 257. -/
def propagate (cfg : Config F) (env : Env F) (coll : Collision F) (t : Track F) :
    Option (F × F) :=
  env.propagateParamToDCA t (collPos coll) (cfg.magField * 10) 100

/-- The covariance check of lines 283-294 passes: the determinant of the (Y,Z)
block is not negative. -/
def covOk (t : Track F) : Prop :=
  ¬ (t.sigmaY2 * t.sigmaZ2 - t.sigmaZY * t.sigmaZY < 0)

instance (t : Track F) : Decidable (covOk t) := by
  unfold covOk
  infer_instance

/-- The triplets that are scored: species, pairwise distinct global indices,
three successful propagations, three covariance checks passed and a non-zero
fit status. -/
def Viable (cfg : Config F) (env : Env F) (coll : Collision F) (t1 t2 t3 : Track F) : Prop :=
  t1.mcParticle.pdgCode = 1000010020 ∧ t2.mcParticle.pdgCode = -321 ∧
  t3.mcParticle.pdgCode = 211 ∧
  t1.globalIndex ≠ t2.globalIndex ∧ t2.globalIndex ≠ t3.globalIndex ∧
  t1.globalIndex ≠ t3.globalIndex ∧
  (propagate cfg env coll t1).isSome = true ∧ (propagate cfg env coll t2).isSome = true ∧
  (propagate cfg env coll t3).isSome = true ∧
  covOk t1 ∧ covOk t2 ∧ covOk t3 ∧
  (env.fitterProcess t1 t2 t3).status ≠ 0

instance (cfg : Config F) (env : Env F) (coll : Collision F) (t1 t2 t3 : Track F) :
    Decidable (Viable cfg env coll t1 t2 t3) := by
  unfold Viable
  infer_instance

/-- The ordered triplets of rows of the track table, in the order of the three
nested loops. -/
def triplets (tracks : List (Track F)) : List (Track F × Track F × Track F) :=
  tracks.flatMap fun t1 => tracks.flatMap fun t2 => tracks.map fun t3 => (t1, t2, t3)

/-- The `FillHistos` expansions executed for one ordered triplet of rows. -/
def tripletFills (cfg : Config F) (env : Env F) (coll : Collision F)
    (t1 t2 t3 : Track F) : List (Fill F) :=
  if Viable cfg env coll t1 t2 t3 then
    match propagate cfg env coll t1, propagate cfg env coll t2, propagate cfg env coll t3 with
    | some d1, some d2, some d3 => dispatch (scored cfg env coll t1 t2 t3 d1 d2 d3)
    | _, _, _ => []
  else []

/-- The no-cut groups. -/
def Tag.isNoCut : Tag → Bool
  | Tag.signocut => true
  | Tag.bkgnocut => true
  | _ => false

/-- The passing groups. -/
def Tag.isPassing : Tag → Bool
  | Tag.sig => true
  | Tag.bkg => true
  | _ => false

/-- The cut groups. -/
def Tag.isCutGroup : Tag → Bool
  | Tag.sigcut => true
  | Tag.bkgcut => true
  | _ => false

/-- The signal groups. -/
def Tag.isSignal : Tag → Bool
  | Tag.sig => true
  | Tag.signocut => true
  | Tag.sigcut => true
  | _ => false

/-- The row has a mother: its `mother0Id` is a row index of the table. -/
def hasMother (t : Track F) : Prop := 0 ≤ t.mcParticle.mother0Id

instance (t : Track F) : Decidable (hasMother t) := by
  unfold hasMother
  infer_instance

/-- The clauses of the cut verdict as the specification lists them (section
4.5), on the observables of a candidate: either DCA component of each of the
three tracks below `minDca` or above `maxDca` in absolute value, either DCA
component of the second track below `minDcaPion`, the transverse momentum of
the second track below `minKaonPt`, of the third below `minPionPt`, the
combined transverse momentum below `minMomPt`, the decay radius below
`minRadius` or above `maxRadius`, the absolute pointing-angle cosine below
`minCpa`. All comparisons are strict. -/
def CutClauses (cfg : Config F) (m : Libm F) (c : Candidate F) : Prop :=
  (|c.dca1.1| < cfg.minDca ∨ |c.dca1.2| < cfg.minDca ∨
    |c.dca1.1| > cfg.maxDca ∨ |c.dca1.2| > cfg.maxDca) ∨
  (|c.dca2.1| < cfg.minDca ∨ |c.dca2.2| < cfg.minDca ∨
    |c.dca2.1| > cfg.maxDca ∨ |c.dca2.2| > cfg.maxDca) ∨
  (|c.dca3.1| < cfg.minDca ∨ |c.dca3.2| < cfg.minDca ∨
    |c.dca3.1| > cfg.maxDca ∨ |c.dca3.2| > cfg.maxDca) ∨
  (|c.dca2.1| < cfg.minDcaPion ∨ |c.dca2.2| < cfg.minDcaPion) ∨
  c.track2.pt < cfg.minKaonPt ∨
  c.track3.pt < cfg.minPionPt ∨
  TLorentzVector.Pt m c.v1 < cfg.minMomPt ∨
  c.decay_radius < cfg.minRadius ∨
  c.decay_radius > cfg.maxRadius ∨
  |c.CPA| < cfg.minCpa

/-- The two entries the specification prescribes for a scored candidate
(section 4.6, step 10): the no-cut group of its flavour, then the cut group of
its flavour when it is cut and the passing group of its flavour otherwise. -/
def routed (c : Candidate F) : List (Fill F) :=
  [Fill.mk (if c.issig then Tag.signocut else Tag.bkgnocut) c,
   Fill.mk (if c.iscut then (if c.issig then Tag.sigcut else Tag.bkgcut)
     else (if c.issig then Tag.sig else Tag.bkg)) c]

/-- Every recorded call of the fitter has three arguments that passed the
covariance check. -/
def FitCallsChecked (st : State F) : Prop :=
  ∀ x ∈ st.fitCalls, covOk x.1 ∧ covOk x.2.1 ∧ covOk x.2.2

/-- The number of entries of the no-cut groups among `l`. -/
def noCutCount (l : List (Fill F)) : Int :=
  ((l.filter fun f => f.tag.isNoCut).length : Int)

/-- The outer track passes the guards of the deuteron loop (lines 200-206):
heavy species and successful propagation. -/
def OuterOk (cfg : Config F) (env : Env F) (coll : Collision F) (t1 : Track F) : Prop :=
  t1.mcParticle.pdgCode = 1000010020 ∧ (propagate cfg env coll t1).isSome = true

instance (cfg : Config F) (env : Env F) (coll : Collision F) (t1 : Track F) :
    Decidable (OuterOk cfg env coll t1) := by
  unfold OuterOk
  infer_instance

/-- The ordered pairs of rows that form a viable triplet with the outer row
`t1`, in loop order. -/
def viableWith (cfg : Config F) (env : Env F) (coll : Collision F) (tracks : List (Track F))
    (t1 : Track F) : List (Track F × Track F) :=
  tracks.flatMap fun t2 =>
    (tracks.filter fun t3 => decide (Viable cfg env coll t1 t2 t3)).map fun t3 => (t2, t3)

/-- The contents of the no-cut groups among `l`: for each entry the group, the
three rows of the candidate and the values handed to the `histos.fill` calls of
`FillHistos`. -/
def noCutContents (m : Libm F) (l : List (Fill F)) :
    List (Tag × Track F × Track F × Track F × List (String × F)) :=
  (l.filter fun f => f.tag.isNoCut).map fun f =>
    (f.tag, f.cand.track1, f.cand.track2, f.cand.track3, FillHistos m f.cand)

/-- Two states agree on everything but the choice between the passing and the
cut groups: same DCA arrays, same `ncand`, same values filled in
`event/candperdeuteron`, same calls of the fitter, same contents of the no-cut
groups. -/
def SameNoCut (m : Libm F) (a b : State F) : Prop :=
  a.dca1 = b.dca1 ∧ a.dca2 = b.dca2 ∧ a.dca3 = b.dca3 ∧ a.ncand = b.ncand ∧
  a.candperdeuteron = b.candperdeuteron ∧ a.fitCalls = b.fitCalls ∧
  noCutContents m a.fills = noCutContents m b.fills

/-- The cuts are disabled for the candidate (section 8, scenario 1): every
minimum threshold is at most, and every maximum threshold at least, the
observable it is compared with. -/
def CutsDisabledFor (cfg : Config F) (m : Libm F) (c : Candidate F) : Prop :=
  (cfg.minDca ≤ |c.dca1.1| ∧ cfg.minDca ≤ |c.dca1.2| ∧
    |c.dca1.1| ≤ cfg.maxDca ∧ |c.dca1.2| ≤ cfg.maxDca) ∧
  (cfg.minDca ≤ |c.dca2.1| ∧ cfg.minDca ≤ |c.dca2.2| ∧
    |c.dca2.1| ≤ cfg.maxDca ∧ |c.dca2.2| ≤ cfg.maxDca) ∧
  (cfg.minDca ≤ |c.dca3.1| ∧ cfg.minDca ≤ |c.dca3.2| ∧
    |c.dca3.1| ≤ cfg.maxDca ∧ |c.dca3.2| ≤ cfg.maxDca) ∧
  (cfg.minDcaPion ≤ |c.dca2.1| ∧ cfg.minDcaPion ≤ |c.dca2.2|) ∧
  cfg.minKaonPt ≤ c.track2.pt ∧
  cfg.minPionPt ≤ c.track3.pt ∧
  cfg.minMomPt ≤ TLorentzVector.Pt m c.v1 ∧
  cfg.minRadius ≤ c.decay_radius ∧
  c.decay_radius ≤ cfg.maxRadius ∧
  cfg.minCpa ≤ |c.CPA|

/-- The row `t` with its mother replaced by the row `m` of the truth table. -/
def withMother (t : Track F) (m : Int) : Track F :=
  { t with mcParticle := { t.mcParticle with mother0Id := m } }

/-- The cosine of the pointing angle as the specification defines it
(glossary): the cosine of the angle between the momentum `p` and the vector
from the event vertex `v` to the decay vertex `s`,
`p . (s - v) / (|p| * |s - v|)`. -/
def pointingCosine (m : Libm F) (p : TLorentzVector F) (s v : Point3D F) : F :=
  (p.x * (s.x - v.x) + p.y * (s.y - v.y) + p.z * (s.z - v.z)) /
    (m.sqrt (p.x * p.x + p.y * p.y + p.z * p.z) *
      m.sqrt ((s.x - v.x) * (s.x - v.x) + (s.y - v.y) * (s.y - v.y) +
        (s.z - v.z) * (s.z - v.z)))

/-- The momentum of a track as the specification builds it (section 4.3):
`(pt cos phi, pt sin phi, pt sinh eta)`. -/
def analyticP (m : Libm F) (t : Track F) : F × F × F :=
  (t.pt * m.cos t.phi, t.pt * m.sin t.phi, t.pt * m.sinh t.eta)

/-- The energy of a track under the mass hypothesis `mass`:
`sqrt(mass^2 + |p|^2)`. -/
def analyticE (m : Libm F) (mass : F) (t : Track F) : F :=
  m.sqrt (mass ^ 2 +
    ((analyticP m t).1 ^ 2 + (analyticP m t).2.1 ^ 2 + (analyticP m t).2.2 ^ 2))

/-- The sum of the three momenta. -/
def analyticSumP (m : Libm F) (t1 t2 t3 : Track F) : F × F × F :=
  ((analyticP m t1).1 + (analyticP m t2).1 + (analyticP m t3).1,
   (analyticP m t1).2.1 + (analyticP m t2).2.1 + (analyticP m t3).2.1,
   (analyticP m t1).2.2 + (analyticP m t2).2.2 + (analyticP m t3).2.2)

/-- The squared invariant mass of the four-momentum sum of the three tracks
with the mass hypotheses 1.8756129, 0.493677 and 0.139570:
`(E1 + E2 + E3)^2 - |p1 + p2 + p3|^2`. -/
def analyticMass2 (m : Libm F) (t1 t2 t3 : Track F) : F :=
  (analyticE m (18756129 / 10000000) t1 + analyticE m (493677 / 1000000) t2 +
      analyticE m (139570 / 1000000) t3) ^ 2 -
    ((analyticSumP m t1 t2 t3).1 ^ 2 + (analyticSumP m t1 t2 t3).2.1 ^ 2 +
      (analyticSumP m t1 t2 t3).2.2 ^ 2)

/-- The clauses of the cut verdict that do not read `minDcaPion`: the clauses
of `CutClauses` without the comparison of the DCA components of the second
track with `minDcaPion`. -/
def CutClausesExceptDcaPion (cfg : Config F) (m : Libm F) (c : Candidate F) : Prop :=
  (|c.dca1.1| < cfg.minDca ∨ |c.dca1.2| < cfg.minDca ∨
    |c.dca1.1| > cfg.maxDca ∨ |c.dca1.2| > cfg.maxDca) ∨
  (|c.dca2.1| < cfg.minDca ∨ |c.dca2.2| < cfg.minDca ∨
    |c.dca2.1| > cfg.maxDca ∨ |c.dca2.2| > cfg.maxDca) ∨
  (|c.dca3.1| < cfg.minDca ∨ |c.dca3.2| < cfg.minDca ∨
    |c.dca3.1| > cfg.maxDca ∨ |c.dca3.2| > cfg.maxDca) ∨
  c.track2.pt < cfg.minKaonPt ∨
  c.track3.pt < cfg.minPionPt ∨
  TLorentzVector.Pt m c.v1 < cfg.minMomPt ∨
  c.decay_radius < cfg.minRadius ∨
  c.decay_radius > cfg.maxRadius ∨
  |c.CPA| < cfg.minCpa

/-- The body of the loop on pions with the two index comparisons of lines
225-230 removed; the rest is the body `pionBody`. -/
def pionBodyNoIndexCheck (cfg : Config F) (env : Env F) (coll : Collision F)
    (track1 track2 : Track F) (st : State F) (track3 : Track F) : State F :=
  if track3.mcParticle.pdgCode ≠ 211 then st
  else
    let iscut := iscutDaughters cfg st.dca1 st.dca2 track2 track3
    match env.propagateParamToDCA track3 (collPos coll) (cfg.magField * 10) 100 with
    | none => st
    | some dca3 =>
      let st := { st with dca3 := dca3 }
      let iscut := iscutPion cfg st.dca3 iscut
      let issig := issig track1 track2 track3
      let pc1 := track1
      let pc2 := track2
      let pc3 := track3
      if pc1.sigmaY2 * pc1.sigmaZ2 - pc1.sigmaZY * pc1.sigmaZY < 0 then st
      else if pc2.sigmaY2 * pc2.sigmaZ2 - pc2.sigmaZY * pc2.sigmaZY < 0 then st
      else if pc3.sigmaY2 * pc3.sigmaZ2 - pc3.sigmaZY * pc3.sigmaZY < 0 then st
      else
        let fit := env.fitterProcess pc1 pc2 pc3
        let st := { st with fitCalls := st.fitCalls ++ [(pc1, pc2, pc3)] }
        if fit.status = 0 then st
        else
          let c := candidate cfg env coll track1 track2 track3 st.dca1 st.dca2 st.dca3
            iscut issig fit
          let st := { st with ncand := st.ncand + 1 }
          { st with fills := st.fills ++ dispatch c }

/-- The body of the loop on kaons with the index comparison of lines 210-212
removed. -/
def kaonBodyNoIndexCheck (cfg : Config F) (env : Env F) (coll : Collision F)
    (tracks : List (Track F)) (track1 : Track F) (st : State F) (track2 : Track F) : State F :=
  if track2.mcParticle.pdgCode ≠ -321 then st
  else
    match env.propagateParamToDCA track2 (collPos coll) (cfg.magField * 10) 100 with
    | none => st
    | some dca2 =>
      let st := { st with dca2 := dca2 }
      tracks.foldl (pionBodyNoIndexCheck cfg env coll track1 track2) st

/-- The body of the loop on deuterons over the loops without index
comparisons. -/
def deuteronBodyNoIndexCheck (cfg : Config F) (env : Env F) (coll : Collision F)
    (tracks : List (Track F)) (st : State F) (track1 : Track F) : State F :=
  let st := { st with ncand := 0 }
  if track1.mcParticle.pdgCode ≠ 1000010020 then st
  else
    match env.propagateParamToDCA track1 (collPos coll) (cfg.magField * 10) 100 with
    | none => st
    | some dca1 =>
      let st := { st with dca1 := dca1 }
      let st := tracks.foldl (kaonBodyNoIndexCheck cfg env coll tracks track1) st
      { st with candperdeuteron := st.candperdeuteron ++ [st.ncand] }

/-- The candidate search with the three index comparisons removed: the species
filters alone select the rows of a triplet. -/
def processNoIndexCheck (cfg : Config F) (env : Env F) (coll : Collision F)
    (tracks : List (Track F)) : State F :=
  tracks.foldl (deuteronBodyNoIndexCheck cfg env coll tracks) initState

/-- The candidates scored for one ordered triplet of rows: the candidate built
at lines 300-336 when the triplet passes every guard of the loops (`Viable`),
none otherwise. -/
def tripletCandidates (cfg : Config F) (env : Env F) (coll : Collision F)
    (t1 t2 t3 : Track F) : List (Candidate F) :=
  if Viable cfg env coll t1 t2 t3 then
    match propagate cfg env coll t1, propagate cfg env coll t2, propagate cfg env coll t3 with
    | some d1, some d2, some d3 => [scored cfg env coll t1 t2 t3 d1 d2 d3]
    | _, _, _ => []
  else []

/-- The scored candidates of an event: one for each ordered triplet of rows of
the track table that passes every guard of the loops, in loop order. It is
read off the table, the collaborators and the guards, not off the registry. -/
def scoredCandidates (cfg : Config F) (env : Env F) (coll : Collision F)
    (tracks : List (Track F)) : List (Candidate F) :=
  (triplets tracks).flatMap fun t => tripletCandidates cfg env coll t.1 t.2.1 t.2.2

/-! ## A sample event -/

/-- A sample row of the track table: unit transverse momentum, `eta = phi = 0`,
particle produced at the origin, with the given global index, species, mother
and (Y,Z) covariance block. -/
def sampleTrack (index pdg mother : Int) (sigmaY2 sigmaZ2 sigmaZY : F) : Track F :=
  { globalIndex := index,
    mcParticle := { pdgCode := pdg, mother0Id := mother, vx := 0, vy := 0, vz := 0 },
    pt := 1, eta := 0, phi := 0,
    sigmaY2 := sigmaY2, sigmaZ2 := sigmaZ2, sigmaZY := sigmaZY }

/-- Sample collaborators: the propagation of a row returns `prop` of the row,
the fit returns `status` and the vertex `(3/100, 0, 4/100)`, the truth table
holds particles produced at the origin. -/
def sampleEnv (m : Libm F) (prop : Track F → Option (F × F)) (status : Int) : Env F :=
  { libm := m,
    propagateParamToDCA := fun t _ _ _ => prop t,
    fitterProcess := fun _ _ _ =>
      { status := status, pca := { x := 3 / 100, y := 0, z := 4 / 100 },
        chi2AtPCACandidate0 := 0, chi2AtPCACandidate1 := 0 },
    mcParticles := fun _ => { pdgCode := 0, mother0Id := -1, vx := 0, vy := 0, vz := 0 } }

/-- A sample collision at the origin. -/
def sampleColl : Collision F :=
  { posX := 0, posY := 0, posZ := 0, mcPosX := 0, mcPosY := 0, mcPosZ := 0 }

/-- A deuteron row with global index 0 and mother 7. -/
def sampleDeuteron : Track F := sampleTrack 0 1000010020 7 1 1 0

/-- A kaon row with global index 1 and mother 7. -/
def sampleKaon : Track F := sampleTrack 1 (-321) 7 1 1 0

/-- A pion row with global index 2 and mother 7. -/
def samplePion : Track F := sampleTrack 2 211 7 1 1 0

/-- A propagation that succeeds for every row with the DCA `(1/100, 1/100)`. -/
def sampleProp : Track F → Option (F × F) := fun _ => some (1 / 100, 1 / 100)

/-- A propagation that succeeds for every row: DCA `(1/100, 1/100)` for the
pions, `(1/2, 1/2)` for the other rows. -/
def samplePropWide : Track F → Option (F × F) := fun t =>
  if t.mcParticle.pdgCode = 211 then some (1 / 100, 1 / 100) else some (1 / 2, 1 / 2)

end Alice3CDeuteron

/-!
# HfCorrelatorD0D0bar: `PWGHF/Tasks/HFCorrelatorD0D0bar.cxx`

Shallow embedding of `getDeltaPhi` (lines 37-40), of the pair loops of
`HfCorrelatorD0D0bar::processData` (lines 132-234) and
`HfCorrelatorD0D0bar::processMcRec` (lines 239-373), and of the acceptance scan
executed for each written pair (lines 216-227 and 358-369). The rows written by
`entryD0D0barPair` and `entryD0D0barRecoInfo` are the state of the pair loops;
the histograms of the registry are not, the fills of `hDDbarVsEtaCut` are the
result of the scan. An exception thrown by `efficiencyDmeson->at` ends the
processing: the state keeps the rows written so far and is marked `aborted`.
-/

namespace HfCorrelatorD0D0bar

variable {F : Type} [LinearOrderedField F]

/-- Modelled from the spec: `RecoDecay::constrainAngle` is not part of the
sources; `getDeltaPhi` documents its result as a value "in range
[-pi/2., 3.*pi/2]" for `min = -pi/2`. First loop of the helper,
`while (angle < min) angle += 2 pi`, with at most `fuel` evaluations of the
loop condition (`none` when they do not suffice). -/
def constrainAngleUp (twoPi : F) : Nat → F → F → Option F
  | 0, _, _ => none
  | fuel + 1, angle, min =>
    if angle < min then constrainAngleUp twoPi fuel (angle + twoPi) min else some angle

/-- Modelled from the spec: second loop of `RecoDecay::constrainAngle`,
`while (angle >= min + 2 pi) angle -= 2 pi`, with at most `fuel` evaluations
of the loop condition. -/
def constrainAngleDown (twoPi : F) : Nat → F → F → Option F
  | 0, _, _ => none
  | fuel + 1, angle, min =>
    if angle ≥ min + twoPi then constrainAngleDown twoPi fuel (angle - twoPi) min
    else some angle

/-- Modelled from the spec: `RecoDecay::constrainAngle(angle, min)`, the two
loops in sequence; `pi` is the constant `M_PI`. -/
def constrainAngle (pi : F) (fuel : Nat) (angle min : F) : Option F :=
  (constrainAngleUp (2 * pi) fuel angle min).bind fun a =>
    constrainAngleDown (2 * pi) fuel a min

/-- The function `getDeltaPhi(phiD, phiDbar)` (lines 37-40); `pi` is the
constant `o2::constants::math::PI`. -/
def getDeltaPhi (pi : F) (fuel : Nat) (phiD phiDbar : F) : Option F :=
  constrainAngle pi fuel (phiDbar - phiD) (-pi / 2)

/-- Row of the filtered candidate table (`HfCandProng2`, `HFSelD0Candidate`,
`HfCandProng2MCRec`): the columns read by the pair loop. -/
structure HfCandidate (F : Type) where
  mRowIndex : Int
  hfflag : Nat
  isSelD0 : Int
  isSelD0bar : Int
  flagMCMatchRec : Int
  pt : F
  eta : F
  phi : F

/-- Row of the track table: the columns read by the multiplicity count. -/
structure TrackExtended (F : Type) where
  eta : F
  dcaXY : F
  dcaZ : F

/-- The configurables of the task (lines 101-109). -/
structure CorrelatorConfig (F : Type) where
  selectionFlagD0 : Int
  selectionFlagD0bar : Int
  cutYCandMax : F
  cutPtCandMin : F
  bins : List F
  efficiencyDmeson : List F
  flagApplyEfficiency : Int
  multMin : F
  multMax : F

/-- What the task takes from headers that are not part of the sources: the
constant `o2::constants::math::PI`, the enumerator `DecayType::D0ToPiK`, the
helpers `YD0`, `InvMassD0`, `InvMassD0bar` and `o2::analysis::findBin`. -/
structure CorrelatorEnv (F : Type) where
  pi : F
  D0ToPiK : Nat
  YD0 : HfCandidate F → F
  InvMassD0 : HfCandidate F → F
  InvMassD0bar : HfCandidate F → F
  findBin : List F → F → Int

/-- The value `1 << DecayType::D0ToPiK`. -/
def decayBit (env : CorrelatorEnv F) : Int := ((1 <<< env.D0ToPiK : Nat) : Int)

/-- The test `candidate.hfflag() & 1 << DecayType::D0ToPiK`. -/
def hasDecayFlag (env : CorrelatorEnv F) (candidate : HfCandidate F) : Bool :=
  candidate.hfflag &&& (1 <<< env.D0ToPiK) != 0

/-- The call `v.at(i)` of `std::vector`: `none` when it throws
`std::out_of_range`. -/
def vectorAt (v : List F) (i : Int) : Option F :=
  if i < 0 then none else v.get? i.toNat

/-- The efficiency weight of a candidate (lines 276-279): `none` when
`efficiencyDmeson->at` throws. -/
def efficiencyWeight (cfg : CorrelatorConfig F) (env : CorrelatorEnv F) (pt : F) : Option F :=
  if cfg.flagApplyEfficiency ≠ 0 then
    match vectorAt cfg.efficiencyDmeson (env.findBin cfg.bins pt) with
    | none => none
    | some e => some (1 / e)
  else some 1

/-- The multiplicity `nTracks` (lines 241-252). -/
def countTracks (numContrib : Int) (tracks : List (TrackExtended F)) : Int :=
  if numContrib > 1 then
    tracks.foldl (fun nTracks track =>
      if track.eta < -4 ∨ track.eta > 4 then nTracks
      else if |track.dcaXY| > 25 / 10000 ∨ |track.dcaZ| > 25 / 10000 then nTracks
      else nTracks + 1) 0
  else 0

/-- One call of `entryD0D0barPair` followed by `entryD0D0barRecoInfo` (lines
351-357): the two candidates in scope and the seven values written.
`deltaPhi` is `none` when the loops of `getDeltaPhi` exceed the fuel. -/
structure PairEntry (F : Type) where
  candidate1 : HfCandidate F
  candidate2 : HfCandidate F
  deltaPhi : Option F
  deltaEta : F
  ptD : F
  ptDbar : F
  mD0 : F
  mD0bar : F
  signalStatus : Int

/-- The state of `processMcRec`: the four flags declared at lines 260-263, the
rows written so far, and whether an exception has ended the processing. -/
structure McRecState (F : Type) where
  flagD0Signal : Bool
  flagD0Reflection : Bool
  flagD0barSignal : Bool
  flagD0barReflection : Bool
  entries : List (PairEntry F)
  aborted : Bool

/-- The value `pairSignalStatus` (lines 338-350) for the values of the four
flags at line 337. -/
def pairSignalStatus (flagD0Signal flagD0Reflection flagD0barSignal flagD0barReflection : Bool) :
    Int :=
  let pairSignalStatus : Int := 0
  let pairSignalStatus := if flagD0Signal then pairSignalStatus + 6 else pairSignalStatus
  let pairSignalStatus := if flagD0Reflection then pairSignalStatus + 3 else pairSignalStatus
  let pairSignalStatus := if flagD0barSignal then pairSignalStatus + 2 else pairSignalStatus
  let pairSignalStatus := if flagD0barReflection then pairSignalStatus + 1 else pairSignalStatus
  pairSignalStatus

/-- Body of the inner loop of `processMcRec` (lines 319-357, without the
histogram scan of lines 358-369); the straight-line block of lines 338-350 is
`pairSignalStatus`. -/
def mcRecInner (cfg : CorrelatorConfig F) (env : CorrelatorEnv F) (fuel : Nat)
    (candidate1 : HfCandidate F) (st : McRecState F) (candidate2 : HfCandidate F) :
    McRecState F :=
  if hasDecayFlag env candidate2 = false then st
  else if candidate2.isSelD0bar < cfg.selectionFlagD0bar then st
  else
    let st := { st with
      flagD0barSignal := decide (candidate2.flagMCMatchRec = -decayBit env),
      flagD0barReflection := decide (candidate2.flagMCMatchRec = decayBit env) }
    if cfg.cutYCandMax ≥ 0 ∧ |env.YD0 candidate2| > cfg.cutYCandMax then st
    else if cfg.cutPtCandMin ≥ 0 ∧ candidate2.pt < cfg.cutPtCandMin then st
    else if candidate1.mRowIndex = candidate2.mRowIndex then st
    else
      { st with entries := st.entries ++
          [{ candidate1 := candidate1, candidate2 := candidate2,
             deltaPhi := getDeltaPhi env.pi fuel candidate2.phi candidate1.phi,
             deltaEta := candidate2.eta - candidate1.eta,
             ptD := candidate1.pt, ptDbar := candidate2.pt,
             mD0 := env.InvMassD0 candidate1, mD0bar := env.InvMassD0bar candidate2,
             signalStatus := pairSignalStatus st.flagD0Signal st.flagD0Reflection
               st.flagD0barSignal st.flagD0barReflection }] }

/-- Body of the outer loop of `processMcRec` (lines 264-372). -/
def mcRecOuter (cfg : CorrelatorConfig F) (env : CorrelatorEnv F) (fuel : Nat)
    (candidates : List (HfCandidate F)) (st : McRecState F) (candidate1 : HfCandidate F) :
    McRecState F :=
  if st.aborted then st
  else if hasDecayFlag env candidate1 = false then st
  else if cfg.cutYCandMax ≥ 0 ∧ |env.YD0 candidate1| > cfg.cutYCandMax then st
  else if cfg.cutPtCandMin ≥ 0 ∧ candidate1.pt < cfg.cutPtCandMin then st
  else
    match efficiencyWeight cfg env candidate1.pt with
    | none => { st with aborted := true }
    | some _ =>
      if candidate1.isSelD0 < cfg.selectionFlagD0 then st
      else
        let st := { st with
          flagD0Signal := decide (candidate1.flagMCMatchRec = decayBit env),
          flagD0Reflection := decide (candidate1.flagMCMatchRec = -decayBit env) }
        candidates.foldl (mcRecInner cfg env fuel candidate1) st

/-- The state at line 264. -/
def mcRecInit : McRecState F :=
  { flagD0Signal := false, flagD0Reflection := false, flagD0barSignal := false,
    flagD0barReflection := false, entries := [], aborted := false }

/-- The rows written by `HfCorrelatorD0D0bar::processMcRec` (lines 239-373). -/
def processMcRec (cfg : CorrelatorConfig F) (env : CorrelatorEnv F) (fuel : Nat)
    (numContrib : Int) (tracks : List (TrackExtended F))
    (candidates : List (HfCandidate F)) : McRecState F :=
  let nTracks := countTracks numContrib tracks
  if (nTracks : F) < cfg.multMin ∨ (nTracks : F) > cfg.multMax then mcRecInit
  else candidates.foldl (mcRecOuter cfg env fuel candidates) mcRecInit

/-- The three classes of a candidate under a mass hypothesis. -/
inductive MatchClass where
  | background
  | reflection
  | signal
  deriving DecidableEq, Repr

/-- The number of a class in the table of line 338: background 0, reflection
1, signal 2. -/
def MatchClass.code : MatchClass → Int
  | MatchClass.background => 0
  | MatchClass.reflection => 1
  | MatchClass.signal => 2

/-- The class of a candidate taken as D0: signal when matched to a D0
(`flagMCMatchRec = 1 << D0ToPiK`), reflection when matched to a D0bar
(`flagMCMatchRec = -(1 << D0ToPiK)`), background otherwise. -/
def classD0 (env : CorrelatorEnv F) (candidate : HfCandidate F) : MatchClass :=
  if candidate.flagMCMatchRec = decayBit env then MatchClass.signal
  else if candidate.flagMCMatchRec = -decayBit env then MatchClass.reflection
  else MatchClass.background

/-- The class of a candidate taken as D0bar: signal when matched to a D0bar,
reflection when matched to a D0, background otherwise. -/
def classD0bar (env : CorrelatorEnv F) (candidate : HfCandidate F) : MatchClass :=
  if candidate.flagMCMatchRec = -decayBit env then MatchClass.signal
  else if candidate.flagMCMatchRec = decayBit env then MatchClass.reflection
  else MatchClass.background

/-- The table documented at line 338:
`0 = bkg/bkg, 1 = bkg/ref, 2 = bkg/sig, 3 = ref/bkg, 4 = ref/ref, 5 = ref/sig,
6 = sig/bkg, 7 = sig/ref, 8 = sig/sig`. -/
def documentedStatus : MatchClass → MatchClass → Int
  | MatchClass.background, MatchClass.background => 0
  | MatchClass.background, MatchClass.reflection => 1
  | MatchClass.background, MatchClass.signal => 2
  | MatchClass.reflection, MatchClass.background => 3
  | MatchClass.reflection, MatchClass.reflection => 4
  | MatchClass.reflection, MatchClass.signal => 5
  | MatchClass.signal, MatchClass.background => 6
  | MatchClass.signal, MatchClass.reflection => 7
  | MatchClass.signal, MatchClass.signal => 8

/-- The rows of a state follow the documented table. -/
def StatusDocumented (env : CorrelatorEnv F) (st : McRecState F) : Prop :=
  ∀ e ∈ st.entries,
    e.signalStatus = documentedStatus (classD0 env e.candidate1) (classD0bar env e.candidate2)

/-- A sample candidate at `pt = 3`, `eta = 0`, with the decay flag set. -/
def sampleCandidate (row isSelD0 isSelD0bar flag : Int) (phi : F) : HfCandidate F :=
  { mRowIndex := row, hfflag := 1, isSelD0 := isSelD0, isSelD0bar := isSelD0bar,
    flagMCMatchRec := flag, pt := 3, eta := 0, phi := phi }

/-- A sample configuration: selection flags 1, no rapidity or pT cut, no
efficiency weight, multiplicity between 0 and 10000. -/
def sampleConfig : CorrelatorConfig F :=
  { selectionFlagD0 := 1, selectionFlagD0bar := 1, cutYCandMax := -1, cutPtCandMin := -1,
    bins := [], efficiencyDmeson := [], flagApplyEfficiency := 0, multMin := 0,
    multMax := 10000 }

/-- Sample collaborators: `D0ToPiK = 0`, rapidity 0, masses 1.864, `findBin`
returning -1. -/
def sampleCorrelatorEnv (pi : F) : CorrelatorEnv F :=
  { pi := pi, D0ToPiK := 0, YD0 := fun _ => 0, InvMassD0 := fun _ => 1864 / 1000,
    InvMassD0bar := fun _ => 1864 / 1000, findBin := fun _ _ => -1 }

/-- The value `efficiencyDmeson->at(o2::analysis::findBin(bins, pt))` by which
the weight divides (lines 166 and 278): `none` when `at` throws. -/
def efficiencyDivisor (cfg : CorrelatorConfig F) (env : CorrelatorEnv F) (pt : F) : Option F :=
  vectorAt cfg.efficiencyDmeson (env.findBin cfg.bins pt)

/-- The default values of the configurables (lines 103-111). The constants
`pTBins_v` and `npTBins` of `hf_cuts_d0_topik` are not part of the sources and
are parameters; `efficiencyDmeson_v` (lines 49-51) is the zero-initialised
array `efficiencyDmesonDefault` of length `npTBins`. -/
def CorrelatorConfig.default (pTBins_v : List F) (npTBins : Nat) : CorrelatorConfig F :=
  { selectionFlagD0 := 1, selectionFlagD0bar := 1, cutYCandMax := -1, cutPtCandMin := -1,
    bins := pTBins_v, efficiencyDmeson := List.replicate npTBins 0,
    flagApplyEfficiency := 1, multMin := 0, multMax := 10000 }

/-- The state of `processData`: the rows written so far, and whether an
exception has ended the processing. -/
structure DataState (F : Type) where
  entries : List (PairEntry F)
  aborted : Bool

/-- Body of the inner loop of `processData` (lines 192-215, without the
histogram scan of lines 216-227, see `etaPtScan`). -/
def dataInner (cfg : CorrelatorConfig F) (env : CorrelatorEnv F) (fuel : Nat)
    (candidate1 : HfCandidate F) (st : DataState F) (candidate2 : HfCandidate F) :
    DataState F :=
  if hasDecayFlag env candidate2 = false then st
  else if candidate2.isSelD0bar < cfg.selectionFlagD0bar then st
  else if cfg.cutYCandMax ≥ 0 ∧ |env.YD0 candidate2| > cfg.cutYCandMax then st
  else if cfg.cutPtCandMin ≥ 0 ∧ candidate2.pt < cfg.cutPtCandMin then st
  else if candidate1.mRowIndex = candidate2.mRowIndex then st
  else
    { st with entries := st.entries ++
        [{ candidate1 := candidate1, candidate2 := candidate2,
           deltaPhi := getDeltaPhi env.pi fuel candidate2.phi candidate1.phi,
           deltaEta := candidate2.eta - candidate1.eta,
           ptD := candidate1.pt, ptDbar := candidate2.pt,
           mD0 := env.InvMassD0 candidate1, mD0bar := env.InvMassD0bar candidate2,
           signalStatus := 0 }] }

/-- Body of the outer loop of `processData` (lines 153-233). -/
def dataOuter (cfg : CorrelatorConfig F) (env : CorrelatorEnv F) (fuel : Nat)
    (candidates : List (HfCandidate F)) (st : DataState F) (candidate1 : HfCandidate F) :
    DataState F :=
  if st.aborted then st
  else if cfg.cutYCandMax ≥ 0 ∧ |env.YD0 candidate1| > cfg.cutYCandMax then st
  else if cfg.cutPtCandMin ≥ 0 ∧ candidate1.pt < cfg.cutPtCandMin then st
  else if hasDecayFlag env candidate1 = false then st
  else
    match efficiencyWeight cfg env candidate1.pt with
    | none => { st with aborted := true }
    | some _ =>
      if candidate1.isSelD0 < cfg.selectionFlagD0 then st
      else candidates.foldl (dataInner cfg env fuel candidate1) st

/-- The rows written by `HfCorrelatorD0D0bar::processData` (lines 132-234). -/
def processData (cfg : CorrelatorConfig F) (env : CorrelatorEnv F) (fuel : Nat)
    (numContrib : Int) (tracks : List (TrackExtended F))
    (candidates : List (HfCandidate F)) : DataState F :=
  let nTracks := countTracks numContrib tracks
  if (nTracks : F) < cfg.multMin ∨ (nTracks : F) > cfg.multMax then
    { entries := [], aborted := false }
  else candidates.foldl (dataOuter cfg env fuel candidates) { entries := [], aborted := false }

/-- The event passes the multiplicity selection (lines 147 and 254). -/
def MultiplicityAccepted (cfg : CorrelatorConfig F) (numContrib : Int)
    (tracks : List (TrackExtended F)) : Prop :=
  ¬ (((countTracks numContrib tracks : Int) : F) < cfg.multMin ∨
    ((countTracks numContrib tracks : Int) : F) > cfg.multMax)

/-- The candidate passes the rapidity and the transverse momentum
requirement. -/
def PassKinematics (cfg : CorrelatorConfig F) (env : CorrelatorEnv F)
    (candidate : HfCandidate F) : Prop :=
  ¬ (cfg.cutYCandMax ≥ 0 ∧ |env.YD0 candidate| > cfg.cutYCandMax) ∧
  ¬ (cfg.cutPtCandMin ≥ 0 ∧ candidate.pt < cfg.cutPtCandMin)

/-- The candidate reaches the computation of the efficiency weight: it passes
the rapidity, transverse momentum and decay channel requirements. -/
def Preselected (cfg : CorrelatorConfig F) (env : CorrelatorEnv F)
    (candidate : HfCandidate F) : Prop :=
  PassKinematics cfg env candidate ∧ hasDecayFlag env candidate = true

/-- The requirements on the first candidate of a pair: rapidity, transverse
momentum, decay channel and `isSelD0 >= selectionFlagD0`. -/
def SelectedD0 (cfg : CorrelatorConfig F) (env : CorrelatorEnv F)
    (candidate : HfCandidate F) : Prop :=
  Preselected cfg env candidate ∧ cfg.selectionFlagD0 ≤ candidate.isSelD0

/-- The requirements on the second candidate of a pair: decay channel,
`isSelD0bar >= selectionFlagD0bar`, rapidity and transverse momentum. -/
def SelectedD0bar (cfg : CorrelatorConfig F) (env : CorrelatorEnv F)
    (candidate : HfCandidate F) : Prop :=
  hasDecayFlag env candidate = true ∧ cfg.selectionFlagD0bar ≤ candidate.isSelD0bar ∧
    PassKinematics cfg env candidate

/-- A sample `findBin`: the index of the bin of the limits `bins` that holds
`value`, -1 when the value is below the first or not below the last limit. -/
def sampleFindBin (bins : List F) (value : F) : Int :=
  match bins.head?, bins.getLast? with
  | some lo, some hi =>
    if value < lo ∨ value ≥ hi then -1
    else ((bins.filter fun b => decide (b ≤ value)).length : Int) - 1
  | _, _ => -1

/-- The row was written for a pair of rows of the candidate table that pass
the requirements on the first and on the second candidate and have different
row indices. -/
def PairSelected (cfg : CorrelatorConfig F) (env : CorrelatorEnv F)
    (candidates : List (HfCandidate F)) (e : PairEntry F) : Prop :=
  e.candidate1 ∈ candidates ∧ e.candidate2 ∈ candidates ∧
  SelectedD0 cfg env e.candidate1 ∧ SelectedD0bar cfg env e.candidate2 ∧
  e.candidate1.mRowIndex ≠ e.candidate2.mRowIndex

/-- The values of a written row as the two calls of lines 209-212 (351-354)
pass them: `getDeltaPhi(candidate2.phi(), candidate1.phi())`,
`candidate2.eta() - candidate1.eta()`, `candidate1.pt()`, `candidate2.pt()`. -/
def PairValues (env : CorrelatorEnv F) (fuel : Nat) (e : PairEntry F) : Prop :=
  e.deltaPhi = getDeltaPhi env.pi fuel e.candidate2.phi e.candidate1.phi ∧
  e.deltaEta = e.candidate2.eta - e.candidate1.eta ∧
  e.ptD = e.candidate1.pt ∧ e.ptDbar = e.candidate2.pt

/-- Sample bin limits: five bins over `[0, 100]`. -/
def sampleBins : List F := [0, 1, 2, 4, 8, 100]

/-- The constant `maxEtaCut` (line 43). -/
def maxEtaCut : F := 5

/-- The constant `ptThresholdForMaxEtaCut` (line 44). -/
def ptThresholdForMaxEtaCut : F := 10

/-- The constant `incrementEtaCut` (line 45). -/
def incrementEtaCut : F := 1 / 10

/-- The constant `incrementPtThreshold` (line 46). -/
def incrementPtThreshold : F := 1 / 2

/-- The constant `epsilon` (line 47). -/
def epsilon : F := 1 / 100000

/-- The inner `do ... while` loop of the acceptance scan (lines 221-226, the
same text at lines 363-368) for the pair in scope and the current `etaCut`. The
state is `ptCut` and the coordinates handed so far to
`registry.fill(HIST("hDDbarVsEtaCut"), ...)`; `fuel` bounds the number of
executions of the body (`none` when more are needed). -/
def scanPt (candidate1 candidate2 : HfCandidate F) (etaCut : F) :
    Nat → F → List (F × F) → Option (F × List (F × F))
  | 0, _, _ => none
  | fuel + 1, ptCut, fills =>
    let fills :=
      if |candidate1.eta| < etaCut ∧ |candidate2.eta| < etaCut ∧
          candidate1.pt > ptCut ∧ candidate2.pt > ptCut then
        fills ++ [(etaCut - epsilon, ptCut + epsilon)]
      else fills
    let ptCut := ptCut + incrementPtThreshold
    if ptCut < ptThresholdForMaxEtaCut - epsilon then
      scanPt candidate1 candidate2 etaCut fuel ptCut fills
    else some (ptCut, fills)

/-- The outer `do ... while` loop of the acceptance scan (lines 218-227, the
same text at lines 360-369). The state is `etaCut` and the coordinates filled
so far (`ptCut` is reset to 0 at the start of the body); `fuel` bounds the
number of executions of the body, `fuelPt` those of each inner loop. -/
def scanEta (candidate1 candidate2 : HfCandidate F) (fuelPt : Nat) :
    Nat → F → List (F × F) → Option (F × List (F × F))
  | 0, _, _ => none
  | fuel + 1, etaCut, fills =>
    let ptCut : F := 0
    let etaCut := etaCut + incrementEtaCut
    match scanPt candidate1 candidate2 etaCut fuelPt ptCut fills with
    | none => none
    | some (_, fills) =>
      if etaCut < maxEtaCut - epsilon then scanEta candidate1 candidate2 fuelPt fuel etaCut fills
      else some (etaCut, fills)

/-- The acceptance scan executed for a written pair (lines 216-227 of
`processData`, 358-369 of `processMcRec`): the coordinates filled in
`hDDbarVsEtaCut`, in the order of the calls. -/
def etaPtScan (fuelEta fuelPt : Nat) (candidate1 candidate2 : HfCandidate F) :
    Option (List (F × F)) :=
  let etaCut : F := 0
  (scanEta candidate1 candidate2 fuelPt fuelEta etaCut []).map fun r => r.2

/-- The value `0.1 k` of `etaCut` in exact arithmetic. -/
def etaCutAt (k : Nat) : F := (k : F) / 10

/-- The value `0.5 j` of `ptCut` in exact arithmetic. -/
def ptCutAt (j : Nat) : F := (j : F) / 2

/-- The fill condition of the scan (line 222) for the thresholds of the cell
`(k, j)`. -/
def CellFilled (candidate1 candidate2 : HfCandidate F) (k j : Nat) : Prop :=
  |candidate1.eta| < etaCutAt k ∧ |candidate2.eta| < etaCutAt k ∧
    candidate1.pt > ptCutAt j ∧ candidate2.pt > ptCutAt j

instance (candidate1 candidate2 : HfCandidate F) (k j : Nat) :
    Decidable (CellFilled candidate1 candidate2 k j) := by
  unfold CellFilled
  infer_instance

/-- The coordinates filled for the cell `(k, j)` (line 223). -/
def cellCoordinates (k j : Nat) : F × F := (etaCutAt k - epsilon, ptCutAt j + epsilon)

/-- The fills of the scan as the grid describes them: for `k = 1..50` in
increasing order and, for each `k`, `j = 0..19` in increasing order, the
coordinates of the cell `(k, j)` when its fill condition holds. -/
def gridFills (candidate1 candidate2 : HfCandidate F) : List (F × F) :=
  (List.range 50).flatMap fun k =>
    ((List.range 20).filter fun j => decide (CellFilled candidate1 candidate2 (k + 1) j)).map
      fun j => cellCoordinates (k + 1) j

/-- The value `x` falls in the bin number `k` (counted from 1) of an axis of
`n` bins of equal width over `[lo, hi]`, each bin closed on its lower edge;
the axes of `hDDbarVsEtaCut` (line 85) have 50 bins over `[0, 5]` and 20 bins
over `[0, 10]`. -/
def InAxisBin (n : Nat) (lo hi : F) (k : Nat) (x : F) : Prop :=
  lo + (hi - lo) * ((k : F) - 1) / (n : F) ≤ x ∧ x < lo + (hi - lo) * (k : F) / (n : F)

end HfCorrelatorD0D0bar

namespace Alice3CDeuteron

variable {F : Type} [LinearOrderedField F]

/-! ## Structure of the loops -/

theorem pionBody_dca1 (cfg : Config F) (env : Env F) (coll : Collision F)
    (t1 t2 : Track F) (st : State F) (t3 : Track F) :
    (pionBody cfg env coll t1 t2 st t3).dca1 = st.dca1 := by
  unfold pionBody
  dsimp only
  split_ifs <;> first | rfl | (split <;> rfl)

theorem pionBody_dca2 (cfg : Config F) (env : Env F) (coll : Collision F)
    (t1 t2 : Track F) (st : State F) (t3 : Track F) :
    (pionBody cfg env coll t1 t2 st t3).dca2 = st.dca2 := by
  unfold pionBody
  dsimp only
  split_ifs <;> first | rfl | (split <;> rfl)

theorem pionBody_candperdeuteron (cfg : Config F) (env : Env F) (coll : Collision F)
    (t1 t2 : Track F) (st : State F) (t3 : Track F) :
    (pionBody cfg env coll t1 t2 st t3).candperdeuteron = st.candperdeuteron := by
  unfold pionBody
  dsimp only
  split_ifs <;> first | rfl | (split <;> rfl)

theorem pionBody_fills (cfg : Config F) (env : Env F) (coll : Collision F)
    (t1 t2 : Track F) (st : State F) (t3 : Track F) :
    (pionBody cfg env coll t1 t2 st t3).fills =
      st.fills ++ pionFills cfg env coll t1 t2 st.dca1 st.dca2 t3 := by
  unfold pionFills pionBody blank
  dsimp only
  cases env.propagateParamToDCA t3 (collPos coll) (cfg.magField * 10) 100 <;>
    dsimp only <;> split_ifs <;> simp

theorem pionLoop_dca1 (cfg : Config F) (env : Env F) (coll : Collision F)
    (t1 t2 : Track F) (l : List (Track F)) (st : State F) :
    (l.foldl (pionBody cfg env coll t1 t2) st).dca1 = st.dca1 := by
  induction l generalizing st with
  | nil => rfl
  | cons t3 l ih => rw [List.foldl_cons, ih, pionBody_dca1]

theorem pionLoop_dca2 (cfg : Config F) (env : Env F) (coll : Collision F)
    (t1 t2 : Track F) (l : List (Track F)) (st : State F) :
    (l.foldl (pionBody cfg env coll t1 t2) st).dca2 = st.dca2 := by
  induction l generalizing st with
  | nil => rfl
  | cons t3 l ih => rw [List.foldl_cons, ih, pionBody_dca2]

theorem pionLoop_candperdeuteron (cfg : Config F) (env : Env F) (coll : Collision F)
    (t1 t2 : Track F) (l : List (Track F)) (st : State F) :
    (l.foldl (pionBody cfg env coll t1 t2) st).candperdeuteron = st.candperdeuteron := by
  induction l generalizing st with
  | nil => rfl
  | cons t3 l ih => rw [List.foldl_cons, ih, pionBody_candperdeuteron]

theorem pionLoop_fills (cfg : Config F) (env : Env F) (coll : Collision F)
    (t1 t2 : Track F) (l : List (Track F)) (st : State F) :
    (l.foldl (pionBody cfg env coll t1 t2) st).fills =
      st.fills ++ l.flatMap (pionFills cfg env coll t1 t2 st.dca1 st.dca2) := by
  induction l generalizing st with
  | nil => simp
  | cons t3 l ih =>
    rw [List.foldl_cons, ih, pionBody_fills, pionBody_dca1, pionBody_dca2]
    simp [List.append_assoc]

theorem pionFills_eq (cfg : Config F) (env : Env F) (coll : Collision F)
    (t1 t2 : Track F) (d1 d2 : F × F) (t3 : Track F) :
    pionFills cfg env coll t1 t2 d1 d2 t3 =
      if t2.globalIndex ≠ t3.globalIndex ∧ t1.globalIndex ≠ t3.globalIndex ∧
          t3.mcParticle.pdgCode = 211 then
        match propagate cfg env coll t3 with
        | none => []
        | some d3 =>
          if covOk t1 ∧ covOk t2 ∧ covOk t3 ∧ (env.fitterProcess t1 t2 t3).status ≠ 0 then
            dispatch (scored cfg env coll t1 t2 t3 d1 d2 d3)
          else []
      else [] := by
  unfold pionFills pionBody blank propagate covOk scored
  dsimp only
  cases env.propagateParamToDCA t3 (collPos coll) (cfg.magField * 10) 100 <;>
    dsimp only <;> split_ifs <;> simp_all

theorem kaonBody_dca1 (cfg : Config F) (env : Env F) (coll : Collision F)
    (tracks : List (Track F)) (t1 : Track F) (st : State F) (t2 : Track F) :
    (kaonBody cfg env coll tracks t1 st t2).dca1 = st.dca1 := by
  unfold kaonBody
  dsimp only
  cases env.propagateParamToDCA t2 (collPos coll) (cfg.magField * 10) 100 <;>
    dsimp only <;> split_ifs <;> first | rfl | rw [pionLoop_dca1]

theorem kaonBody_candperdeuteron (cfg : Config F) (env : Env F) (coll : Collision F)
    (tracks : List (Track F)) (t1 : Track F) (st : State F) (t2 : Track F) :
    (kaonBody cfg env coll tracks t1 st t2).candperdeuteron = st.candperdeuteron := by
  unfold kaonBody
  dsimp only
  cases env.propagateParamToDCA t2 (collPos coll) (cfg.magField * 10) 100 <;>
    dsimp only <;> split_ifs <;> first | rfl | rw [pionLoop_candperdeuteron]

theorem kaonFills_eq (cfg : Config F) (env : Env F) (coll : Collision F)
    (tracks : List (Track F)) (t1 : Track F) (d1 : F × F) (t2 : Track F) :
    kaonFills cfg env coll tracks t1 d1 t2 =
      if t1.globalIndex ≠ t2.globalIndex ∧ t2.mcParticle.pdgCode = -321 then
        match propagate cfg env coll t2 with
        | none => []
        | some d2 => tracks.flatMap (pionFills cfg env coll t1 t2 d1 d2)
      else [] := by
  unfold kaonFills kaonBody blank propagate
  dsimp only
  cases env.propagateParamToDCA t2 (collPos coll) (cfg.magField * 10) 100 <;>
    dsimp only <;> split_ifs <;> simp_all [pionLoop_fills]

theorem kaonBody_fills (cfg : Config F) (env : Env F) (coll : Collision F)
    (tracks : List (Track F)) (t1 : Track F) (st : State F) (t2 : Track F) :
    (kaonBody cfg env coll tracks t1 st t2).fills =
      st.fills ++ kaonFills cfg env coll tracks t1 st.dca1 t2 := by
  unfold kaonFills kaonBody blank
  dsimp only
  cases env.propagateParamToDCA t2 (collPos coll) (cfg.magField * 10) 100 <;>
    dsimp only <;> split_ifs <;> simp [pionLoop_fills]

theorem kaonLoop_dca1 (cfg : Config F) (env : Env F) (coll : Collision F)
    (tracks : List (Track F)) (t1 : Track F) (l : List (Track F)) (st : State F) :
    (l.foldl (kaonBody cfg env coll tracks t1) st).dca1 = st.dca1 := by
  induction l generalizing st with
  | nil => rfl
  | cons t2 l ih => rw [List.foldl_cons, ih, kaonBody_dca1]

theorem kaonLoop_candperdeuteron (cfg : Config F) (env : Env F) (coll : Collision F)
    (tracks : List (Track F)) (t1 : Track F) (l : List (Track F)) (st : State F) :
    (l.foldl (kaonBody cfg env coll tracks t1) st).candperdeuteron = st.candperdeuteron := by
  induction l generalizing st with
  | nil => rfl
  | cons t2 l ih => rw [List.foldl_cons, ih, kaonBody_candperdeuteron]

theorem kaonLoop_fills (cfg : Config F) (env : Env F) (coll : Collision F)
    (tracks : List (Track F)) (t1 : Track F) (l : List (Track F)) (st : State F) :
    (l.foldl (kaonBody cfg env coll tracks t1) st).fills =
      st.fills ++ l.flatMap (kaonFills cfg env coll tracks t1 st.dca1) := by
  induction l generalizing st with
  | nil => simp
  | cons t2 l ih =>
    rw [List.foldl_cons, ih, kaonBody_fills, kaonBody_dca1]
    simp [List.append_assoc]

theorem deuteronFills_eq (cfg : Config F) (env : Env F) (coll : Collision F)
    (tracks : List (Track F)) (t1 : Track F) :
    deuteronFills cfg env coll tracks t1 =
      if t1.mcParticle.pdgCode = 1000010020 then
        match propagate cfg env coll t1 with
        | none => []
        | some d1 => tracks.flatMap (kaonFills cfg env coll tracks t1 d1)
      else [] := by
  unfold deuteronFills deuteronBody blank propagate
  dsimp only
  cases env.propagateParamToDCA t1 (collPos coll) (cfg.magField * 10) 100 <;>
    dsimp only <;> split_ifs <;> simp_all [kaonLoop_fills]

theorem deuteronBody_fills (cfg : Config F) (env : Env F) (coll : Collision F)
    (tracks : List (Track F)) (st : State F) (t1 : Track F) :
    (deuteronBody cfg env coll tracks st t1).fills =
      st.fills ++ deuteronFills cfg env coll tracks t1 := by
  unfold deuteronFills deuteronBody blank
  dsimp only
  cases env.propagateParamToDCA t1 (collPos coll) (cfg.magField * 10) 100 <;>
    dsimp only <;> split_ifs <;> simp [kaonLoop_fills]

theorem deuteronLoop_fills (cfg : Config F) (env : Env F) (coll : Collision F)
    (tracks : List (Track F)) (l : List (Track F)) (st : State F) :
    (l.foldl (deuteronBody cfg env coll tracks) st).fills =
      st.fills ++ l.flatMap (deuteronFills cfg env coll tracks) := by
  induction l generalizing st with
  | nil => simp
  | cons t1 l ih =>
    rw [List.foldl_cons, ih, deuteronBody_fills]
    simp [List.append_assoc]

/-- The registry after `process`: the contributions of the outer iterations in
the order of the track table. -/
theorem process_fills (cfg : Config F) (env : Env F) (coll : Collision F)
    (tracks : List (Track F)) :
    (process cfg env coll tracks).fills =
      tracks.flatMap (deuteronFills cfg env coll tracks) := by
  unfold process
  rw [deuteronLoop_fills]
  simp [initState]

theorem flatMap_ext {α β : Type} (l : List α) (f g : α → List β)
    (h : ∀ a ∈ l, f a = g a) : l.flatMap f = l.flatMap g := by
  induction l with
  | nil => rfl
  | cons a l ih =>
    simp only [List.flatMap_cons]
    rw [h a (List.mem_cons_self a l), ih (fun b hb => h b (List.mem_cons_of_mem a hb))]

theorem flatMap_nil_of_forall {α β : Type} (l : List α) (f : α → List β)
    (h : ∀ a ∈ l, f a = []) : l.flatMap f = [] := by
  rw [flatMap_ext l f (fun _ => []) h]
  induction l with
  | nil => rfl
  | cons a l ih => simp

theorem pionFills_eq_tripletFills (cfg : Config F) (env : Env F) (coll : Collision F)
    (t1 t2 t3 : Track F) (d1 d2 : F × F)
    (h1 : t1.mcParticle.pdgCode = 1000010020) (hd1 : propagate cfg env coll t1 = some d1)
    (h12 : t1.globalIndex ≠ t2.globalIndex) (h2 : t2.mcParticle.pdgCode = -321)
    (hd2 : propagate cfg env coll t2 = some d2) :
    pionFills cfg env coll t1 t2 d1 d2 t3 = tripletFills cfg env coll t1 t2 t3 := by
  rw [pionFills_eq]
  unfold tripletFills
  cases h3 : propagate cfg env coll t3 with
  | none =>
    have hv : ¬ Viable cfg env coll t1 t2 t3 := by
      intro hv
      have := hv.2.2.2.2.2.2.2.2.1
      rw [h3] at this
      exact Bool.noConfusion this
    rw [if_neg hv]
    split_ifs <;> rfl
  | some d3 =>
    dsimp only
    by_cases hv : Viable cfg env coll t1 t2 t3
    · rw [if_pos hv, if_pos ⟨hv.2.2.2.2.1, hv.2.2.2.2.2.1, hv.2.2.1⟩,
        if_pos ⟨hv.2.2.2.2.2.2.2.2.2.1, hv.2.2.2.2.2.2.2.2.2.2.1,
          hv.2.2.2.2.2.2.2.2.2.2.2.1, hv.2.2.2.2.2.2.2.2.2.2.2.2⟩, hd1, hd2]
    · rw [if_neg hv]
      split_ifs with ha hb
      · exact absurd ⟨h1, h2, ha.2.2, h12, ha.1, ha.2.1, by rw [hd1]; rfl, by rw [hd2]; rfl,
          by rw [h3]; rfl, hb.1, hb.2.1, hb.2.2.1, hb.2.2.2⟩ hv
      · rfl
      · rfl

theorem tripletFills_eq_nil_left (cfg : Config F) (env : Env F) (coll : Collision F)
    (t1 t2 t3 : Track F)
    (h : t1.mcParticle.pdgCode ≠ 1000010020 ∨ propagate cfg env coll t1 = none) :
    tripletFills cfg env coll t1 t2 t3 = [] := by
  unfold tripletFills
  apply if_neg
  intro hv
  rcases h with h | h
  · exact h hv.1
  · have := hv.2.2.2.2.2.2.1
    rw [h] at this
    exact Bool.noConfusion this

theorem tripletFills_eq_nil_mid (cfg : Config F) (env : Env F) (coll : Collision F)
    (t1 t2 t3 : Track F)
    (h : t1.globalIndex = t2.globalIndex ∨ t2.mcParticle.pdgCode ≠ -321 ∨
      propagate cfg env coll t2 = none) :
    tripletFills cfg env coll t1 t2 t3 = [] := by
  unfold tripletFills
  apply if_neg
  intro hv
  rcases h with h | h | h
  · exact hv.2.2.2.1 h
  · exact h hv.2.1
  · have := hv.2.2.2.2.2.2.2.1
    rw [h] at this
    exact Bool.noConfusion this

theorem kaonFills_eq_tripletFills (cfg : Config F) (env : Env F) (coll : Collision F)
    (tracks : List (Track F)) (t1 t2 : Track F) (d1 : F × F)
    (h1 : t1.mcParticle.pdgCode = 1000010020) (hd1 : propagate cfg env coll t1 = some d1) :
    kaonFills cfg env coll tracks t1 d1 t2 =
      tracks.flatMap (tripletFills cfg env coll t1 t2) := by
  rw [kaonFills_eq]
  by_cases hg : t1.globalIndex ≠ t2.globalIndex ∧ t2.mcParticle.pdgCode = -321
  · rw [if_pos hg]
    cases hd2 : propagate cfg env coll t2 with
    | none =>
      dsimp only
      rw [flatMap_nil_of_forall]
      intro t3 _
      exact tripletFills_eq_nil_mid cfg env coll t1 t2 t3 (Or.inr (Or.inr hd2))
    | some d2 =>
      dsimp only
      exact flatMap_ext _ _ _ (fun t3 _ =>
        pionFills_eq_tripletFills cfg env coll t1 t2 t3 d1 d2 h1 hd1 hg.1 hg.2 hd2)
  · rw [if_neg hg, flatMap_nil_of_forall]
    intro t3 _
    apply tripletFills_eq_nil_mid
    by_cases h12 : t1.globalIndex = t2.globalIndex
    · exact Or.inl h12
    · exact Or.inr (Or.inl (fun h2 => hg ⟨h12, h2⟩))

theorem deuteronFills_eq_tripletFills (cfg : Config F) (env : Env F) (coll : Collision F)
    (tracks : List (Track F)) (t1 : Track F) :
    deuteronFills cfg env coll tracks t1 =
      tracks.flatMap fun t2 => tracks.flatMap (tripletFills cfg env coll t1 t2) := by
  rw [deuteronFills_eq]
  by_cases h1 : t1.mcParticle.pdgCode = 1000010020
  · rw [if_pos h1]
    cases hd1 : propagate cfg env coll t1 with
    | none =>
      dsimp only
      rw [flatMap_nil_of_forall]
      intro t2 _
      rw [flatMap_nil_of_forall]
      intro t3 _
      exact tripletFills_eq_nil_left cfg env coll t1 t2 t3 (Or.inr hd1)
    | some d1 =>
      dsimp only
      exact flatMap_ext _ _ _ (fun t2 _ =>
        kaonFills_eq_tripletFills cfg env coll tracks t1 t2 d1 h1 hd1)
  · rw [if_neg h1, flatMap_nil_of_forall]
    intro t2 _
    rw [flatMap_nil_of_forall]
    intro t3 _
    exact tripletFills_eq_nil_left cfg env coll t1 t2 t3 (Or.inl h1)

/-- The registry after `process` is the concatenation, over the ordered
triplets of rows in loop order, of the fills of each triplet. -/
theorem process_fills_triplets (cfg : Config F) (env : Env F) (coll : Collision F)
    (tracks : List (Track F)) :
    (process cfg env coll tracks).fills =
      (triplets tracks).flatMap fun t => tripletFills cfg env coll t.1 t.2.1 t.2.2 := by
  rw [process_fills]
  unfold triplets
  rw [List.flatMap_assoc]
  apply flatMap_ext
  intro t1 _
  rw [deuteronFills_eq_tripletFills, List.flatMap_assoc]
  apply flatMap_ext
  intro t2 _
  rw [List.flatMap_map]

/-! ## Scored triplets -/

theorem tripletFills_of_viable (cfg : Config F) (env : Env F) (coll : Collision F)
    (t1 t2 t3 : Track F) (hv : Viable cfg env coll t1 t2 t3) :
    ∃ d1 d2 d3, propagate cfg env coll t1 = some d1 ∧ propagate cfg env coll t2 = some d2 ∧
      propagate cfg env coll t3 = some d3 ∧
      tripletFills cfg env coll t1 t2 t3 = dispatch (scored cfg env coll t1 t2 t3 d1 d2 d3) := by
  obtain ⟨d1, hd1⟩ := Option.isSome_iff_exists.mp hv.2.2.2.2.2.2.1
  obtain ⟨d2, hd2⟩ := Option.isSome_iff_exists.mp hv.2.2.2.2.2.2.2.1
  obtain ⟨d3, hd3⟩ := Option.isSome_iff_exists.mp hv.2.2.2.2.2.2.2.2.1
  refine ⟨d1, d2, d3, hd1, hd2, hd3, ?_⟩
  unfold tripletFills
  rw [if_pos hv, hd1, hd2, hd3]

theorem tripletFills_of_not_viable (cfg : Config F) (env : Env F) (coll : Collision F)
    (t1 t2 t3 : Track F) (hv : ¬ Viable cfg env coll t1 t2 t3) :
    tripletFills cfg env coll t1 t2 t3 = [] := by
  unfold tripletFills
  rw [if_neg hv]

omit [LinearOrderedField F] in
theorem mem_triplets (tracks : List (Track F)) (t1 t2 t3 : Track F) :
    (t1, t2, t3) ∈ triplets tracks ↔ t1 ∈ tracks ∧ t2 ∈ tracks ∧ t3 ∈ tracks := by
  unfold triplets
  simp only [List.mem_flatMap, List.mem_map, Prod.mk.injEq]
  constructor
  · rintro ⟨a, ha, b, hb, c, hc, rfl, rfl, rfl⟩
    exact ⟨ha, hb, hc⟩
  · rintro ⟨h1, h2, h3⟩
    exact ⟨t1, h1, t2, h2, t3, h3, rfl, rfl, rfl⟩

/-- Membership in the registry after `process`: the fills of the viable
triplets of rows. -/
theorem mem_process_fills (cfg : Config F) (env : Env F) (coll : Collision F)
    (tracks : List (Track F)) (f : Fill F) :
    f ∈ (process cfg env coll tracks).fills ↔
      ∃ t1 t2 t3 d1 d2 d3, t1 ∈ tracks ∧ t2 ∈ tracks ∧ t3 ∈ tracks ∧
        Viable cfg env coll t1 t2 t3 ∧
        propagate cfg env coll t1 = some d1 ∧ propagate cfg env coll t2 = some d2 ∧
        propagate cfg env coll t3 = some d3 ∧
        f ∈ dispatch (scored cfg env coll t1 t2 t3 d1 d2 d3) := by
  rw [process_fills_triplets, List.mem_flatMap]
  constructor
  · rintro ⟨⟨t1, t2, t3⟩, ht, hf⟩
    by_cases hv : Viable cfg env coll t1 t2 t3
    · obtain ⟨d1, d2, d3, hd1, hd2, hd3, he⟩ := tripletFills_of_viable cfg env coll t1 t2 t3 hv
      obtain ⟨m1, m2, m3⟩ := (mem_triplets tracks t1 t2 t3).mp ht
      dsimp only at hf
      rw [he] at hf
      exact ⟨t1, t2, t3, d1, d2, d3, m1, m2, m3, hv, hd1, hd2, hd3, hf⟩
    · dsimp only at hf
      rw [tripletFills_of_not_viable cfg env coll t1 t2 t3 hv] at hf
      exact absurd hf (List.not_mem_nil f)
  · rintro ⟨t1, t2, t3, d1, d2, d3, m1, m2, m3, hv, hd1, hd2, hd3, hf⟩
    refine ⟨(t1, t2, t3), (mem_triplets tracks t1 t2 t3).mpr ⟨m1, m2, m3⟩, ?_⟩
    dsimp only
    unfold tripletFills
    rw [if_pos hv, hd1, hd2, hd3]
    exact hf

omit [LinearOrderedField F] in
theorem mem_dispatch (c : Candidate F) (f : Fill F) :
    f ∈ dispatch c ↔
      f = Fill.mk (if c.issig then Tag.signocut else Tag.bkgnocut) c ∨
      f = Fill.mk (if c.iscut then (if c.issig then Tag.sigcut else Tag.bkgcut)
        else (if c.issig then Tag.sig else Tag.bkg)) c := by
  unfold dispatch
  cases c.issig <;> cases c.iscut <;> simp

omit [LinearOrderedField F] in
theorem dispatch_eq (c : Candidate F) :
    dispatch c =
      [Fill.mk (if c.issig then Tag.signocut else Tag.bkgnocut) c,
       Fill.mk (if c.iscut then (if c.issig then Tag.sigcut else Tag.bkgcut)
        else (if c.issig then Tag.sig else Tag.bkg)) c] := by
  unfold dispatch
  cases c.issig <;> cases c.iscut <;> rfl

omit [LinearOrderedField F] in
theorem dispatch_noCut (c : Candidate F) :
    ((dispatch c).filter fun f => f.tag.isNoCut).map Fill.cand = [c] := by
  unfold dispatch
  cases c.issig <;> cases c.iscut <;> rfl

theorem flatMap_ite_singleton {α : Type} (l : List α) (p : α → Prop) [DecidablePred p] :
    (l.flatMap fun a => if p a then [a] else []) = l.filter fun a => decide (p a) := by
  induction l with
  | nil => rfl
  | cons a l ih =>
    simp only [List.flatMap_cons, ih, List.filter_cons]
    by_cases h : p a <;> simp [h]

theorem ite_true_left_iff (p : Prop) [Decidable p] (b : Bool) :
    (if p then true else b) = true ↔ p ∨ b = true := by
  by_cases h : p <;> simp [h]

theorem iscutDaughters_iff (cfg : Config F) (d1 d2 : F × F) (t2 t3 : Track F) :
    iscutDaughters cfg d1 d2 t2 t3 = true ↔
      (|d1.1| < cfg.minDca ∨ |d1.2| < cfg.minDca ∨ |d1.1| > cfg.maxDca ∨ |d1.2| > cfg.maxDca) ∨
      (|d2.1| < cfg.minDca ∨ |d2.2| < cfg.minDca ∨ |d2.1| > cfg.maxDca ∨ |d2.2| > cfg.maxDca) ∨
      (|d2.1| < cfg.minDcaPion ∨ |d2.2| < cfg.minDcaPion) ∨
      t2.pt < cfg.minKaonPt ∨ t3.pt < cfg.minPionPt := by
  unfold iscutDaughters
  simp only [ite_true_left_iff, Bool.false_eq_true, or_false]
  tauto

theorem iscutPion_iff (cfg : Config F) (d3 : F × F) (b : Bool) :
    iscutPion cfg d3 b = true ↔
      (|d3.1| < cfg.minDca ∨ |d3.2| < cfg.minDca ∨ |d3.1| > cfg.maxDca ∨ |d3.2| > cfg.maxDca) ∨
      b = true := by
  unfold iscutPion
  simp only [ite_true_left_iff]
  tauto

theorem candidate_iscut (cfg : Config F) (env : Env F) (coll : Collision F)
    (t1 t2 t3 : Track F) (d1 d2 d3 : F × F) (b s : Bool) (fit : FitResult F) :
    (candidate cfg env coll t1 t2 t3 d1 d2 d3 b s fit).iscut = true ↔
      TLorentzVector.Pt env.libm (candidate cfg env coll t1 t2 t3 d1 d2 d3 b s fit).v1
        < cfg.minMomPt ∨
      (candidate cfg env coll t1 t2 t3 d1 d2 d3 b s fit).decay_radius < cfg.minRadius ∨
      (candidate cfg env coll t1 t2 t3 d1 d2 d3 b s fit).decay_radius > cfg.maxRadius ∨
      |(candidate cfg env coll t1 t2 t3 d1 d2 d3 b s fit).CPA| < cfg.minCpa ∨ b = true := by
  unfold candidate
  dsimp only
  rw [ite_true_left_iff, ite_true_left_iff, ite_true_left_iff, ite_true_left_iff]
  constructor
  · rintro (h | h | h | h | h)
    · exact Or.inr (Or.inr (Or.inr (Or.inl h)))
    · exact Or.inr (Or.inr (Or.inl h))
    · exact Or.inr (Or.inl h)
    · exact Or.inl h
    · exact Or.inr (Or.inr (Or.inr (Or.inr h)))
  · rintro (h | h | h | h | h)
    · exact Or.inr (Or.inr (Or.inr (Or.inl h)))
    · exact Or.inr (Or.inr (Or.inl h))
    · exact Or.inr (Or.inl h)
    · exact Or.inl h
    · exact Or.inr (Or.inr (Or.inr (Or.inr h)))

theorem or_rearrange (D1 D2 D3 DP K P Pt Rl Rg C : Prop) :
    (Pt ∨ Rl ∨ Rg ∨ C ∨ (D3 ∨ (D1 ∨ D2 ∨ DP ∨ K ∨ P))) ↔
      (D1 ∨ D2 ∨ D3 ∨ DP ∨ K ∨ P ∨ Pt ∨ Rl ∨ Rg ∨ C) := by
  tauto

/-- The cut flag of a scored triplet, clause by clause. -/
theorem scored_iscut (cfg : Config F) (env : Env F) (coll : Collision F)
    (t1 t2 t3 : Track F) (d1 d2 d3 : F × F) :
    (scored cfg env coll t1 t2 t3 d1 d2 d3).iscut = true ↔
      (|d1.1| < cfg.minDca ∨ |d1.2| < cfg.minDca ∨ |d1.1| > cfg.maxDca ∨ |d1.2| > cfg.maxDca) ∨
      (|d2.1| < cfg.minDca ∨ |d2.2| < cfg.minDca ∨ |d2.1| > cfg.maxDca ∨ |d2.2| > cfg.maxDca) ∨
      (|d3.1| < cfg.minDca ∨ |d3.2| < cfg.minDca ∨ |d3.1| > cfg.maxDca ∨ |d3.2| > cfg.maxDca) ∨
      (|d2.1| < cfg.minDcaPion ∨ |d2.2| < cfg.minDcaPion) ∨
      t2.pt < cfg.minKaonPt ∨ t3.pt < cfg.minPionPt ∨
      TLorentzVector.Pt env.libm (scored cfg env coll t1 t2 t3 d1 d2 d3).v1 < cfg.minMomPt ∨
      (scored cfg env coll t1 t2 t3 d1 d2 d3).decay_radius < cfg.minRadius ∨
      (scored cfg env coll t1 t2 t3 d1 d2 d3).decay_radius > cfg.maxRadius ∨
      |(scored cfg env coll t1 t2 t3 d1 d2 d3).CPA| < cfg.minCpa := by
  unfold scored
  rw [candidate_iscut, iscutPion_iff, iscutDaughters_iff]
  exact or_rearrange _ _ _ _ _ _ _ _ _ _

theorem scored_fields (cfg : Config F) (env : Env F) (coll : Collision F)
    (t1 t2 t3 : Track F) (d1 d2 d3 : F × F) :
    (scored cfg env coll t1 t2 t3 d1 d2 d3).track1 = t1 ∧
    (scored cfg env coll t1 t2 t3 d1 d2 d3).track2 = t2 ∧
    (scored cfg env coll t1 t2 t3 d1 d2 d3).track3 = t3 ∧
    (scored cfg env coll t1 t2 t3 d1 d2 d3).dca1 = d1 ∧
    (scored cfg env coll t1 t2 t3 d1 d2 d3).dca2 = d2 ∧
    (scored cfg env coll t1 t2 t3 d1 d2 d3).dca3 = d3 ∧
    (scored cfg env coll t1 t2 t3 d1 d2 d3).issig = issig t1 t2 t3 :=
  ⟨rfl, rfl, rfl, rfl, rfl, rfl, rfl⟩

omit [LinearOrderedField F] in
theorem issig_iff (t1 t2 t3 : Track F) :
    issig t1 t2 t3 = true ↔
      t1.mcParticle.mother0Id = t2.mcParticle.mother0Id ∧
      t1.mcParticle.mother0Id = t3.mcParticle.mother0Id := by
  unfold issig
  dsimp only
  by_cases h12 : t1.mcParticle.mother0Id = t2.mcParticle.mother0Id <;>
    by_cases h13 : t1.mcParticle.mother0Id = t3.mcParticle.mother0Id <;> simp [h12, h13]

/-- Every entry of the registry holds the candidate `scored` of a viable
triplet of rows, with the DCA values returned by the three propagations. -/
theorem cand_of_mem_process_fills (cfg : Config F) (env : Env F) (coll : Collision F)
    (tracks : List (Track F)) (f : Fill F) (hf : f ∈ (process cfg env coll tracks).fills) :
    ∃ t1 t2 t3 d1 d2 d3, t1 ∈ tracks ∧ t2 ∈ tracks ∧ t3 ∈ tracks ∧
      Viable cfg env coll t1 t2 t3 ∧
      propagate cfg env coll t1 = some d1 ∧ propagate cfg env coll t2 = some d2 ∧
      propagate cfg env coll t3 = some d3 ∧
      f.cand = scored cfg env coll t1 t2 t3 d1 d2 d3 := by
  obtain ⟨t1, t2, t3, d1, d2, d3, m1, m2, m3, hv, hd1, hd2, hd3, hd⟩ :=
    (mem_process_fills cfg env coll tracks f).mp hf
  refine ⟨t1, t2, t3, d1, d2, d3, m1, m2, m3, hv, hd1, hd2, hd3, ?_⟩
  rcases (mem_dispatch _ f).mp hd with h | h <;> rw [h]

/-- The no-cut entry of a viable triplet of rows is in the registry. -/
theorem noCut_mem_process_fills (cfg : Config F) (env : Env F) (coll : Collision F)
    (tracks : List (Track F)) (t1 t2 t3 : Track F) (d1 d2 d3 : F × F)
    (m1 : t1 ∈ tracks) (m2 : t2 ∈ tracks) (m3 : t3 ∈ tracks)
    (hv : Viable cfg env coll t1 t2 t3)
    (hd1 : propagate cfg env coll t1 = some d1) (hd2 : propagate cfg env coll t2 = some d2)
    (hd3 : propagate cfg env coll t3 = some d3) :
    Fill.mk (if (scored cfg env coll t1 t2 t3 d1 d2 d3).issig then Tag.signocut
        else Tag.bkgnocut) (scored cfg env coll t1 t2 t3 d1 d2 d3) ∈
      (process cfg env coll tracks).fills :=
  (mem_process_fills cfg env coll tracks _).mpr
    ⟨t1, t2, t3, d1, d2, d3, m1, m2, m3, hv, hd1, hd2, hd3,
      (mem_dispatch _ _).mpr (Or.inl rfl)⟩

/-- The sample rows with the sample collaborators form a viable triplet, for
every configuration, when the covariance checks pass and the fit status is not
zero. -/
theorem sample_viable (cfg : Config F) (m : Libm F) (status : Int) (hs : status ≠ 0)
    (mo1 mo2 mo3 : Int) (a b c : F) (hc : ¬ (a * b - c * c < 0)) :
    Viable cfg (sampleEnv m sampleProp status) sampleColl
      (sampleTrack 0 1000010020 mo1 a b c) (sampleTrack 1 (-321) mo2 1 1 0)
      (sampleTrack 2 211 mo3 1 1 0) := by
  refine ⟨rfl, rfl, rfl, by simp [sampleTrack], by simp [sampleTrack], by simp [sampleTrack],
    rfl, rfl, rfl, hc, ?_, ?_, hs⟩ <;>
    (unfold covOk sampleTrack; norm_num)

/-- The no-cut entry of the sample triplet is in the registry of the sample
event. -/
theorem sample_noCut_mem (cfg : Config F) (m : Libm F) (status : Int) (hs : status ≠ 0)
    (mo1 mo2 mo3 : Int) (a b c : F) (hc : ¬ (a * b - c * c < 0)) :
    Fill.mk
      (if (scored cfg (sampleEnv m sampleProp status) sampleColl
          (sampleTrack 0 1000010020 mo1 a b c) (sampleTrack 1 (-321) mo2 1 1 0)
          (sampleTrack 2 211 mo3 1 1 0) (1 / 100, 1 / 100) (1 / 100, 1 / 100)
          (1 / 100, 1 / 100)).issig then Tag.signocut else Tag.bkgnocut)
      (scored cfg (sampleEnv m sampleProp status) sampleColl
          (sampleTrack 0 1000010020 mo1 a b c) (sampleTrack 1 (-321) mo2 1 1 0)
          (sampleTrack 2 211 mo3 1 1 0) (1 / 100, 1 / 100) (1 / 100, 1 / 100)
          (1 / 100, 1 / 100)) ∈
      (process cfg (sampleEnv m sampleProp status) sampleColl
        [sampleTrack 0 1000010020 mo1 a b c, sampleTrack 1 (-321) mo2 1 1 0,
          sampleTrack 2 211 mo3 1 1 0]).fills :=
  noCut_mem_process_fills cfg _ _ _ _ _ _ _ _ _ (by simp) (by simp) (by simp)
    (sample_viable cfg m status hs mo1 mo2 mo3 a b c hc) rfl rfl rfl

theorem pionBody_of_propagate_none (cfg : Config F) (env : Env F) (coll : Collision F)
    (t1 t2 t3 : Track F) (st : State F) (h : propagate cfg env coll t3 = none) :
    pionBody cfg env coll t1 t2 st t3 = st := by
  unfold propagate at h
  unfold pionBody
  dsimp only
  rw [h]
  split_ifs <;> rfl

theorem kaonBody_of_propagate_none (cfg : Config F) (env : Env F) (coll : Collision F)
    (tracks : List (Track F)) (t1 t2 : Track F) (st : State F)
    (h : propagate cfg env coll t2 = none) :
    kaonBody cfg env coll tracks t1 st t2 = st := by
  unfold propagate at h
  unfold kaonBody
  dsimp only
  rw [h]
  split_ifs <;> rfl

theorem deuteronBody_of_propagate_none (cfg : Config F) (env : Env F) (coll : Collision F)
    (tracks : List (Track F)) (t1 : Track F) (st : State F)
    (h : propagate cfg env coll t1 = none) :
    deuteronBody cfg env coll tracks st t1 = { st with ncand := 0 } := by
  unfold propagate at h
  unfold deuteronBody
  dsimp only
  rw [h]
  split_ifs <;> rfl

theorem pionBody_of_status_zero (cfg : Config F) (env : Env F) (coll : Collision F)
    (t1 t2 t3 : Track F) (st : State F) (h : (env.fitterProcess t1 t2 t3).status = 0) :
    (pionBody cfg env coll t1 t2 st t3).fills = st.fills ∧
    (pionBody cfg env coll t1 t2 st t3).ncand = st.ncand ∧
    (pionBody cfg env coll t1 t2 st t3).candperdeuteron = st.candperdeuteron := by
  unfold pionBody
  dsimp only
  cases env.propagateParamToDCA t3 (collPos coll) (cfg.magField * 10) 100 <;>
    dsimp only <;> split_ifs <;> exact ⟨rfl, rfl, rfl⟩

theorem pionBody_of_not_covOk (cfg : Config F) (env : Env F) (coll : Collision F)
    (t1 t2 t3 : Track F) (st : State F) (h : ¬ covOk t1 ∨ ¬ covOk t2 ∨ ¬ covOk t3) :
    (pionBody cfg env coll t1 t2 st t3).fitCalls = st.fitCalls ∧
    (pionBody cfg env coll t1 t2 st t3).fills = st.fills ∧
    (pionBody cfg env coll t1 t2 st t3).ncand = st.ncand ∧
    (pionBody cfg env coll t1 t2 st t3).candperdeuteron = st.candperdeuteron := by
  unfold covOk at h
  unfold pionBody
  dsimp only
  cases env.propagateParamToDCA t3 (collPos coll) (cfg.magField * 10) 100 <;>
    dsimp only <;> split_ifs <;> first | exact ⟨rfl, rfl, rfl, rfl⟩ | (exfalso; tauto)

theorem foldl_invariant {σ α : Type} (P : σ → Prop) (f : σ → α → σ)
    (hstep : ∀ s a, P s → P (f s a)) (l : List α) (s : σ) (hs : P s) : P (l.foldl f s) := by
  induction l generalizing s with
  | nil => exact hs
  | cons a l ih => exact ih (f s a) (hstep s a hs)

theorem pionBody_fitCallsChecked (cfg : Config F) (env : Env F) (coll : Collision F)
    (t1 t2 : Track F) (st : State F) (t3 : Track F) (hs : FitCallsChecked st) :
    FitCallsChecked (pionBody cfg env coll t1 t2 st t3) := by
  unfold FitCallsChecked covOk at *
  unfold pionBody
  dsimp only
  cases env.propagateParamToDCA t3 (collPos coll) (cfg.magField * 10) 100 <;>
    dsimp only <;> split_ifs <;> first
    | exact hs
    | (intro x hx
       rcases List.mem_append.mp hx with hx | hx
       · exact hs x hx
       · rw [List.mem_singleton.mp hx]
         exact ⟨by assumption, by assumption, by assumption⟩)

theorem kaonBody_fitCallsChecked (cfg : Config F) (env : Env F) (coll : Collision F)
    (tracks : List (Track F)) (t1 : Track F) (st : State F) (t2 : Track F)
    (hs : FitCallsChecked st) :
    FitCallsChecked (kaonBody cfg env coll tracks t1 st t2) := by
  unfold kaonBody
  dsimp only
  cases env.propagateParamToDCA t2 (collPos coll) (cfg.magField * 10) 100 <;>
    dsimp only <;> split_ifs <;> first
    | exact hs
    | exact foldl_invariant FitCallsChecked _
        (fun s a h => pionBody_fitCallsChecked cfg env coll t1 t2 s a h) tracks _ hs

theorem deuteronBody_fitCallsChecked (cfg : Config F) (env : Env F) (coll : Collision F)
    (tracks : List (Track F)) (st : State F) (t1 : Track F) (hs : FitCallsChecked st) :
    FitCallsChecked (deuteronBody cfg env coll tracks st t1) := by
  unfold deuteronBody
  dsimp only
  cases env.propagateParamToDCA t1 (collPos coll) (cfg.magField * 10) 100 <;>
    dsimp only <;> split_ifs <;> first
    | exact hs
    | exact foldl_invariant FitCallsChecked _
        (fun s a h => kaonBody_fitCallsChecked cfg env coll tracks t1 s a h) tracks _ hs

/-- Every call of the fitter made by `process` has three arguments that passed
the covariance check. -/
theorem process_fitCallsChecked (cfg : Config F) (env : Env F) (coll : Collision F)
    (tracks : List (Track F)) : FitCallsChecked (process cfg env coll tracks) :=
  foldl_invariant FitCallsChecked _
    (fun s a h => deuteronBody_fitCallsChecked cfg env coll tracks s a h) tracks _
    (fun _ hx => absurd hx (List.not_mem_nil _))

/-- No entry of the registry belongs to a triplet of rows that is not viable. -/
theorem no_entry_of_not_viable (cfg : Config F) (env : Env F) (coll : Collision F)
    (tracks : List (Track F)) (t1 t2 t3 : Track F) (hv : ¬ Viable cfg env coll t1 t2 t3)
    (f : Fill F) (hf : f ∈ (process cfg env coll tracks).fills) :
    ¬ (f.cand.track1 = t1 ∧ f.cand.track2 = t2 ∧ f.cand.track3 = t3) := by
  rintro ⟨e1, e2, e3⟩
  obtain ⟨s1, s2, s3, d1, d2, d3, -, -, -, hs, -, -, -, hc⟩ :=
    cand_of_mem_process_fills cfg env coll tracks f hf
  rw [hc] at e1 e2 e3
  obtain ⟨q1, q2, q3, -⟩ := scored_fields cfg env coll s1 s2 s3 d1 d2 d3
  rw [q1] at e1
  rw [q2] at e2
  rw [q3] at e3
  subst e1 e2 e3
  exact hv hs

/-- The sample event whose deuteron row has the covariance block `(1, 1, 1)`,
of determinant zero: the fitter is called once, for the sample triplet, and
the count 1 is filled in `event/candperdeuteron`. -/
theorem sample_degenerate_run (cfg : Config F) (m : Libm F) :
    (process cfg (sampleEnv m sampleProp 1) sampleColl
      [sampleTrack 0 1000010020 7 1 1 1, sampleKaon, samplePion]).fitCalls =
      [(sampleTrack 0 1000010020 7 1 1 1, sampleKaon, samplePion)] ∧
    (process cfg (sampleEnv m sampleProp 1) sampleColl
      [sampleTrack 0 1000010020 7 1 1 1, sampleKaon, samplePion]).candperdeuteron = [1] := by
  constructor <;>
  norm_num [process, deuteronBody, kaonBody, pionBody, sampleEnv, sampleProp, sampleTrack,
    sampleKaon, samplePion, initState]

/-! ## The claims -/

/-- C1: `process` enumerates exactly the viable triplets. The candidates entered
in the no-cut groups, read as triplets of rows, are the ordered triplets of the
track table that satisfy `Viable` (species 1000010020, -321, 211, pairwise
distinct global indices, three successful propagations, three covariance checks
passed, non-zero fit status), each once and in loop order; and every entry of
any group belongs to a viable triplet of rows of the table. -/
theorem C1_process_enumerates_viable_triplets (cfg : Config F) (env : Env F)
    (coll : Collision F) (tracks : List (Track F)) :
    (((process cfg env coll tracks).fills.filter fun f => f.tag.isNoCut).map
        fun f => (f.cand.track1, f.cand.track2, f.cand.track3)) =
      (triplets tracks).filter (fun t => decide (Viable cfg env coll t.1 t.2.1 t.2.2)) ∧
    ∀ f ∈ (process cfg env coll tracks).fills,
      f.cand.track1 ∈ tracks ∧ f.cand.track2 ∈ tracks ∧ f.cand.track3 ∈ tracks ∧
      Viable cfg env coll f.cand.track1 f.cand.track2 f.cand.track3 := by
  constructor
  · rw [process_fills_triplets, List.filter_flatMap, List.map_flatMap,
      ← flatMap_ite_singleton]
    apply flatMap_ext
    rintro ⟨t1, t2, t3⟩ _
    dsimp only
    by_cases hv : Viable cfg env coll t1 t2 t3
    · obtain ⟨d1, d2, d3, -, -, -, he⟩ := tripletFills_of_viable cfg env coll t1 t2 t3 hv
      rw [if_pos hv, he, dispatch_eq]
      cases (scored cfg env coll t1 t2 t3 d1 d2 d3).issig <;>
        cases (scored cfg env coll t1 t2 t3 d1 d2 d3).iscut <;> rfl
    · rw [if_neg hv, tripletFills_of_not_viable cfg env coll t1 t2 t3 hv]
      rfl
  · intro f hf
    obtain ⟨t1, t2, t3, d1, d2, d3, m1, m2, m3, hv, -, -, -, hd⟩ :=
      (mem_process_fills cfg env coll tracks f).mp hf
    rcases (mem_dispatch _ f).mp hd with h | h <;> (subst h; exact ⟨m1, m2, m3, hv⟩)


/-- C2: for every entry of the registry the cut flag of its candidate is the
logical OR of the clauses of `CutClauses` (all strict), evaluated on the
observables of that candidate, whatever the values of the other clauses. -/
theorem C2_iscut_is_or_of_clauses (cfg : Config F) (env : Env F) (coll : Collision F)
    (tracks : List (Track F)) (f : Fill F) (hf : f ∈ (process cfg env coll tracks).fills) :
    f.cand.iscut = true ↔ CutClauses cfg env.libm f.cand := by
  obtain ⟨t1, t2, t3, d1, d2, d3, -, -, -, -, -, -, -, hc⟩ :=
    cand_of_mem_process_fills cfg env coll tracks f hf
  rw [hc]
  exact scored_iscut cfg env coll t1 t2 t3 d1 d2 d3

/-- Witness of C2 on the sample event (real arithmetic, default
configuration): the registry holds an entry, and its cut flag is the OR of the
clauses. -/
theorem C2_iscut_is_or_of_clauses_witness :
    ∃ f ∈ (process (Config.default ℝ)
        (sampleEnv ⟨Real.sqrt, Real.cos, Real.sin, Real.sinh⟩ sampleProp 1) sampleColl
        [sampleDeuteron, sampleKaon, samplePion]).fills,
      (f.cand.iscut = true ↔
        CutClauses (Config.default ℝ) ⟨Real.sqrt, Real.cos, Real.sin, Real.sinh⟩ f.cand) :=
  ⟨_, sample_noCut_mem (Config.default ℝ) ⟨Real.sqrt, Real.cos, Real.sin, Real.sinh⟩ 1
      (by decide) 7 7 7 1 1 0 (by norm_num),
    C2_iscut_is_or_of_clauses (Config.default ℝ) _ sampleColl _ _
      (sample_noCut_mem (Config.default ℝ) ⟨Real.sqrt, Real.cos, Real.sin, Real.sinh⟩ 1
        (by decide) 7 7 7 1 1 0 (by norm_num))⟩

/-- C4: for every entry of the registry, `issig` holds exactly when the mothers
of the three tracks are pairwise the same row: the two comparisons of the code
(`mother1` with `mother2`, `mother1` with `mother3`) give all three
equalities. -/
theorem C4_issig_iff_same_mother (cfg : Config F) (env : Env F) (coll : Collision F)
    (tracks : List (Track F)) (f : Fill F) (hf : f ∈ (process cfg env coll tracks).fills) :
    f.cand.issig = true ↔
      f.cand.track1.mcParticle.mother0Id = f.cand.track2.mcParticle.mother0Id ∧
      f.cand.track1.mcParticle.mother0Id = f.cand.track3.mcParticle.mother0Id ∧
      f.cand.track2.mcParticle.mother0Id = f.cand.track3.mcParticle.mother0Id := by
  obtain ⟨t1, t2, t3, d1, d2, d3, -, -, -, -, -, -, -, hc⟩ :=
    cand_of_mem_process_fills cfg env coll tracks f hf
  rw [hc]
  obtain ⟨e1, e2, e3, -, -, -, es⟩ := scored_fields cfg env coll t1 t2 t3 d1 d2 d3
  rw [e1, e2, e3, es, issig_iff]
  constructor
  · rintro ⟨h12, h13⟩
    exact ⟨h12, h13, h12.symm.trans h13⟩
  · rintro ⟨h12, h13, -⟩
    exact ⟨h12, h13⟩

/-- Witness of C4 on the sample event, whose three rows have the mother 7: the
registry holds an entry whose candidate is flagged as signal. -/
theorem C4_issig_iff_same_mother_witness :
    ∃ f ∈ (process (Config.default ℝ)
        (sampleEnv ⟨Real.sqrt, Real.cos, Real.sin, Real.sinh⟩ sampleProp 1) sampleColl
        [sampleDeuteron, sampleKaon, samplePion]).fills,
      f.cand.issig = true :=
  ⟨_, sample_noCut_mem (Config.default ℝ) ⟨Real.sqrt, Real.cos, Real.sin, Real.sinh⟩ 1
      (by decide) 7 7 7 1 1 0 (by norm_num),
    (C4_issig_iff_same_mother (Config.default ℝ) _ sampleColl _ _
      (sample_noCut_mem (Config.default ℝ) ⟨Real.sqrt, Real.cos, Real.sin, Real.sinh⟩ 1
        (by decide) 7 7 7 1 1 0 (by norm_num))).mpr ⟨rfl, rfl, rfl⟩⟩


/-- C5: the cut verdict is monotone in every threshold. For fixed tracks, DCA
values and fit result, and two configurations of which `cfgB` is at least as
wide as `cfgA` (each minimum of `cfgB` at most that of `cfgA`, each maximum at
least), the candidate has the same observables under both, a candidate cut
under `cfgB` is cut under `cfgA`, and a candidate not cut under `cfgA` is not
cut under `cfgB`. -/
theorem C5_cut_verdict_monotone (cfgA cfgB : Config F) (env : Env F) (coll : Collision F)
    (t1 t2 t3 : Track F) (d1 d2 d3 : F × F)
    (hDca : cfgB.minDca ≤ cfgA.minDca) (hDcaPion : cfgB.minDcaPion ≤ cfgA.minDcaPion)
    (hKaonPt : cfgB.minKaonPt ≤ cfgA.minKaonPt) (hPionPt : cfgB.minPionPt ≤ cfgA.minPionPt)
    (hMomPt : cfgB.minMomPt ≤ cfgA.minMomPt) (hRadius : cfgB.minRadius ≤ cfgA.minRadius)
    (hCpa : cfgB.minCpa ≤ cfgA.minCpa)
    (hMaxDca : cfgA.maxDca ≤ cfgB.maxDca) (hMaxRadius : cfgA.maxRadius ≤ cfgB.maxRadius) :
    { scored cfgB env coll t1 t2 t3 d1 d2 d3 with
        iscut := (scored cfgA env coll t1 t2 t3 d1 d2 d3).iscut } =
      scored cfgA env coll t1 t2 t3 d1 d2 d3 ∧
    ((scored cfgB env coll t1 t2 t3 d1 d2 d3).iscut = true →
      (scored cfgA env coll t1 t2 t3 d1 d2 d3).iscut = true) ∧
    ((scored cfgA env coll t1 t2 t3 d1 d2 d3).iscut = false →
      (scored cfgB env coll t1 t2 t3 d1 d2 d3).iscut = false) := by
  have lo : ∀ {x a b : F}, b ≤ a → x < b → x < a := fun hab h => lt_of_lt_of_le h hab
  have hi : ∀ {x a b : F}, a ≤ b → x > b → x > a := fun hab h => lt_of_le_of_lt hab h
  have key : (scored cfgB env coll t1 t2 t3 d1 d2 d3).iscut = true →
      (scored cfgA env coll t1 t2 t3 d1 d2 d3).iscut = true := by
    rw [scored_iscut, scored_iscut]
    exact Or.imp (Or.imp (lo hDca) (Or.imp (lo hDca) (Or.imp (hi hMaxDca) (hi hMaxDca))))
      (Or.imp (Or.imp (lo hDca) (Or.imp (lo hDca) (Or.imp (hi hMaxDca) (hi hMaxDca))))
      (Or.imp (Or.imp (lo hDca) (Or.imp (lo hDca) (Or.imp (hi hMaxDca) (hi hMaxDca))))
      (Or.imp (Or.imp (lo hDcaPion) (lo hDcaPion))
      (Or.imp (lo hKaonPt) (Or.imp (lo hPionPt) (Or.imp (lo hMomPt)
      (Or.imp (lo hRadius) (Or.imp (hi hMaxRadius) (lo hCpa)))))))))
  refine ⟨rfl, key, ?_⟩
  intro hA
  cases hB : (scored cfgB env coll t1 t2 t3 d1 d2 d3).iscut with
  | false => rfl
  | true => rw [key hB] at hA; exact Bool.noConfusion hA

/-- Witness of C5 on the sample triplet (real arithmetic): with `maxDca = 1/200`
the DCA `1/100` is cut, and so it is with the tighter `maxDca = 1/1000`. -/
theorem C5_cut_verdict_monotone_witness :
    (scored { Config.default ℝ with maxDca := 1 / 1000 }
      (sampleEnv ⟨Real.sqrt, Real.cos, Real.sin, Real.sinh⟩ sampleProp 1) sampleColl
      sampleDeuteron sampleKaon samplePion
      (1 / 100, 1 / 100) (1 / 100, 1 / 100) (1 / 100, 1 / 100)).iscut = true :=
  (C5_cut_verdict_monotone { Config.default ℝ with maxDca := 1 / 1000 }
    { Config.default ℝ with maxDca := 1 / 200 }
    (sampleEnv ⟨Real.sqrt, Real.cos, Real.sin, Real.sinh⟩ sampleProp 1) sampleColl
    sampleDeuteron sampleKaon samplePion
    (1 / 100, 1 / 100) (1 / 100, 1 / 100) (1 / 100, 1 / 100)
    (le_refl _) (le_refl _) (le_refl _) (le_refl _) (le_refl _) (le_refl _) (le_refl _)
    (by norm_num) (le_refl _)).2.1
    ((scored_iscut _ _ _ _ _ _ _ _ _).mpr
      (Or.inl (Or.inr (Or.inr (Or.inl (by norm_num [abs_of_pos]))))))

/-- C6: for every entry of the registry, of whatever group, the global indices
of the three tracks of its candidate are pairwise distinct. -/
theorem C6_indices_pairwise_distinct (cfg : Config F) (env : Env F) (coll : Collision F)
    (tracks : List (Track F)) (f : Fill F) (hf : f ∈ (process cfg env coll tracks).fills) :
    f.cand.track1.globalIndex ≠ f.cand.track2.globalIndex ∧
    f.cand.track1.globalIndex ≠ f.cand.track3.globalIndex ∧
    f.cand.track2.globalIndex ≠ f.cand.track3.globalIndex := by
  obtain ⟨t1, t2, t3, d1, d2, d3, -, -, -, hv, -, -, -, hc⟩ :=
    cand_of_mem_process_fills cfg env coll tracks f hf
  rw [hc]
  exact ⟨hv.2.2.2.1, hv.2.2.2.2.2.1, hv.2.2.2.2.1⟩

/-- Witness of C6 on the sample event: the registry holds an entry, and the
indices of its tracks are pairwise distinct. -/
theorem C6_indices_pairwise_distinct_witness :
    ∃ f ∈ (process (Config.default ℝ)
        (sampleEnv ⟨Real.sqrt, Real.cos, Real.sin, Real.sinh⟩ sampleProp 1) sampleColl
        [sampleDeuteron, sampleKaon, samplePion]).fills,
      f.cand.track1.globalIndex ≠ f.cand.track2.globalIndex ∧
      f.cand.track1.globalIndex ≠ f.cand.track3.globalIndex ∧
      f.cand.track2.globalIndex ≠ f.cand.track3.globalIndex :=
  ⟨_, sample_noCut_mem (Config.default ℝ) ⟨Real.sqrt, Real.cos, Real.sin, Real.sinh⟩ 1
      (by decide) 7 7 7 1 1 0 (by norm_num),
    C6_indices_pairwise_distinct (Config.default ℝ) _ sampleColl _ _
      (sample_noCut_mem (Config.default ℝ) ⟨Real.sqrt, Real.cos, Real.sin, Real.sinh⟩ 1
        (by decide) 7 7 7 1 1 0 (by norm_num))⟩

/-- C7: when the propagation fails for one of the three tracks of a triplet,
no entry of the registry belongs to that triplet, and the iteration that meets
the failure leaves the counters alone: a failure of the outer track ends the
outer iteration with the registry and `event/candperdeuteron` unchanged, a
failure of the middle track or of the inner track leaves the whole state
(`ncand` and registry included) unchanged. -/
theorem C7_failed_propagation_skips_triplet (cfg : Config F) (env : Env F)
    (coll : Collision F) (tracks : List (Track F)) (t1 t2 t3 : Track F)
    (h : propagate cfg env coll t1 = none ∨ propagate cfg env coll t2 = none ∨
      propagate cfg env coll t3 = none) :
    (∀ f ∈ (process cfg env coll tracks).fills,
      ¬ (f.cand.track1 = t1 ∧ f.cand.track2 = t2 ∧ f.cand.track3 = t3)) ∧
    (propagate cfg env coll t1 = none → ∀ st : State F,
      (deuteronBody cfg env coll tracks st t1).fills = st.fills ∧
      (deuteronBody cfg env coll tracks st t1).candperdeuteron = st.candperdeuteron) ∧
    (propagate cfg env coll t2 = none → ∀ st : State F,
      kaonBody cfg env coll tracks t1 st t2 = st) ∧
    (propagate cfg env coll t3 = none → ∀ st : State F,
      pionBody cfg env coll t1 t2 st t3 = st) := by
  refine ⟨?_, ?_, ?_, ?_⟩
  · apply no_entry_of_not_viable
    intro hv
    rcases h with h | h | h
    · have := hv.2.2.2.2.2.2.1
      rw [h] at this
      exact Bool.noConfusion this
    · have := hv.2.2.2.2.2.2.2.1
      rw [h] at this
      exact Bool.noConfusion this
    · have := hv.2.2.2.2.2.2.2.2.1
      rw [h] at this
      exact Bool.noConfusion this
  · intro h1 st
    rw [deuteronBody_of_propagate_none cfg env coll tracks t1 st h1]
    exact ⟨rfl, rfl⟩
  · intro h2 st
    exact kaonBody_of_propagate_none cfg env coll tracks t1 t2 st h2
  · intro h3 st
    exact pionBody_of_propagate_none cfg env coll t1 t2 t3 st h3

/-- Witness of C7: with a propagation that fails for the pion row (global
index 2) and succeeds for the others, the iteration of the sample triplet
returns the state it started from. -/
theorem C7_failed_propagation_skips_triplet_witness :
    pionBody (Config.default ℝ)
      (sampleEnv ⟨Real.sqrt, Real.cos, Real.sin, Real.sinh⟩
        (fun t => if t.globalIndex = 2 then none else some (1 / 100, 1 / 100)) 1)
      sampleColl sampleDeuteron sampleKaon initState samplePion = initState :=
  (C7_failed_propagation_skips_triplet (Config.default ℝ)
    (sampleEnv ⟨Real.sqrt, Real.cos, Real.sin, Real.sinh⟩
      (fun t => if t.globalIndex = 2 then none else some (1 / 100, 1 / 100)) 1)
    sampleColl [sampleDeuteron, sampleKaon, samplePion] sampleDeuteron sampleKaon samplePion
    (Or.inr (Or.inr rfl))).2.2.2 rfl initState


/-- C8 (counterexample): on the sample event whose deuteron row has the
covariance block `(1, 1, 1)`, of determinant exactly zero, the triplet is not
skipped: the fitter is called for it, the count 1 is emitted for the deuteron
and the registry holds an entry of the triplet. -/
theorem C8_zero_determinant_counterexample :
    (sampleTrack 0 1000010020 7 1 1 1 : Track ℝ).sigmaY2 *
        (sampleTrack 0 1000010020 7 1 1 1 : Track ℝ).sigmaZ2 -
      (sampleTrack 0 1000010020 7 1 1 1 : Track ℝ).sigmaZY *
        (sampleTrack 0 1000010020 7 1 1 1 : Track ℝ).sigmaZY ≤ 0 ∧
    (process (Config.default ℝ)
      (sampleEnv ⟨Real.sqrt, Real.cos, Real.sin, Real.sinh⟩ sampleProp 1) sampleColl
      [sampleTrack 0 1000010020 7 1 1 1, sampleKaon, samplePion]).fitCalls =
      [(sampleTrack 0 1000010020 7 1 1 1, sampleKaon, samplePion)] ∧
    (process (Config.default ℝ)
      (sampleEnv ⟨Real.sqrt, Real.cos, Real.sin, Real.sinh⟩ sampleProp 1) sampleColl
      [sampleTrack 0 1000010020 7 1 1 1, sampleKaon, samplePion]).candperdeuteron = [1] ∧
    ∃ f ∈ (process (Config.default ℝ)
        (sampleEnv ⟨Real.sqrt, Real.cos, Real.sin, Real.sinh⟩ sampleProp 1) sampleColl
        [sampleTrack 0 1000010020 7 1 1 1, sampleKaon, samplePion]).fills,
      f.cand.track1 = sampleTrack 0 1000010020 7 1 1 1 ∧ f.cand.track2 = sampleKaon ∧
      f.cand.track3 = samplePion :=
  ⟨by norm_num [sampleTrack],
    (sample_degenerate_run (Config.default ℝ) ⟨Real.sqrt, Real.cos, Real.sin, Real.sinh⟩).1,
    (sample_degenerate_run (Config.default ℝ) ⟨Real.sqrt, Real.cos, Real.sin, Real.sinh⟩).2,
    _, sample_noCut_mem (Config.default ℝ) ⟨Real.sqrt, Real.cos, Real.sin, Real.sinh⟩ 1
      (by decide) 7 7 7 1 1 1 (by norm_num), rfl, rfl, rfl⟩

/-- C8 (amended): when the (Y,Z) covariance block of one of the three tracks
of a triplet has a negative determinant, the fitter is never called for the
triplet and no entry of the registry belongs to it, and the iteration of the
triplet, from any state, makes no call of the fitter and leaves the registry,
`ncand` and `event/candperdeuteron` unchanged. -/
theorem C8_negative_determinant_skips_fit (cfg : Config F) (env : Env F)
    (coll : Collision F) (tracks : List (Track F)) (t1 t2 t3 : Track F)
    (h : t1.sigmaY2 * t1.sigmaZ2 - t1.sigmaZY * t1.sigmaZY < 0 ∨
      t2.sigmaY2 * t2.sigmaZ2 - t2.sigmaZY * t2.sigmaZY < 0 ∨
      t3.sigmaY2 * t3.sigmaZ2 - t3.sigmaZY * t3.sigmaZY < 0) :
    (t1, t2, t3) ∉ (process cfg env coll tracks).fitCalls ∧
    (∀ f ∈ (process cfg env coll tracks).fills,
      ¬ (f.cand.track1 = t1 ∧ f.cand.track2 = t2 ∧ f.cand.track3 = t3)) ∧
    ∀ st : State F,
      (pionBody cfg env coll t1 t2 st t3).fitCalls = st.fitCalls ∧
      (pionBody cfg env coll t1 t2 st t3).fills = st.fills ∧
      (pionBody cfg env coll t1 t2 st t3).ncand = st.ncand ∧
      (pionBody cfg env coll t1 t2 st t3).candperdeuteron = st.candperdeuteron := by
  refine ⟨?_, ?_, ?_⟩
  · intro hx
    obtain ⟨c1, c2, c3⟩ := process_fitCallsChecked cfg env coll tracks _ hx
    rcases h with h | h | h
    · exact c1 h
    · exact c2 h
    · exact c3 h
  · apply no_entry_of_not_viable
    intro hv
    rcases h with h | h | h
    · exact hv.2.2.2.2.2.2.2.2.2.1 h
    · exact hv.2.2.2.2.2.2.2.2.2.2.1 h
    · exact hv.2.2.2.2.2.2.2.2.2.2.2.1 h
  · intro st
    apply pionBody_of_not_covOk
    unfold covOk
    rcases h with h | h | h
    · exact Or.inl (not_not.mpr h)
    · exact Or.inr (Or.inl (not_not.mpr h))
    · exact Or.inr (Or.inr (not_not.mpr h))

/-- Witness of C8 (amended): the deuteron row with the covariance block
`(1, 1, 2)`, of determinant -3; the iteration of the sample triplet makes no
call of the fitter. -/
theorem C8_negative_determinant_skips_fit_witness :
    (pionBody (Config.default ℝ)
      (sampleEnv ⟨Real.sqrt, Real.cos, Real.sin, Real.sinh⟩ sampleProp 1) sampleColl
      (sampleTrack 0 1000010020 7 1 1 2) sampleKaon initState samplePion).fitCalls = [] :=
  ((C8_negative_determinant_skips_fit (Config.default ℝ)
    (sampleEnv ⟨Real.sqrt, Real.cos, Real.sin, Real.sinh⟩ sampleProp 1) sampleColl
    [sampleTrack 0 1000010020 7 1 1 2, sampleKaon, samplePion]
    (sampleTrack 0 1000010020 7 1 1 2) sampleKaon samplePion
    (Or.inl (by norm_num [sampleTrack]))).2.2 initState).1

/-- C9: when the fitter returns the status 0 for a triplet, no entry of the
registry, of whatever group, belongs to the triplet, and the iteration of the
triplet, from any state and for any configuration of the cuts, leaves the
registry, `ncand` and `event/candperdeuteron` unchanged. -/
theorem C9_failed_fit_skips_triplet (cfg : Config F) (env : Env F)
    (coll : Collision F) (tracks : List (Track F)) (t1 t2 t3 : Track F)
    (h : (env.fitterProcess t1 t2 t3).status = 0) :
    (∀ f ∈ (process cfg env coll tracks).fills,
      ¬ (f.cand.track1 = t1 ∧ f.cand.track2 = t2 ∧ f.cand.track3 = t3)) ∧
    ∀ st : State F,
      (pionBody cfg env coll t1 t2 st t3).fills = st.fills ∧
      (pionBody cfg env coll t1 t2 st t3).ncand = st.ncand ∧
      (pionBody cfg env coll t1 t2 st t3).candperdeuteron = st.candperdeuteron := by
  constructor
  · apply no_entry_of_not_viable
    intro hv
    exact hv.2.2.2.2.2.2.2.2.2.2.2.2 h
  · intro st
    exact pionBody_of_status_zero cfg env coll t1 t2 t3 st h

/-- Witness of C9: the sample triplet with a fitter that returns the status 0,
under a configuration (`maxDca = 1/1000`) for which the DCA clauses have
already set `iscut`; the iteration leaves the registry empty and `ncand` at 0. -/
theorem C9_failed_fit_skips_triplet_witness :
    (pionBody { Config.default ℝ with maxDca := 1 / 1000 }
      (sampleEnv ⟨Real.sqrt, Real.cos, Real.sin, Real.sinh⟩ sampleProp 0) sampleColl
      sampleDeuteron sampleKaon initState samplePion).fills = [] ∧
    (pionBody { Config.default ℝ with maxDca := 1 / 1000 }
      (sampleEnv ⟨Real.sqrt, Real.cos, Real.sin, Real.sinh⟩ sampleProp 0) sampleColl
      sampleDeuteron sampleKaon initState samplePion).ncand = 0 :=
  ⟨((C9_failed_fit_skips_triplet { Config.default ℝ with maxDca := 1 / 1000 }
      (sampleEnv ⟨Real.sqrt, Real.cos, Real.sin, Real.sinh⟩ sampleProp 0) sampleColl
      [sampleDeuteron, sampleKaon, samplePion] sampleDeuteron sampleKaon samplePion
      rfl).2 initState).1,
   ((C9_failed_fit_skips_triplet { Config.default ℝ with maxDca := 1 / 1000 }
      (sampleEnv ⟨Real.sqrt, Real.cos, Real.sin, Real.sinh⟩ sampleProp 0) sampleColl
      [sampleDeuteron, sampleKaon, samplePion] sampleDeuteron sampleKaon samplePion
      rfl).2 initState).2.1⟩

/-- C10 (counterexample): on the sample event whose three rows have no mother
(`mother0Id = -1`), the registry holds an entry of the signal no-cut group
whose candidate is flagged as signal. -/
theorem C10_all_motherless_counterexample :
    ∃ f ∈ (process (Config.default ℝ)
        (sampleEnv ⟨Real.sqrt, Real.cos, Real.sin, Real.sinh⟩ sampleProp 1) sampleColl
        [sampleTrack 0 1000010020 (-1) 1 1 0, sampleTrack 1 (-321) (-1) 1 1 0,
          sampleTrack 2 211 (-1) 1 1 0]).fills,
      ¬ hasMother f.cand.track1 ∧ ¬ hasMother f.cand.track2 ∧ ¬ hasMother f.cand.track3 ∧
      f.cand.issig = true ∧ f.tag = Tag.signocut :=
  ⟨_, sample_noCut_mem (Config.default ℝ) ⟨Real.sqrt, Real.cos, Real.sin, Real.sinh⟩ 1
      (by decide) (-1) (-1) (-1) 1 1 0 (by norm_num),
    by decide, by decide, by decide, rfl, rfl⟩

/-- C10 (amended): for every entry of the registry, when one of the three
tracks has no mother and another one has a mother, `issig` is false. -/
theorem C10_issig_false_of_mixed_mothers (cfg : Config F) (env : Env F)
    (coll : Collision F) (tracks : List (Track F)) (f : Fill F)
    (hf : f ∈ (process cfg env coll tracks).fills)
    (hlack : ¬ hasMother f.cand.track1 ∨ ¬ hasMother f.cand.track2 ∨
      ¬ hasMother f.cand.track3)
    (hhas : hasMother f.cand.track1 ∨ hasMother f.cand.track2 ∨ hasMother f.cand.track3) :
    f.cand.issig = false := by
  cases hs : f.cand.issig with
  | false => rfl
  | true =>
    exfalso
    obtain ⟨t1, t2, t3, d1, d2, d3, -, -, -, -, -, -, -, hc⟩ :=
      cand_of_mem_process_fills cfg env coll tracks f hf
    rw [hc] at hs hlack hhas
    obtain ⟨e1, e2, e3, -, -, -, es⟩ := scored_fields cfg env coll t1 t2 t3 d1 d2 d3
    rw [e1, e2, e3] at hlack hhas
    rw [es, issig_iff] at hs
    unfold hasMother at hlack hhas
    rw [← hs.1, ← hs.2] at hlack hhas
    tauto

/-- Witness of C10 (amended): the sample event whose deuteron row has no
mother while the kaon and pion rows have the mother 7; the registry holds an
entry, and its candidate is not flagged as signal. -/
theorem C10_issig_false_of_mixed_mothers_witness :
    ∃ f ∈ (process (Config.default ℝ)
        (sampleEnv ⟨Real.sqrt, Real.cos, Real.sin, Real.sinh⟩ sampleProp 1) sampleColl
        [sampleTrack 0 1000010020 (-1) 1 1 0, sampleKaon, samplePion]).fills,
      f.cand.issig = false :=
  ⟨_, sample_noCut_mem (Config.default ℝ) ⟨Real.sqrt, Real.cos, Real.sin, Real.sinh⟩ 1
      (by decide) (-1) 7 7 1 1 0 (by norm_num),
    C10_issig_false_of_mixed_mothers (Config.default ℝ) _ sampleColl _ _
      (sample_noCut_mem (Config.default ℝ) ⟨Real.sqrt, Real.cos, Real.sin, Real.sinh⟩ 1
        (by decide) (-1) 7 7 1 1 0 (by norm_num))
      (Or.inl (by decide)) (Or.inr (Or.inl (by decide)))⟩


/-! ## The candidate counter -/

omit [LinearOrderedField F] in
theorem noCutCount_nil : noCutCount ([] : List (Fill F)) = 0 := rfl

omit [LinearOrderedField F] in
theorem noCutCount_append (a b : List (Fill F)) :
    noCutCount (a ++ b) = noCutCount a + noCutCount b := by
  unfold noCutCount
  rw [List.filter_append, List.length_append]
  push_cast
  rfl

omit [LinearOrderedField F] in
theorem noCutCount_dispatch (c : Candidate F) : noCutCount (dispatch c) = 1 := by
  unfold noCutCount dispatch
  cases c.issig <;> cases c.iscut <;> rfl

omit [LinearOrderedField F] in
theorem noCutCount_flatMap {α : Type} (l : List α) (f : α → List (Fill F)) :
    noCutCount (l.flatMap f) = (l.map fun a => noCutCount (f a)).sum := by
  induction l with
  | nil => rfl
  | cons a l ih => simp only [List.flatMap_cons, noCutCount_append, ih, List.map_cons, List.sum_cons]

theorem pionBody_ncand (cfg : Config F) (env : Env F) (coll : Collision F)
    (t1 t2 : Track F) (st : State F) (t3 : Track F) :
    (pionBody cfg env coll t1 t2 st t3).ncand =
      st.ncand + noCutCount (pionFills cfg env coll t1 t2 st.dca1 st.dca2 t3) := by
  unfold pionFills pionBody blank
  dsimp only
  cases env.propagateParamToDCA t3 (collPos coll) (cfg.magField * 10) 100 <;>
    dsimp only <;> split_ifs <;> simp [noCutCount_nil, noCutCount_dispatch]

theorem pionLoop_ncand (cfg : Config F) (env : Env F) (coll : Collision F)
    (t1 t2 : Track F) (l : List (Track F)) (st : State F) :
    (l.foldl (pionBody cfg env coll t1 t2) st).ncand =
      st.ncand + noCutCount (l.flatMap (pionFills cfg env coll t1 t2 st.dca1 st.dca2)) := by
  induction l generalizing st with
  | nil => simp [noCutCount_nil]
  | cons t3 l ih =>
    rw [List.foldl_cons, ih, pionBody_ncand, pionBody_dca1, pionBody_dca2, List.flatMap_cons,
      noCutCount_append, add_assoc]

theorem kaonBody_ncand (cfg : Config F) (env : Env F) (coll : Collision F)
    (tracks : List (Track F)) (t1 : Track F) (st : State F) (t2 : Track F) :
    (kaonBody cfg env coll tracks t1 st t2).ncand =
      st.ncand + noCutCount (kaonFills cfg env coll tracks t1 st.dca1 t2) := by
  unfold kaonFills kaonBody blank
  dsimp only
  cases env.propagateParamToDCA t2 (collPos coll) (cfg.magField * 10) 100 <;>
    dsimp only <;> split_ifs <;> simp [noCutCount_nil, pionLoop_ncand, pionLoop_fills]

theorem kaonLoop_ncand (cfg : Config F) (env : Env F) (coll : Collision F)
    (tracks : List (Track F)) (t1 : Track F) (l : List (Track F)) (st : State F) :
    (l.foldl (kaonBody cfg env coll tracks t1) st).ncand =
      st.ncand + noCutCount (l.flatMap (kaonFills cfg env coll tracks t1 st.dca1)) := by
  induction l generalizing st with
  | nil => simp [noCutCount_nil]
  | cons t2 l ih =>
    rw [List.foldl_cons, ih, kaonBody_ncand, kaonBody_dca1, List.flatMap_cons,
      noCutCount_append, add_assoc]

theorem deuteronBody_candperdeuteron (cfg : Config F) (env : Env F) (coll : Collision F)
    (tracks : List (Track F)) (st : State F) (t1 : Track F) :
    (deuteronBody cfg env coll tracks st t1).candperdeuteron =
      st.candperdeuteron ++
        (if OuterOk cfg env coll t1 then [noCutCount (deuteronFills cfg env coll tracks t1)]
          else []) := by
  by_cases h1 : t1.mcParticle.pdgCode = 1000010020
  · cases hp : propagate cfg env coll t1 with
    | none =>
      have hn : ¬ OuterOk cfg env coll t1 := by
        intro h
        have := h.2
        rw [hp] at this
        exact Bool.noConfusion this
      rw [if_neg hn, deuteronBody_of_propagate_none cfg env coll tracks t1 st hp]
      simp
    | some d1 =>
      have hy : OuterOk cfg env coll t1 := ⟨h1, by rw [hp]; rfl⟩
      rw [if_pos hy, deuteronFills_eq, if_pos h1, hp]
      unfold propagate at hp
      unfold deuteronBody
      dsimp only
      rw [hp, if_neg (not_not.mpr h1)]
      dsimp only
      rw [kaonLoop_candperdeuteron, kaonLoop_ncand]
      simp
  · have hn : ¬ OuterOk cfg env coll t1 := fun h => h1 h.1
    rw [if_neg hn]
    unfold deuteronBody
    dsimp only
    rw [if_pos h1]
    simp

theorem deuteronLoop_candperdeuteron (cfg : Config F) (env : Env F) (coll : Collision F)
    (tracks : List (Track F)) (l : List (Track F)) (st : State F) :
    (l.foldl (deuteronBody cfg env coll tracks) st).candperdeuteron =
      st.candperdeuteron ++ l.flatMap fun t1 =>
        if OuterOk cfg env coll t1 then [noCutCount (deuteronFills cfg env coll tracks t1)]
          else [] := by
  induction l generalizing st with
  | nil => simp
  | cons t1 l ih =>
    rw [List.foldl_cons, ih, deuteronBody_candperdeuteron, List.flatMap_cons, List.append_assoc]

theorem flatMap_ite_singleton_map {α β : Type} (l : List α) (p : α → Prop) [DecidablePred p]
    (g : α → β) :
    (l.flatMap fun a => if p a then [g a] else []) =
      (l.filter fun a => decide (p a)).map g := by
  induction l with
  | nil => rfl
  | cons a l ih =>
    simp only [List.flatMap_cons, ih, List.filter_cons]
    by_cases h : p a <;> simp [h]

theorem noCutCount_tripletFills (cfg : Config F) (env : Env F) (coll : Collision F)
    (t1 t2 t3 : Track F) :
    noCutCount (tripletFills cfg env coll t1 t2 t3) =
      if Viable cfg env coll t1 t2 t3 then 1 else 0 := by
  by_cases hv : Viable cfg env coll t1 t2 t3
  · obtain ⟨d1, d2, d3, -, -, -, he⟩ := tripletFills_of_viable cfg env coll t1 t2 t3 hv
    rw [he, if_pos hv, noCutCount_dispatch]
  · rw [tripletFills_of_not_viable cfg env coll t1 t2 t3 hv, if_neg hv, noCutCount_nil]

theorem noCutCount_pionTriplets (cfg : Config F) (env : Env F) (coll : Collision F)
    (t1 t2 : Track F) (l : List (Track F)) :
    noCutCount (l.flatMap (tripletFills cfg env coll t1 t2)) =
      ((l.filter fun t3 => decide (Viable cfg env coll t1 t2 t3)).length : Int) := by
  induction l with
  | nil => rfl
  | cons t3 l ih =>
    rw [List.flatMap_cons, noCutCount_append, ih, noCutCount_tripletFills, List.filter_cons]
    by_cases hv : Viable cfg env coll t1 t2 t3 <;> simp [hv, add_comm]

theorem noCutCount_kaonTriplets (cfg : Config F) (env : Env F) (coll : Collision F)
    (t1 : Track F) (l2 l3 : List (Track F)) :
    noCutCount (l2.flatMap fun t2 => l3.flatMap (tripletFills cfg env coll t1 t2)) =
      ((l2.flatMap fun t2 =>
        (l3.filter fun t3 => decide (Viable cfg env coll t1 t2 t3)).map
          fun t3 => (t2, t3)).length : Int) := by
  induction l2 with
  | nil => rfl
  | cons t2 l2 ih =>
    rw [List.flatMap_cons, noCutCount_append, ih, noCutCount_pionTriplets, List.flatMap_cons,
      List.length_append, List.length_map]
    push_cast
    rfl

theorem noCutCount_deuteronFills (cfg : Config F) (env : Env F) (coll : Collision F)
    (tracks : List (Track F)) (t1 : Track F) :
    noCutCount (deuteronFills cfg env coll tracks t1) =
      ((viableWith cfg env coll tracks t1).length : Int) := by
  rw [deuteronFills_eq_tripletFills]
  exact noCutCount_kaonTriplets cfg env coll t1 tracks tracks

/-- The values filled in `event/candperdeuteron`: one for each row that passes
the guards of the outer loop, in the order of the table, equal to the number of
viable triplets with that outer row. -/
theorem process_candperdeuteron (cfg : Config F) (env : Env F) (coll : Collision F)
    (tracks : List (Track F)) :
    (process cfg env coll tracks).candperdeuteron =
      (tracks.filter fun t1 => decide (OuterOk cfg env coll t1)).map
        fun t1 => ((viableWith cfg env coll tracks t1).length : Int) := by
  unfold process
  rw [deuteronLoop_candperdeuteron, ← flatMap_ite_singleton_map]
  simp only [initState, List.nil_append]
  apply flatMap_ext
  intro t1 _
  rw [noCutCount_deuteronFills]

theorem deuteronFills_of_not_outerOk (cfg : Config F) (env : Env F) (coll : Collision F)
    (tracks : List (Track F)) (t1 : Track F) (h : ¬ OuterOk cfg env coll t1) :
    deuteronFills cfg env coll tracks t1 = [] := by
  rw [deuteronFills_eq]
  by_cases h1 : t1.mcParticle.pdgCode = 1000010020
  · rw [if_pos h1]
    cases hp : propagate cfg env coll t1 with
    | none => rfl
    | some d1 => exact absurd ⟨h1, by rw [hp]; rfl⟩ h
  · rw [if_neg h1]

/-- The sum of the values filled in `event/candperdeuteron` is the number of
entries of the no-cut groups. -/
theorem sum_candperdeuteron (cfg : Config F) (env : Env F) (coll : Collision F)
    (tracks : List (Track F)) :
    (process cfg env coll tracks).candperdeuteron.sum =
      noCutCount (process cfg env coll tracks).fills := by
  rw [process_fills, noCutCount_flatMap]
  unfold process
  rw [deuteronLoop_candperdeuteron]
  simp only [initState, List.nil_append]
  have key : ∀ l : List (Track F),
      (l.flatMap fun t1 =>
        if OuterOk cfg env coll t1 then [noCutCount (deuteronFills cfg env coll tracks t1)]
          else []).sum =
      (l.map fun a => noCutCount (deuteronFills cfg env coll tracks a)).sum := by
    intro l
    induction l with
    | nil => rfl
    | cons t1 l ih =>
      rw [List.flatMap_cons, List.sum_append, ih, List.map_cons, List.sum_cons]
      by_cases h : OuterOk cfg env coll t1
      · rw [if_pos h]
        simp
      · rw [if_neg h, deuteronFills_of_not_outerOk cfg env coll tracks t1 h]
        simp [noCutCount_nil]
  exact key tracks

theorem count_noCut_eq_count_other (cfg : Config F) (env : Env F) (coll : Collision F)
    (tracks : List (Track F)) :
    ((process cfg env coll tracks).fills.filter fun f => f.tag.isNoCut).length =
      ((process cfg env coll tracks).fills.filter
        fun f => f.tag.isPassing || f.tag.isCutGroup).length := by
  rw [process_fills_triplets]
  induction triplets tracks with
  | nil => rfl
  | cons t l ih =>
    rw [List.flatMap_cons, List.filter_append, List.filter_append, List.length_append,
      List.length_append, ih]
    congr 1
    by_cases hv : Viable cfg env coll t.1 t.2.1 t.2.2
    · obtain ⟨d1, d2, d3, -, -, -, he⟩ := tripletFills_of_viable cfg env coll _ _ _ hv
      rw [he, dispatch_eq]
      cases (scored cfg env coll t.1 t.2.1 t.2.2 d1 d2 d3).issig <;>
        cases (scored cfg env coll t.1 t.2.1 t.2.2 d1 d2 d3).iscut <;> rfl
    · rw [tripletFills_of_not_viable cfg env coll _ _ _ hv]
      rfl

/-- C12: the values filled in `event/candperdeuteron` are, in the order of the
track table, one value for each row of the heavy species whose propagation
succeeds (also when the value is zero) and none for any other row; each value
is the number of viable triplets with that outer row, which are the scored
ones, cut or not; the sum of the values is the number of entries of the two
no-cut groups, which is the number of entries of the four passing and cut
groups. -/
theorem C12_counter_per_outer_track (cfg : Config F) (env : Env F) (coll : Collision F)
    (tracks : List (Track F)) :
    (process cfg env coll tracks).candperdeuteron =
      ((tracks.filter fun t1 => decide (OuterOk cfg env coll t1)).map
        fun t1 => ((viableWith cfg env coll tracks t1).length : Int)) ∧
    (process cfg env coll tracks).candperdeuteron.sum =
      (((process cfg env coll tracks).fills.filter fun f => f.tag.isNoCut).length : Int) ∧
    ((process cfg env coll tracks).fills.filter fun f => f.tag.isNoCut).length =
      ((process cfg env coll tracks).fills.filter
        fun f => f.tag.isPassing || f.tag.isCutGroup).length :=
  ⟨process_candperdeuteron cfg env coll tracks, sum_candperdeuteron cfg env coll tracks,
    count_noCut_eq_count_other cfg env coll tracks⟩

theorem foldl_rel {σ α : Type} (R : σ → σ → Prop) (f g : σ → α → σ)
    (hstep : ∀ s s' a, R s s' → R (f s a) (g s' a)) (l : List α) (s s' : σ) (h : R s s') :
    R (l.foldl f s) (l.foldl g s') := by
  induction l generalizing s s' with
  | nil => exact h
  | cons a l ih => exact ih (f s a) (g s' a) (hstep s s' a h)

theorem noCutContents_append (m : Libm F) (a b : List (Fill F)) :
    noCutContents m (a ++ b) = noCutContents m a ++ noCutContents m b := by
  unfold noCutContents
  rw [List.filter_append, List.map_append]

theorem noCutContents_dispatch (m : Libm F) (c : Candidate F) :
    noCutContents m (dispatch c) =
      [(if c.issig then Tag.signocut else Tag.bkgnocut, c.track1, c.track2, c.track3,
        FillHistos m c)] := by
  unfold noCutContents dispatch
  cases c.issig <;> cases c.iscut <;> rfl

theorem noCutContents_candidate (cfgA cfgB : Config F) (env : Env F) (coll : Collision F)
    (t1 t2 t3 : Track F) (d1 d2 d3 : F × F) (bA bB s : Bool) (fit : FitResult F) :
    noCutContents env.libm (dispatch (candidate cfgA env coll t1 t2 t3 d1 d2 d3 bA s fit)) =
      noCutContents env.libm (dispatch (candidate cfgB env coll t1 t2 t3 d1 d2 d3 bB s fit)) := by
  rw [noCutContents_dispatch, noCutContents_dispatch]
  rfl

theorem pionBody_sameNoCut (cfgA cfgB : Config F) (hmag : cfgA.magField = cfgB.magField)
    (env : Env F) (coll : Collision F) (t1 t2 : Track F) (a b : State F) (t3 : Track F)
    (h : SameNoCut env.libm a b) :
    SameNoCut env.libm (pionBody cfgA env coll t1 t2 a t3) (pionBody cfgB env coll t1 t2 b t3) := by
  obtain ⟨h1, h2, h3, h4, h5, h6, h7⟩ := h
  unfold pionBody
  dsimp only
  rw [hmag]
  cases env.propagateParamToDCA t3 (collPos coll) (cfgB.magField * 10) 100 <;>
    dsimp only <;> split_ifs <;>
    first
    | exact ⟨h1, h2, h3, h4, h5, h6, h7⟩
    | exact ⟨h1, h2, rfl, h4, h5, h6, h7⟩
    | exact ⟨h1, h2, rfl, h4, h5, by rw [h6], h7⟩
    | (refine ⟨h1, h2, rfl, by rw [h4], h5, by rw [h6], ?_⟩
       dsimp only
       rw [noCutContents_append, noCutContents_append, h7, h1, h2]
       congr 1
       exact noCutContents_candidate cfgA cfgB env coll _ _ _ _ _ _ _ _ _ _)

theorem kaonBody_sameNoCut (cfgA cfgB : Config F) (hmag : cfgA.magField = cfgB.magField)
    (env : Env F) (coll : Collision F) (tracks : List (Track F)) (t1 : Track F)
    (a b : State F) (t2 : Track F) (h : SameNoCut env.libm a b) :
    SameNoCut env.libm (kaonBody cfgA env coll tracks t1 a t2)
      (kaonBody cfgB env coll tracks t1 b t2) := by
  unfold kaonBody
  dsimp only
  rw [hmag]
  cases env.propagateParamToDCA t2 (collPos coll) (cfgB.magField * 10) 100 <;>
    dsimp only <;> split_ifs <;>
    first
    | exact h
    | (apply foldl_rel (SameNoCut env.libm) _ _
        (fun s s' x hs => pionBody_sameNoCut cfgA cfgB hmag env coll t1 t2 s s' x hs)
       obtain ⟨h1, h2, h3, h4, h5, h6, h7⟩ := h
       exact ⟨h1, rfl, h3, h4, h5, h6, h7⟩)

theorem deuteronBody_sameNoCut (cfgA cfgB : Config F) (hmag : cfgA.magField = cfgB.magField)
    (env : Env F) (coll : Collision F) (tracks : List (Track F))
    (a b : State F) (t1 : Track F) (h : SameNoCut env.libm a b) :
    SameNoCut env.libm (deuteronBody cfgA env coll tracks a t1)
      (deuteronBody cfgB env coll tracks b t1) := by
  have h0 : SameNoCut env.libm { a with ncand := 0 } { b with ncand := 0 } := by
    obtain ⟨h1, h2, h3, h4, h5, h6, h7⟩ := h
    exact ⟨h1, h2, h3, rfl, h5, h6, h7⟩
  unfold deuteronBody
  dsimp only
  rw [hmag]
  cases env.propagateParamToDCA t1 (collPos coll) (cfgB.magField * 10) 100 <;>
    dsimp only <;> split_ifs <;>
    first
    | exact h0
    | (have hl := foldl_rel (SameNoCut env.libm) _ _
        (fun s s' x hs => kaonBody_sameNoCut cfgA cfgB hmag env coll tracks t1 s s' x hs)
        tracks { a with ncand := 0, dca1 := ‹F × F› } { b with ncand := 0, dca1 := ‹F × F› }
        (by
          obtain ⟨h1, h2, h3, h4, h5, h6, h7⟩ := h
          exact ⟨rfl, h2, h3, rfl, h5, h6, h7⟩)
       obtain ⟨g1, g2, g3, g4, g5, g6, g7⟩ := hl
       exact ⟨g1, g2, g3, g4, by dsimp only; rw [g4, g5], g6, g7⟩)

/-- C11: two configurations with the same magnetic field, whatever their
thresholds, give the same contents of the two no-cut groups (same groups, same
rows, same filled values, in the same order), the same values in
`event/candperdeuteron` and the same calls of the fitter. -/
theorem C11_noCut_independent_of_thresholds (cfgA cfgB : Config F)
    (hmag : cfgA.magField = cfgB.magField) (env : Env F) (coll : Collision F)
    (tracks : List (Track F)) :
    noCutContents env.libm (process cfgA env coll tracks).fills =
      noCutContents env.libm (process cfgB env coll tracks).fills ∧
    (process cfgA env coll tracks).candperdeuteron =
      (process cfgB env coll tracks).candperdeuteron ∧
    (process cfgA env coll tracks).fitCalls = (process cfgB env coll tracks).fitCalls := by
  have h := foldl_rel (SameNoCut env.libm) _ _
    (fun s s' x hs => deuteronBody_sameNoCut cfgA cfgB hmag env coll tracks s s' x hs)
    tracks initState initState ⟨rfl, rfl, rfl, rfl, rfl, rfl, rfl⟩
  exact ⟨h.2.2.2.2.2.2, h.2.2.2.2.1, h.2.2.2.2.2.1⟩

/-- Witness of C11 on the sample event: the default configuration and the
configuration with `minRadius = 1`, which cuts the sample candidate, fill the
same values in `event/candperdeuteron`. -/
theorem C11_noCut_independent_of_thresholds_witness :
    (process { Config.default ℝ with minRadius := 1 }
      (sampleEnv ⟨Real.sqrt, Real.cos, Real.sin, Real.sinh⟩ sampleProp 1) sampleColl
      [sampleDeuteron, sampleKaon, samplePion]).candperdeuteron =
    (process (Config.default ℝ)
      (sampleEnv ⟨Real.sqrt, Real.cos, Real.sin, Real.sinh⟩ sampleProp 1) sampleColl
      [sampleDeuteron, sampleKaon, samplePion]).candperdeuteron :=
  (C11_noCut_independent_of_thresholds { Config.default ℝ with minRadius := 1 }
    (Config.default ℝ) rfl
    (sampleEnv ⟨Real.sqrt, Real.cos, Real.sin, Real.sinh⟩ sampleProp 1) sampleColl
    [sampleDeuteron, sampleKaon, samplePion]).2.1

/-! ## Scenarios -/

theorem not_cutClauses_of_cutsDisabledFor (cfg : Config F) (m : Libm F) (c : Candidate F)
    (h : CutsDisabledFor cfg m c) : ¬ CutClauses cfg m c := by
  unfold CutClauses
  simp only [not_or, not_lt, gt_iff_lt]
  exact h

theorem scored_iscut_cutClauses (cfg : Config F) (env : Env F) (coll : Collision F)
    (t1 t2 t3 : Track F) (d1 d2 d3 : F × F) :
    (scored cfg env coll t1 t2 t3 d1 d2 d3).iscut = true ↔
      CutClauses cfg env.libm (scored cfg env coll t1 t2 t3 d1 d2 d3) :=
  scored_iscut cfg env coll t1 t2 t3 d1 d2 d3

/-- The second entry of a viable triplet of rows is in the registry. -/
theorem second_mem_process_fills (cfg : Config F) (env : Env F) (coll : Collision F)
    (tracks : List (Track F)) (t1 t2 t3 : Track F) (d1 d2 d3 : F × F)
    (m1 : t1 ∈ tracks) (m2 : t2 ∈ tracks) (m3 : t3 ∈ tracks)
    (hv : Viable cfg env coll t1 t2 t3)
    (hd1 : propagate cfg env coll t1 = some d1) (hd2 : propagate cfg env coll t2 = some d2)
    (hd3 : propagate cfg env coll t3 = some d3) :
    Fill.mk (if (scored cfg env coll t1 t2 t3 d1 d2 d3).iscut then
        (if (scored cfg env coll t1 t2 t3 d1 d2 d3).issig then Tag.sigcut else Tag.bkgcut)
        else (if (scored cfg env coll t1 t2 t3 d1 d2 d3).issig then Tag.sig else Tag.bkg))
        (scored cfg env coll t1 t2 t3 d1 d2 d3) ∈
      (process cfg env coll tracks).fills :=
  (mem_process_fills cfg env coll tracks _).mpr
    ⟨t1, t2, t3, d1, d2, d3, m1, m2, m3, hv, hd1, hd2, hd3,
      (mem_dispatch _ _).mpr (Or.inr rfl)⟩

/-- C13: when the cuts are disabled for every scored candidate (each minimum
threshold at most, each maximum threshold at least, every observable it is
compared with), every viable triplet of rows has its candidate entered in the
no-cut group and in the passing group of its flavour, and no entry of the
registry is in a cut group. -/
theorem C13_cuts_disabled_all_pass (cfg : Config F) (env : Env F) (coll : Collision F)
    (tracks : List (Track F))
    (h : ∀ f ∈ (process cfg env coll tracks).fills, CutsDisabledFor cfg env.libm f.cand) :
    (∀ t1 ∈ tracks, ∀ t2 ∈ tracks, ∀ t3 ∈ tracks, Viable cfg env coll t1 t2 t3 →
      ∃ c : Candidate F, c.track1 = t1 ∧ c.track2 = t2 ∧ c.track3 = t3 ∧
        Fill.mk (if c.issig then Tag.signocut else Tag.bkgnocut) c ∈
          (process cfg env coll tracks).fills ∧
        Fill.mk (if c.issig then Tag.sig else Tag.bkg) c ∈
          (process cfg env coll tracks).fills) ∧
    ∀ f ∈ (process cfg env coll tracks).fills, f.tag.isCutGroup = false := by
  have hcut : ∀ f ∈ (process cfg env coll tracks).fills, f.cand.iscut = false := by
    intro f hf
    obtain ⟨t1, t2, t3, d1, d2, d3, -, -, -, -, -, -, -, hc⟩ :=
      cand_of_mem_process_fills cfg env coll tracks f hf
    have hd := not_cutClauses_of_cutsDisabledFor cfg env.libm f.cand (h f hf)
    rw [hc] at hd ⊢
    cases hb : (scored cfg env coll t1 t2 t3 d1 d2 d3).iscut with
    | false => rfl
    | true => exact absurd ((scored_iscut_cutClauses cfg env coll t1 t2 t3 d1 d2 d3).mp hb) hd
  constructor
  · intro t1 m1 t2 m2 t3 m3 hv
    obtain ⟨d1, d2, d3, hd1, hd2, hd3, -⟩ := tripletFills_of_viable cfg env coll t1 t2 t3 hv
    have hn := noCut_mem_process_fills cfg env coll tracks t1 t2 t3 d1 d2 d3 m1 m2 m3 hv
      hd1 hd2 hd3
    have hs := second_mem_process_fills cfg env coll tracks t1 t2 t3 d1 d2 d3 m1 m2 m3 hv
      hd1 hd2 hd3
    have hb : (scored cfg env coll t1 t2 t3 d1 d2 d3).iscut = false := hcut _ hn
    rw [hb] at hs
    exact ⟨scored cfg env coll t1 t2 t3 d1 d2 d3, rfl, rfl, rfl, hn, hs⟩
  · intro f hf
    have hb := hcut f hf
    obtain ⟨t1, t2, t3, d1, d2, d3, -, -, -, -, -, -, -, hd⟩ :=
      (mem_process_fills cfg env coll tracks f).mp hf
    rcases (mem_dispatch _ f).mp hd with e | e
    · rw [e]
      cases (scored cfg env coll t1 t2 t3 d1 d2 d3).issig <;> rfl
    · rw [e] at hb ⊢
      dsimp only at hb
      rw [hb]
      cases (scored cfg env coll t1 t2 t3 d1 d2 d3).issig <;> rfl

/-- C14: a viable triplet of rows whose fitted decay radius is below
`minRadius` has its candidate entered in the no-cut group and in the cut group
of its flavour, and no entry of a passing group belongs to the triplet,
whatever the other observables and thresholds. -/
theorem C14_small_radius_is_cut (cfg : Config F) (env : Env F) (coll : Collision F)
    (tracks : List (Track F)) (t1 t2 t3 : Track F)
    (m1 : t1 ∈ tracks) (m2 : t2 ∈ tracks) (m3 : t3 ∈ tracks)
    (hv : Viable cfg env coll t1 t2 t3)
    (hr : env.libm.sqrt
      ((env.fitterProcess t1 t2 t3).pca.x * (env.fitterProcess t1 t2 t3).pca.x +
       (env.fitterProcess t1 t2 t3).pca.y * (env.fitterProcess t1 t2 t3).pca.y +
       (env.fitterProcess t1 t2 t3).pca.z * (env.fitterProcess t1 t2 t3).pca.z) <
      cfg.minRadius) :
    (∃ c : Candidate F, c.track1 = t1 ∧ c.track2 = t2 ∧ c.track3 = t3 ∧
      Fill.mk (if c.issig then Tag.signocut else Tag.bkgnocut) c ∈
        (process cfg env coll tracks).fills ∧
      Fill.mk (if c.issig then Tag.sigcut else Tag.bkgcut) c ∈
        (process cfg env coll tracks).fills) ∧
    ∀ f ∈ (process cfg env coll tracks).fills,
      f.cand.track1 = t1 → f.cand.track2 = t2 → f.cand.track3 = t3 →
      f.tag.isPassing = false := by
  have hcut : ∀ d1 d2 d3 : F × F, (scored cfg env coll t1 t2 t3 d1 d2 d3).iscut = true := by
    intro d1 d2 d3
    rw [scored_iscut]
    exact Or.inr (Or.inr (Or.inr (Or.inr (Or.inr (Or.inr (Or.inr (Or.inl hr)))))))
  constructor
  · obtain ⟨d1, d2, d3, hd1, hd2, hd3, -⟩ := tripletFills_of_viable cfg env coll t1 t2 t3 hv
    have hn := noCut_mem_process_fills cfg env coll tracks t1 t2 t3 d1 d2 d3 m1 m2 m3 hv
      hd1 hd2 hd3
    have hs := second_mem_process_fills cfg env coll tracks t1 t2 t3 d1 d2 d3 m1 m2 m3 hv
      hd1 hd2 hd3
    rw [hcut d1 d2 d3] at hs
    exact ⟨scored cfg env coll t1 t2 t3 d1 d2 d3, rfl, rfl, rfl, hn, hs⟩
  · intro f hf e1 e2 e3
    obtain ⟨s1, s2, s3, d1, d2, d3, -, -, -, -, -, -, -, hd⟩ :=
      (mem_process_fills cfg env coll tracks f).mp hf
    rcases (mem_dispatch _ f).mp hd with e | e
    · rw [e]
      cases (scored cfg env coll s1 s2 s3 d1 d2 d3).issig <;> rfl
    · rw [e] at e1 e2 e3 ⊢
      dsimp only at e1 e2 e3
      obtain ⟨q1, q2, q3, -⟩ := scored_fields cfg env coll s1 s2 s3 d1 d2 d3
      rw [q1] at e1
      rw [q2] at e2
      rw [q3] at e3
      subst e1 e2 e3
      dsimp only
      rw [hcut d1 d2 d3]
      cases (scored cfg env coll _ _ _ d1 d2 d3).issig <;> rfl

/-- C15: when the candidate of a triplet is flagged as signal, replacing the
mother of the first, of the second or of the third track by a different row of
the truth table gives a candidate that is not flagged as signal. -/
theorem C15_changing_one_mother_clears_issig (cfg : Config F) (env : Env F)
    (coll : Collision F) (t1 t2 t3 : Track F) (d1 d2 d3 : F × F) (m : Int)
    (h : (scored cfg env coll t1 t2 t3 d1 d2 d3).issig = true) :
    (m ≠ t1.mcParticle.mother0Id →
      (scored cfg env coll (withMother t1 m) t2 t3 d1 d2 d3).issig = false) ∧
    (m ≠ t2.mcParticle.mother0Id →
      (scored cfg env coll t1 (withMother t2 m) t3 d1 d2 d3).issig = false) ∧
    (m ≠ t3.mcParticle.mother0Id →
      (scored cfg env coll t1 t2 (withMother t3 m) d1 d2 d3).issig = false) := by
  have hs : issig t1 t2 t3 = true := h
  rw [issig_iff] at hs
  obtain ⟨h12, h13⟩ := hs
  have key : ∀ a b c : Track F, ¬ (a.mcParticle.mother0Id = b.mcParticle.mother0Id ∧
      a.mcParticle.mother0Id = c.mcParticle.mother0Id) →
      (scored cfg env coll a b c d1 d2 d3).issig = false := by
    intro a b c hn
    cases hb : (scored cfg env coll a b c d1 d2 d3).issig with
    | false => rfl
    | true => exact absurd ((issig_iff a b c).mp hb) hn
  refine ⟨fun hm => key _ _ _ ?_, fun hm => key _ _ _ ?_, fun hm => key _ _ _ ?_⟩
  · rintro ⟨e, -⟩
    exact hm (e.trans h12.symm)
  · rintro ⟨e, -⟩
    exact hm (e.symm.trans h12)
  · rintro ⟨-, e⟩
    exact hm (e.symm.trans h13)

/-! ## Independence of the iteration order -/

theorem viableWith_perm (cfg : Config F) (env : Env F) (coll : Collision F)
    (tracks tracks' : List (Track F)) (hp : tracks'.Perm tracks) (t1 : Track F) :
    (viableWith cfg env coll tracks' t1).Perm (viableWith cfg env coll tracks t1) := by
  unfold viableWith
  refine (List.Perm.flatMap_right _ hp).trans ?_
  apply List.Perm.flatMap_left
  intro t2 _
  exact (List.Perm.filter _ hp).map _

theorem process_fills_perm (cfg : Config F) (env : Env F) (coll : Collision F)
    (tracks tracks' : List (Track F)) (hp : tracks'.Perm tracks) :
    (process cfg env coll tracks').fills.Perm (process cfg env coll tracks).fills := by
  rw [process_fills, process_fills]
  refine (List.Perm.flatMap_right _ hp).trans ?_
  apply List.Perm.flatMap_left
  intro t1 _
  rw [deuteronFills_eq_tripletFills, deuteronFills_eq_tripletFills]
  refine (List.Perm.flatMap_right _ hp).trans ?_
  apply List.Perm.flatMap_left
  intro t2 _
  exact List.Perm.flatMap_right _ hp

/-- C18: for every permutation `tracks'` of the track table, each of the six
groups holds the same entries up to order, and `event/candperdeuteron` is
filled with the same values up to order; the registry is the concatenation of
`tripletFills` over the ordered triplets of rows, and `tripletFills` of a
triplet is a function of the configuration, the collaborators, the collision
and the three rows alone. -/
theorem C18_order_independent (cfg : Config F) (env : Env F) (coll : Collision F)
    (tracks tracks' : List (Track F)) (hp : tracks'.Perm tracks) :
    (∀ g : Tag,
      ((process cfg env coll tracks').fills.filter fun f => decide (f.tag = g)).Perm
        ((process cfg env coll tracks).fills.filter fun f => decide (f.tag = g))) ∧
    (process cfg env coll tracks').candperdeuteron.Perm
      (process cfg env coll tracks).candperdeuteron ∧
    (process cfg env coll tracks).fills =
      (triplets tracks).flatMap fun t => tripletFills cfg env coll t.1 t.2.1 t.2.2 := by
  refine ⟨fun g => (process_fills_perm cfg env coll tracks tracks' hp).filter _, ?_,
    process_fills_triplets cfg env coll tracks⟩
  rw [process_candperdeuteron, process_candperdeuteron]
  have hf : (fun t1 => ((viableWith cfg env coll tracks' t1).length : Int)) =
      fun t1 => ((viableWith cfg env coll tracks t1).length : Int) := by
    funext t1
    rw [(viableWith_perm cfg env coll tracks tracks' hp t1).length_eq]
  rw [hf]
  exact (List.Perm.filter _ hp).map _

/-- Every entry of the registry of the sample event holds the candidate of the
sample triplet. -/
theorem sample_cand_eq (cfg : Config F) (m : Libm F) (status : Int) (f : Fill F)
    (hf : f ∈ (process cfg (sampleEnv m sampleProp status) sampleColl
      [sampleDeuteron, sampleKaon, samplePion]).fills) :
    f.cand = scored cfg (sampleEnv m sampleProp status) sampleColl
      sampleDeuteron sampleKaon samplePion
      (1 / 100, 1 / 100) (1 / 100, 1 / 100) (1 / 100, 1 / 100) := by
  obtain ⟨t1, t2, t3, d1, d2, d3, m1, m2, m3, hv, hd1, hd2, hd3, hc⟩ :=
    cand_of_mem_process_fills cfg _ sampleColl _ f hf
  have e1 : d1 = (1 / 100, 1 / 100) := (Option.some.inj hd1).symm
  have e2 : d2 = (1 / 100, 1 / 100) := (Option.some.inj hd2).symm
  have e3 : d3 = (1 / 100, 1 / 100) := (Option.some.inj hd3).symm
  have p1 := hv.1
  have p2 := hv.2.1
  have p3 := hv.2.2.1
  simp only [List.mem_cons, List.mem_singleton, List.not_mem_nil, or_false] at m1 m2 m3
  have q1 : t1 = sampleDeuteron := by
    rcases m1 with r | r | r
    · exact r
    · rw [r] at p1; simp [sampleDeuteron, sampleKaon, samplePion, sampleTrack] at p1
    · rw [r] at p1; simp [sampleDeuteron, sampleKaon, samplePion, sampleTrack] at p1
  have q2 : t2 = sampleKaon := by
    rcases m2 with r | r | r
    · rw [r] at p2; simp [sampleDeuteron, sampleKaon, samplePion, sampleTrack] at p2
    · exact r
    · rw [r] at p2; simp [sampleDeuteron, sampleKaon, samplePion, sampleTrack] at p2
  have q3 : t3 = samplePion := by
    rcases m3 with r | r | r
    · rw [r] at p3; simp [sampleDeuteron, sampleKaon, samplePion, sampleTrack] at p3
    · rw [r] at p3; simp [sampleDeuteron, sampleKaon, samplePion, sampleTrack] at p3
    · exact r
  rw [hc, q1, q2, q3, e1, e2, e3]

/-- The cuts of the default configuration are disabled for the candidate of
the sample triplet, in real arithmetic. -/
theorem sample_cutsDisabled :
    CutsDisabledFor (Config.default ℝ) ⟨Real.sqrt, Real.cos, Real.sin, Real.sinh⟩
      (scored (Config.default ℝ)
        (sampleEnv ⟨Real.sqrt, Real.cos, Real.sin, Real.sinh⟩ sampleProp 1) sampleColl
        sampleDeuteron sampleKaon samplePion
        (1 / 100, 1 / 100) (1 / 100, 1 / 100) (1 / 100, 1 / 100)) := by
  have hd : (-100 : ℝ) ≤ |1 / 100| ∧ |(1 : ℝ) / 100| ≤ 100 := by
    rw [abs_of_pos (by norm_num : (0 : ℝ) < 1 / 100)]
    constructor <;> norm_num
  refine ⟨⟨hd.1, hd.1, hd.2, hd.2⟩, ⟨hd.1, hd.1, hd.2, hd.2⟩, ⟨hd.1, hd.1, hd.2, hd.2⟩,
    ⟨hd.1, hd.1⟩, ?_, ?_, ?_, ?_, ?_, ?_⟩
  · show (-100 : ℝ) ≤ 1
    norm_num
  · show (-100 : ℝ) ≤ 1
    norm_num
  · exact le_trans (by norm_num [Config.default]) (Real.sqrt_nonneg _)
  · exact le_trans (by norm_num [Config.default]) (Real.sqrt_nonneg _)
  · show Real.sqrt (3 / 100 * (3 / 100) + 0 * 0 + 4 / 100 * (4 / 100)) ≤ 100
    rw [Real.sqrt_le_iff]
    constructor <;> norm_num
  · exact abs_nonneg _

/-- Witness of C13 on the sample event (real arithmetic, default
configuration): the candidate of the sample triplet is entered in the no-cut
group and in the passing group of its flavour. -/
theorem C13_cuts_disabled_all_pass_witness :
    ∃ c : Candidate ℝ, c.track1 = sampleDeuteron ∧ c.track2 = sampleKaon ∧
      c.track3 = samplePion ∧
      Fill.mk (if c.issig then Tag.signocut else Tag.bkgnocut) c ∈
        (process (Config.default ℝ)
          (sampleEnv ⟨Real.sqrt, Real.cos, Real.sin, Real.sinh⟩ sampleProp 1) sampleColl
          [sampleDeuteron, sampleKaon, samplePion]).fills ∧
      Fill.mk (if c.issig then Tag.sig else Tag.bkg) c ∈
        (process (Config.default ℝ)
          (sampleEnv ⟨Real.sqrt, Real.cos, Real.sin, Real.sinh⟩ sampleProp 1) sampleColl
          [sampleDeuteron, sampleKaon, samplePion]).fills :=
  (C13_cuts_disabled_all_pass (Config.default ℝ)
    (sampleEnv ⟨Real.sqrt, Real.cos, Real.sin, Real.sinh⟩ sampleProp 1) sampleColl
    [sampleDeuteron, sampleKaon, samplePion]
    (fun f hf => by
      rw [sample_cand_eq (Config.default ℝ) _ 1 f hf]
      exact sample_cutsDisabled)).1
    sampleDeuteron (by simp) sampleKaon (by simp) samplePion (by simp)
    (sample_viable (Config.default ℝ) _ 1 (by decide) 7 7 7 1 1 0 (by norm_num))

/-- Witness of C14 on the sample event with `minRadius = 1`: the fitted vertex
`(3/100, 0, 4/100)` has the radius `1/20`, the candidate of the sample triplet
is entered in the no-cut group and in the cut group of its flavour. -/
theorem C14_small_radius_is_cut_witness :
    ∃ c : Candidate ℝ, c.track1 = sampleDeuteron ∧ c.track2 = sampleKaon ∧
      c.track3 = samplePion ∧
      Fill.mk (if c.issig then Tag.signocut else Tag.bkgnocut) c ∈
        (process { Config.default ℝ with minRadius := 1 }
          (sampleEnv ⟨Real.sqrt, Real.cos, Real.sin, Real.sinh⟩ sampleProp 1) sampleColl
          [sampleDeuteron, sampleKaon, samplePion]).fills ∧
      Fill.mk (if c.issig then Tag.sigcut else Tag.bkgcut) c ∈
        (process { Config.default ℝ with minRadius := 1 }
          (sampleEnv ⟨Real.sqrt, Real.cos, Real.sin, Real.sinh⟩ sampleProp 1) sampleColl
          [sampleDeuteron, sampleKaon, samplePion]).fills :=
  (C14_small_radius_is_cut { Config.default ℝ with minRadius := 1 }
    (sampleEnv ⟨Real.sqrt, Real.cos, Real.sin, Real.sinh⟩ sampleProp 1) sampleColl
    [sampleDeuteron, sampleKaon, samplePion] sampleDeuteron sampleKaon samplePion
    (by simp) (by simp) (by simp)
    (sample_viable _ _ 1 (by decide) 7 7 7 1 1 0 (by norm_num))
    (by
      show Real.sqrt (3 / 100 * (3 / 100) + 0 * 0 + 4 / 100 * (4 / 100)) < 1
      rw [Real.sqrt_lt' (by norm_num)]
      norm_num)).1

/-- Witness of C15 on the sample triplet, whose three rows have the mother 7:
with the mother of the deuteron row replaced by the row 8 the candidate is not
flagged as signal. -/
theorem C15_changing_one_mother_clears_issig_witness :
    (scored (Config.default ℝ)
      (sampleEnv ⟨Real.sqrt, Real.cos, Real.sin, Real.sinh⟩ sampleProp 1) sampleColl
      (withMother sampleDeuteron 8) sampleKaon samplePion
      (1 / 100, 1 / 100) (1 / 100, 1 / 100) (1 / 100, 1 / 100)).issig = false :=
  (C15_changing_one_mother_clears_issig (Config.default ℝ)
    (sampleEnv ⟨Real.sqrt, Real.cos, Real.sin, Real.sinh⟩ sampleProp 1) sampleColl
    sampleDeuteron sampleKaon samplePion
    (1 / 100, 1 / 100) (1 / 100, 1 / 100) (1 / 100, 1 / 100) 8 rfl).1 (by decide)

/-- Witness of C18 on the sample event and its reversal: the values filled in
`event/candperdeuteron` agree up to order. -/
theorem C18_order_independent_witness :
    (process (Config.default ℝ)
      (sampleEnv ⟨Real.sqrt, Real.cos, Real.sin, Real.sinh⟩ sampleProp 1) sampleColl
      [samplePion, sampleKaon, sampleDeuteron]).candperdeuteron.Perm
    (process (Config.default ℝ)
      (sampleEnv ⟨Real.sqrt, Real.cos, Real.sin, Real.sinh⟩ sampleProp 1) sampleColl
      [sampleDeuteron, sampleKaon, samplePion]).candperdeuteron :=
  (C18_order_independent (Config.default ℝ)
    (sampleEnv ⟨Real.sqrt, Real.cos, Real.sin, Real.sinh⟩ sampleProp 1) sampleColl
    [sampleDeuteron, sampleKaon, samplePion] [samplePion, sampleKaon, sampleDeuteron]
    (List.reverse_perm [sampleDeuteron, sampleKaon, samplePion])).2.1

/-! ## Kinematics and pointing angle -/

theorem sample_viable_at (cfg : Config F) (m : Libm F) (coll : Collision F) :
    Viable cfg (sampleEnv m sampleProp 1) coll sampleDeuteron sampleKaon samplePion := by
  refine ⟨rfl, rfl, rfl, by simp [sampleDeuteron, sampleKaon, sampleTrack],
    by simp [sampleKaon, samplePion, sampleTrack],
    by simp [sampleDeuteron, samplePion, sampleTrack],
    rfl, rfl, rfl, ?_, ?_, ?_, ?_⟩
  · norm_num [covOk, sampleDeuteron, sampleTrack]
  · norm_num [covOk, sampleKaon, sampleTrack]
  · norm_num [covOk, samplePion, sampleTrack]
  · simp [sampleEnv]

theorem scored_CPA (cfg : Config F) (env : Env F) (coll : Collision F)
    (t1 t2 t3 : Track F) (d1 d2 d3 : F × F) :
    (scored cfg env coll t1 t2 t3 d1 d2 d3).CPA =
      pointingCosine env.libm (scored cfg env coll t1 t2 t3 d1 d2 d3).v1
        (scored cfg env coll t1 t2 t3 d1 d2 d3).fit.pca ⟨0, 0, 0⟩ := by
  unfold pointingCosine
  simp only [sub_zero]
  rw [mul_comm (env.libm.sqrt _) (env.libm.sqrt _)]
  rfl

theorem scored_v1 (cfg : Config F) (env : Env F) (coll : Collision F)
    (t1 t2 t3 : Track F) (d1 d2 d3 : F × F) :
    (scored cfg env coll t1 t2 t3 d1 d2 d3).v1 =
      ((TLorentzVector.SetPtEtaPhiM env.libm t1.pt t1.eta t1.phi (18756129 / 10000000)).add
        (TLorentzVector.SetPtEtaPhiM env.libm t2.pt t2.eta t2.phi (493677 / 1000000))).add
        (TLorentzVector.SetPtEtaPhiM env.libm t3.pt t3.eta t3.phi (139570 / 1000000)) :=
  rfl

theorem SetPtEtaPhiM_components (m : Libm F) (pt eta phi mass : F) (hpt : 0 ≤ pt)
    (hm : 0 ≤ mass) :
    TLorentzVector.SetPtEtaPhiM m pt eta phi mass =
      { x := pt * m.cos phi, y := pt * m.sin phi, z := pt * m.sinh eta,
        t := m.sqrt (pt * m.cos phi * (pt * m.cos phi) + pt * m.sin phi * (pt * m.sin phi) +
          pt * m.sinh eta * (pt * m.sinh eta) + mass * mass) } := by
  unfold TLorentzVector.SetPtEtaPhiM TLorentzVector.SetXYZM
  rw [if_pos hm, abs_of_nonneg hpt]

/-- C16 (amended): for every entry of the registry the recorded CPA is
`p . s / (|p| * |s|)` for the combined momentum `p` and the fitted decay vertex
`s` taken from the origin; it is the cosine of the angle to the vector from the
event vertex to the decay vertex when the event vertex is at the origin. -/
theorem C16_cpa_from_origin (cfg : Config F) (env : Env F) (coll : Collision F)
    (tracks : List (Track F)) (f : Fill F) (hf : f ∈ (process cfg env coll tracks).fills) :
    f.cand.CPA = pointingCosine env.libm f.cand.v1 f.cand.fit.pca ⟨0, 0, 0⟩ ∧
    f.cand.fit = env.fitterProcess f.cand.track1 f.cand.track2 f.cand.track3 ∧
    (collPos coll = ⟨0, 0, 0⟩ →
      f.cand.CPA = pointingCosine env.libm f.cand.v1 f.cand.fit.pca (collPos coll)) := by
  obtain ⟨t1, t2, t3, d1, d2, d3, -, -, -, -, -, -, -, hc⟩ :=
    cand_of_mem_process_fills cfg env coll tracks f hf
  rw [hc]
  refine ⟨scored_CPA cfg env coll t1 t2 t3 d1 d2 d3, rfl, ?_⟩
  intro h0
  rw [h0]
  exact scored_CPA cfg env coll t1 t2 t3 d1 d2 d3

theorem sample_v1_real (cfg : Config ℝ) (coll : Collision ℝ) :
    (scored cfg (sampleEnv ⟨Real.sqrt, Real.cos, Real.sin, Real.sinh⟩ sampleProp 1) coll
      sampleDeuteron sampleKaon samplePion
      (1 / 100, 1 / 100) (1 / 100, 1 / 100) (1 / 100, 1 / 100)).v1.x = 3 ∧
    (scored cfg (sampleEnv ⟨Real.sqrt, Real.cos, Real.sin, Real.sinh⟩ sampleProp 1) coll
      sampleDeuteron sampleKaon samplePion
      (1 / 100, 1 / 100) (1 / 100, 1 / 100) (1 / 100, 1 / 100)).v1.y = 0 ∧
    (scored cfg (sampleEnv ⟨Real.sqrt, Real.cos, Real.sin, Real.sinh⟩ sampleProp 1) coll
      sampleDeuteron sampleKaon samplePion
      (1 / 100, 1 / 100) (1 / 100, 1 / 100) (1 / 100, 1 / 100)).v1.z = 0 := by
  rw [scored_v1]
  rw [SetPtEtaPhiM_components _ _ _ _ _ (by norm_num [sampleDeuteron, sampleTrack])
      (by norm_num),
    SetPtEtaPhiM_components _ _ _ _ _ (by norm_num [sampleKaon, sampleTrack]) (by norm_num),
    SetPtEtaPhiM_components _ _ _ _ _ (by norm_num [samplePion, sampleTrack]) (by norm_num)]
  simp only [TLorentzVector.add, sampleEnv, sampleDeuteron, sampleKaon, samplePion, sampleTrack,
    Real.cos_zero, Real.sin_zero, Real.sinh_zero]
  norm_num

/-- C16 (counterexample): on the sample event with the collision at
`(3/100, 0, 0)`, in real arithmetic, the combined momentum is `(3, 0, 0)` and
the fitted vertex `(3/100, 0, 4/100)`: the recorded CPA is not zero, while the
cosine of the angle between the momentum and the vector from the collision to
the fitted vertex, `(0, 0, 4/100)`, is zero. -/
theorem C16_cpa_event_vertex_counterexample :
    ∃ f ∈ (process (Config.default ℝ)
        (sampleEnv ⟨Real.sqrt, Real.cos, Real.sin, Real.sinh⟩ sampleProp 1)
        { posX := 0, posY := 0, posZ := 0, mcPosX := 3 / 100, mcPosY := 0, mcPosZ := 0 }
        [sampleDeuteron, sampleKaon, samplePion]).fills,
      f.cand.CPA ≠ 0 ∧
      pointingCosine ⟨Real.sqrt, Real.cos, Real.sin, Real.sinh⟩ f.cand.v1 f.cand.fit.pca
        (collPos { posX := 0, posY := 0, posZ := 0,
                   mcPosX := 3 / 100, mcPosY := 0, mcPosZ := 0 }) = 0 := by
  refine ⟨_, noCut_mem_process_fills (Config.default ℝ) _ _ _ sampleDeuteron sampleKaon
    samplePion (1 / 100, 1 / 100) (1 / 100, 1 / 100) (1 / 100, 1 / 100)
    (by simp) (by simp) (by simp) (sample_viable_at _ _ _) rfl rfl rfl, ?_, ?_⟩
  · obtain ⟨hx, hy, hz⟩ := sample_v1_real (Config.default ℝ)
      { posX := 0, posY := 0, posZ := 0, mcPosX := 3 / 100, mcPosY := 0, mcPosZ := 0 }
    dsimp only
    rw [scored_CPA]
    unfold pointingCosine
    rw [hx, hy, hz]
    have hs : (scored (Config.default ℝ)
        (sampleEnv ⟨Real.sqrt, Real.cos, Real.sin, Real.sinh⟩ sampleProp 1)
        { posX := 0, posY := 0, posZ := 0, mcPosX := 3 / 100, mcPosY := 0, mcPosZ := 0 }
        sampleDeuteron sampleKaon samplePion
        (1 / 100, 1 / 100) (1 / 100, 1 / 100) (1 / 100, 1 / 100)).fit.pca =
        ⟨3 / 100, 0, 4 / 100⟩ := rfl
    rw [hs]
    apply div_ne_zero
    · norm_num
    · apply mul_ne_zero
      · exact (Real.sqrt_pos.mpr (by norm_num)).ne'
      · exact (Real.sqrt_pos.mpr (by norm_num)).ne'
  · obtain ⟨hx, hy, hz⟩ := sample_v1_real (Config.default ℝ)
      { posX := 0, posY := 0, posZ := 0, mcPosX := 3 / 100, mcPosY := 0, mcPosZ := 0 }
    dsimp only
    unfold pointingCosine collPos
    rw [hx, hy, hz]
    have hs : (scored (Config.default ℝ)
        (sampleEnv ⟨Real.sqrt, Real.cos, Real.sin, Real.sinh⟩ sampleProp 1)
        { posX := 0, posY := 0, posZ := 0, mcPosX := 3 / 100, mcPosY := 0, mcPosZ := 0 }
        sampleDeuteron sampleKaon samplePion
        (1 / 100, 1 / 100) (1 / 100, 1 / 100) (1 / 100, 1 / 100)).fit.pca =
        ⟨3 / 100, 0, 4 / 100⟩ := rfl
    rw [hs]
    norm_num

/-- Witness of C16 (amended) on the sample event, whose collision is at the
origin: the recorded CPA of an entry is the cosine of the angle between the
momentum and the vector from the collision to the fitted vertex. -/
theorem C16_cpa_from_origin_witness :
    ∃ f ∈ (process (Config.default ℝ)
        (sampleEnv ⟨Real.sqrt, Real.cos, Real.sin, Real.sinh⟩ sampleProp 1) sampleColl
        [sampleDeuteron, sampleKaon, samplePion]).fills,
      f.cand.CPA = pointingCosine ⟨Real.sqrt, Real.cos, Real.sin, Real.sinh⟩ f.cand.v1
        f.cand.fit.pca (collPos sampleColl) :=
  ⟨_, sample_noCut_mem (Config.default ℝ) ⟨Real.sqrt, Real.cos, Real.sin, Real.sinh⟩ 1
      (by decide) 7 7 7 1 1 0 (by norm_num),
    (C16_cpa_from_origin (Config.default ℝ) _ sampleColl _ _
      (sample_noCut_mem (Config.default ℝ) ⟨Real.sqrt, Real.cos, Real.sin, Real.sinh⟩ 1
        (by decide) 7 7 7 1 1 0 (by norm_num))).2.2 rfl⟩

theorem dot_le_sqrt_mul_sqrt (x1 y1 z1 x2 y2 z2 : ℝ) :
    x1 * x2 + y1 * y2 + z1 * z2 ≤
      Real.sqrt (x1 ^ 2 + y1 ^ 2 + z1 ^ 2) * Real.sqrt (x2 ^ 2 + y2 ^ 2 + z2 ^ 2) := by
  rw [← Real.sqrt_mul (by positivity)]
  refine le_trans (le_abs_self _) ?_
  rw [← Real.sqrt_sq_eq_abs]
  apply Real.sqrt_le_sqrt
  nlinarith [sq_nonneg (x1 * y2 - x2 * y1), sq_nonneg (x1 * z2 - x2 * z1),
    sq_nonneg (y1 * z2 - y2 * z1)]

/-- The squared length of the sum of three momenta is at most the square of the
sum of the three energies. -/
theorem sum_momentum_le_sum_energy (x1 y1 z1 m1 x2 y2 z2 m2 x3 y3 z3 m3 : ℝ) :
    (x1 + x2 + x3) ^ 2 + (y1 + y2 + y3) ^ 2 + (z1 + z2 + z3) ^ 2 ≤
      (Real.sqrt (m1 ^ 2 + (x1 ^ 2 + y1 ^ 2 + z1 ^ 2)) +
        Real.sqrt (m2 ^ 2 + (x2 ^ 2 + y2 ^ 2 + z2 ^ 2)) +
        Real.sqrt (m3 ^ 2 + (x3 ^ 2 + y3 ^ 2 + z3 ^ 2))) ^ 2 := by
  have n1 := Real.sqrt_nonneg (x1 ^ 2 + y1 ^ 2 + z1 ^ 2)
  have n2 := Real.sqrt_nonneg (x2 ^ 2 + y2 ^ 2 + z2 ^ 2)
  have n3 := Real.sqrt_nonneg (x3 ^ 2 + y3 ^ 2 + z3 ^ 2)
  have s1 := Real.sq_sqrt (by positivity : (0 : ℝ) ≤ x1 ^ 2 + y1 ^ 2 + z1 ^ 2)
  have s2 := Real.sq_sqrt (by positivity : (0 : ℝ) ≤ x2 ^ 2 + y2 ^ 2 + z2 ^ 2)
  have s3 := Real.sq_sqrt (by positivity : (0 : ℝ) ≤ x3 ^ 2 + y3 ^ 2 + z3 ^ 2)
  have e1 : Real.sqrt (x1 ^ 2 + y1 ^ 2 + z1 ^ 2) ≤
      Real.sqrt (m1 ^ 2 + (x1 ^ 2 + y1 ^ 2 + z1 ^ 2)) :=
    Real.sqrt_le_sqrt (by nlinarith [sq_nonneg m1])
  have e2 : Real.sqrt (x2 ^ 2 + y2 ^ 2 + z2 ^ 2) ≤
      Real.sqrt (m2 ^ 2 + (x2 ^ 2 + y2 ^ 2 + z2 ^ 2)) :=
    Real.sqrt_le_sqrt (by nlinarith [sq_nonneg m2])
  have e3 : Real.sqrt (x3 ^ 2 + y3 ^ 2 + z3 ^ 2) ≤
      Real.sqrt (m3 ^ 2 + (x3 ^ 2 + y3 ^ 2 + z3 ^ 2)) :=
    Real.sqrt_le_sqrt (by nlinarith [sq_nonneg m3])
  have d12 := dot_le_sqrt_mul_sqrt x1 y1 z1 x2 y2 z2
  have d13 := dot_le_sqrt_mul_sqrt x1 y1 z1 x3 y3 z3
  have d23 := dot_le_sqrt_mul_sqrt x2 y2 z2 x3 y3 z3
  have step : (x1 + x2 + x3) ^ 2 + (y1 + y2 + y3) ^ 2 + (z1 + z2 + z3) ^ 2 ≤
      (Real.sqrt (x1 ^ 2 + y1 ^ 2 + z1 ^ 2) + Real.sqrt (x2 ^ 2 + y2 ^ 2 + z2 ^ 2) +
        Real.sqrt (x3 ^ 2 + y3 ^ 2 + z3 ^ 2)) ^ 2 := by
    nlinarith
  refine le_trans step ?_
  apply pow_le_pow_left₀ (by positivity)
  linarith

/-- C17: in real arithmetic, for every entry of the registry whose three
tracks have a non-negative transverse momentum, the recorded invariant mass is
the square root of `analyticMass2`, the squared mass
`(E1 + E2 + E3)^2 - |p1 + p2 + p3|^2` of the four-momentum sum built from
`(pt, eta, phi)` and the masses 1.8756129, 0.493677, 0.139570 (which is not
negative), and the recorded mother pT and momentum are the transverse and the
total magnitude of `p1 + p2 + p3`. -/
theorem C17_invariant_mass_analytic (cfg : Config ℝ)
    (prop : Track ℝ → Point3D ℝ → ℝ → ℝ → Option (ℝ × ℝ))
    (fitter : Track ℝ → Track ℝ → Track ℝ → FitResult ℝ) (mc : Int → McParticle ℝ)
    (coll : Collision ℝ) (tracks : List (Track ℝ)) (f : Fill ℝ)
    (hf : f ∈ (process cfg ⟨⟨Real.sqrt, Real.cos, Real.sin, Real.sinh⟩, prop, fitter, mc⟩
      coll tracks).fills)
    (h1 : 0 ≤ f.cand.track1.pt) (h2 : 0 ≤ f.cand.track2.pt) (h3 : 0 ≤ f.cand.track3.pt) :
    ("invmass", Real.sqrt (analyticMass2 ⟨Real.sqrt, Real.cos, Real.sin, Real.sinh⟩
        f.cand.track1 f.cand.track2 f.cand.track3)) ∈
      FillHistos ⟨Real.sqrt, Real.cos, Real.sin, Real.sinh⟩ f.cand ∧
    0 ≤ analyticMass2 ⟨Real.sqrt, Real.cos, Real.sin, Real.sinh⟩
        f.cand.track1 f.cand.track2 f.cand.track3 ∧
    ("ptmom", Real.sqrt
        ((analyticSumP ⟨Real.sqrt, Real.cos, Real.sin, Real.sinh⟩
            f.cand.track1 f.cand.track2 f.cand.track3).1 ^ 2 +
          (analyticSumP ⟨Real.sqrt, Real.cos, Real.sin, Real.sinh⟩
            f.cand.track1 f.cand.track2 f.cand.track3).2.1 ^ 2)) ∈
      FillHistos ⟨Real.sqrt, Real.cos, Real.sin, Real.sinh⟩ f.cand ∧
    ("pmom", Real.sqrt
        ((analyticSumP ⟨Real.sqrt, Real.cos, Real.sin, Real.sinh⟩
            f.cand.track1 f.cand.track2 f.cand.track3).1 ^ 2 +
          (analyticSumP ⟨Real.sqrt, Real.cos, Real.sin, Real.sinh⟩
            f.cand.track1 f.cand.track2 f.cand.track3).2.1 ^ 2 +
          (analyticSumP ⟨Real.sqrt, Real.cos, Real.sin, Real.sinh⟩
            f.cand.track1 f.cand.track2 f.cand.track3).2.2 ^ 2)) ∈
      FillHistos ⟨Real.sqrt, Real.cos, Real.sin, Real.sinh⟩ f.cand := by
  obtain ⟨t1, t2, t3, d1, d2, d3, -, -, -, -, -, -, -, hc⟩ :=
    cand_of_mem_process_fills cfg _ coll tracks f hf
  rw [hc] at h1 h2 h3 ⊢
  obtain ⟨q1, q2, q3, -⟩ := scored_fields cfg
    ⟨⟨Real.sqrt, Real.cos, Real.sin, Real.sinh⟩, prop, fitter, mc⟩ coll t1 t2 t3 d1 d2 d3
  rw [q1] at h1
  rw [q2] at h2
  rw [q3] at h3
  rw [q1, q2, q3]
  have hv := scored_v1 cfg ⟨⟨Real.sqrt, Real.cos, Real.sin, Real.sinh⟩, prop, fitter, mc⟩
    coll t1 t2 t3 d1 d2 d3
  rw [SetPtEtaPhiM_components _ _ _ _ _ h1 (by norm_num),
    SetPtEtaPhiM_components _ _ _ _ _ h2 (by norm_num),
    SetPtEtaPhiM_components _ _ _ _ _ h3 (by norm_num)] at hv
  have hpos : 0 ≤ analyticMass2 ⟨Real.sqrt, Real.cos, Real.sin, Real.sinh⟩ t1 t2 t3 := by
    unfold analyticMass2 analyticSumP analyticE analyticP
    dsimp only
    exact sub_nonneg.mpr (sum_momentum_le_sum_energy _ _ _ _ _ _ _ _ _ _ _ _)
  have hM : TLorentzVector.M ⟨Real.sqrt, Real.cos, Real.sin, Real.sinh⟩
      (scored cfg ⟨⟨Real.sqrt, Real.cos, Real.sin, Real.sinh⟩, prop, fitter, mc⟩
        coll t1 t2 t3 d1 d2 d3).v1 =
      Real.sqrt (analyticMass2 ⟨Real.sqrt, Real.cos, Real.sin, Real.sinh⟩ t1 t2 t3) := by
    have hmm : ∀ v : TLorentzVector ℝ, 0 ≤ v.t * v.t - (v.x * v.x + v.y * v.y + v.z * v.z) →
        TLorentzVector.M ⟨Real.sqrt, Real.cos, Real.sin, Real.sinh⟩ v =
          Real.sqrt (v.t * v.t - (v.x * v.x + v.y * v.y + v.z * v.z)) := by
      intro v hv0
      unfold TLorentzVector.M
      dsimp only
      rw [if_neg (not_lt.mpr hv0)]
    have he : ∀ v : TLorentzVector ℝ, v = (scored cfg
        ⟨⟨Real.sqrt, Real.cos, Real.sin, Real.sinh⟩, prop, fitter, mc⟩
        coll t1 t2 t3 d1 d2 d3).v1 →
        v.t * v.t - (v.x * v.x + v.y * v.y + v.z * v.z) =
          analyticMass2 ⟨Real.sqrt, Real.cos, Real.sin, Real.sinh⟩ t1 t2 t3 := by
      intro v hv'
      rw [hv', hv]
      unfold analyticMass2 analyticSumP analyticE analyticP TLorentzVector.add
      dsimp only
      have r1 : t1.pt * Real.cos t1.phi * (t1.pt * Real.cos t1.phi) +
          t1.pt * Real.sin t1.phi * (t1.pt * Real.sin t1.phi) +
          t1.pt * Real.sinh t1.eta * (t1.pt * Real.sinh t1.eta) +
          18756129 / 10000000 * (18756129 / 10000000) =
          (18756129 / 10000000) ^ 2 + ((t1.pt * Real.cos t1.phi) ^ 2 +
            (t1.pt * Real.sin t1.phi) ^ 2 + (t1.pt * Real.sinh t1.eta) ^ 2) := by ring
      have r2 : t2.pt * Real.cos t2.phi * (t2.pt * Real.cos t2.phi) +
          t2.pt * Real.sin t2.phi * (t2.pt * Real.sin t2.phi) +
          t2.pt * Real.sinh t2.eta * (t2.pt * Real.sinh t2.eta) +
          493677 / 1000000 * (493677 / 1000000) =
          (493677 / 1000000) ^ 2 + ((t2.pt * Real.cos t2.phi) ^ 2 +
            (t2.pt * Real.sin t2.phi) ^ 2 + (t2.pt * Real.sinh t2.eta) ^ 2) := by ring
      have r3 : t3.pt * Real.cos t3.phi * (t3.pt * Real.cos t3.phi) +
          t3.pt * Real.sin t3.phi * (t3.pt * Real.sin t3.phi) +
          t3.pt * Real.sinh t3.eta * (t3.pt * Real.sinh t3.eta) +
          139570 / 1000000 * (139570 / 1000000) =
          (139570 / 1000000) ^ 2 + ((t3.pt * Real.cos t3.phi) ^ 2 +
            (t3.pt * Real.sin t3.phi) ^ 2 + (t3.pt * Real.sinh t3.eta) ^ 2) := by ring
      rw [r1, r2, r3]
      ring
    rw [hmm _ (by rw [he _ rfl]; exact hpos), he _ rfl]
  have hPt : TLorentzVector.Pt ⟨Real.sqrt, Real.cos, Real.sin, Real.sinh⟩
      (scored cfg ⟨⟨Real.sqrt, Real.cos, Real.sin, Real.sinh⟩, prop, fitter, mc⟩
        coll t1 t2 t3 d1 d2 d3).v1 =
      Real.sqrt ((analyticSumP ⟨Real.sqrt, Real.cos, Real.sin, Real.sinh⟩ t1 t2 t3).1 ^ 2 +
        (analyticSumP ⟨Real.sqrt, Real.cos, Real.sin, Real.sinh⟩ t1 t2 t3).2.1 ^ 2) := by
    rw [hv]
    unfold TLorentzVector.Pt analyticSumP analyticP TLorentzVector.add
    dsimp only
    congr 1
    ring
  have hP : TLorentzVector.P ⟨Real.sqrt, Real.cos, Real.sin, Real.sinh⟩
      (scored cfg ⟨⟨Real.sqrt, Real.cos, Real.sin, Real.sinh⟩, prop, fitter, mc⟩
        coll t1 t2 t3 d1 d2 d3).v1 =
      Real.sqrt ((analyticSumP ⟨Real.sqrt, Real.cos, Real.sin, Real.sinh⟩ t1 t2 t3).1 ^ 2 +
        (analyticSumP ⟨Real.sqrt, Real.cos, Real.sin, Real.sinh⟩ t1 t2 t3).2.1 ^ 2 +
        (analyticSumP ⟨Real.sqrt, Real.cos, Real.sin, Real.sinh⟩ t1 t2 t3).2.2 ^ 2) := by
    rw [hv]
    unfold TLorentzVector.P analyticSumP analyticP TLorentzVector.add
    dsimp only
    congr 1
    ring
  refine ⟨?_, hpos, ?_, ?_⟩
  · rw [← hM]
    simp [FillHistos]
  · rw [← hPt]
    simp [FillHistos]
  · rw [← hP]
    simp [FillHistos]

/-- Witness of C17 on the sample event, whose rows have the transverse
momentum 1: the registry holds an entry whose recorded invariant mass is the
square root of `analyticMass2` of its tracks. -/
theorem C17_invariant_mass_analytic_witness :
    ∃ f ∈ (process (Config.default ℝ)
        (sampleEnv ⟨Real.sqrt, Real.cos, Real.sin, Real.sinh⟩ sampleProp 1) sampleColl
        [sampleDeuteron, sampleKaon, samplePion]).fills,
      ("invmass", Real.sqrt (analyticMass2 ⟨Real.sqrt, Real.cos, Real.sin, Real.sinh⟩
          f.cand.track1 f.cand.track2 f.cand.track3)) ∈
        FillHistos ⟨Real.sqrt, Real.cos, Real.sin, Real.sinh⟩ f.cand :=
  ⟨_, sample_noCut_mem (Config.default ℝ) ⟨Real.sqrt, Real.cos, Real.sin, Real.sinh⟩ 1
      (by decide) 7 7 7 1 1 0 (by norm_num),
    (C17_invariant_mass_analytic (Config.default ℝ)
      (sampleEnv ⟨Real.sqrt, Real.cos, Real.sin, Real.sinh⟩ sampleProp 1).propagateParamToDCA
      (sampleEnv ⟨Real.sqrt, Real.cos, Real.sin, Real.sinh⟩ sampleProp 1).fitterProcess
      (sampleEnv ⟨Real.sqrt, Real.cos, Real.sin, Real.sinh⟩ sampleProp 1).mcParticles
      sampleColl [sampleDeuteron, sampleKaon, samplePion] _
      (sample_noCut_mem (Config.default ℝ) ⟨Real.sqrt, Real.cos, Real.sin, Real.sinh⟩ 1
        (by decide) 7 7 7 1 1 0 (by norm_num))
      (show (0 : ℝ) ≤ 1 by norm_num) (show (0 : ℝ) ≤ 1 by norm_num)
      (show (0 : ℝ) ≤ 1 by norm_num)).1⟩

/-! ## The DCA arrays -/

/-- C21: the registry and the values filled in `event/candperdeuteron` do not
depend on the contents of the three DCA arrays at the start of the loops (the
placeholder `1e10` of lines 194-196 or any other value), and for every entry of
the registry the three DCA vectors of the candidate are the results of the
successful propagations of its own first, second and third track; these are
the vectors read by the clauses of the cut verdict and handed to the DCA
histograms of the group. -/
theorem C21_dca_from_own_propagation (cfg : Config F) (env : Env F) (coll : Collision F)
    (tracks : List (Track F)) :
    (∀ a b c : F × F,
      (tracks.foldl (deuteronBody cfg env coll tracks)
          { initState with dca1 := a, dca2 := b, dca3 := c }).fills =
        (process cfg env coll tracks).fills ∧
      (tracks.foldl (deuteronBody cfg env coll tracks)
          { initState with dca1 := a, dca2 := b, dca3 := c }).candperdeuteron =
        (process cfg env coll tracks).candperdeuteron) ∧
    ∀ f ∈ (process cfg env coll tracks).fills,
      propagate cfg env coll f.cand.track1 = some f.cand.dca1 ∧
      propagate cfg env coll f.cand.track2 = some f.cand.dca2 ∧
      propagate cfg env coll f.cand.track3 = some f.cand.dca3 ∧
      (f.cand.iscut = true ↔ CutClauses cfg env.libm f.cand) ∧
      ∃ d1 d2 d3 : F × F,
        propagate cfg env coll f.cand.track1 = some d1 ∧
        propagate cfg env coll f.cand.track2 = some d2 ∧
        propagate cfg env coll f.cand.track3 = some d3 ∧
        ("dcaxy1", d1.1) ∈ FillHistos env.libm f.cand ∧
        ("dcaz1", d1.2) ∈ FillHistos env.libm f.cand ∧
        ("dcaxy2", d2.1) ∈ FillHistos env.libm f.cand ∧
        ("dcaz2", d2.2) ∈ FillHistos env.libm f.cand ∧
        ("dcaxy3", d3.1) ∈ FillHistos env.libm f.cand ∧
        ("dcaz3", d3.2) ∈ FillHistos env.libm f.cand ∧
        ("dcaxy1xdcaxy2", d1.1 * d2.1) ∈ FillHistos env.libm f.cand ∧
        ("dcaz1xdcaz2", d1.2 * d2.2) ∈ FillHistos env.libm f.cand ∧
        ("dcaxy3xdcaxy2", d3.1 * d2.1) ∈ FillHistos env.libm f.cand ∧
        ("dcaz3xdcaz2", d3.2 * d2.2) ∈ FillHistos env.libm f.cand := by
  constructor
  · intro a b c
    constructor
    · unfold process
      rw [deuteronLoop_fills, deuteronLoop_fills]
    · unfold process
      rw [deuteronLoop_candperdeuteron, deuteronLoop_candperdeuteron]
  · intro f hf
    obtain ⟨t1, t2, t3, d1, d2, d3, -, -, -, -, hd1, hd2, hd3, hc⟩ :=
      cand_of_mem_process_fills cfg env coll tracks f hf
    rw [hc]
    refine ⟨hd1, hd2, hd3, scored_iscut_cutClauses cfg env coll t1 t2 t3 d1 d2 d3,
      d1, d2, d3, hd1, hd2, hd3, ?_⟩
    simp [FillHistos, scored, candidate]


/-! ## The threshold `minDcaPion` -/

theorem scored_iscut_exceptDcaPion (cfg : Config F) (env : Env F) (coll : Collision F)
    (t1 t2 t3 : Track F) (d1 d2 d3 : F × F) :
    (scored cfg env coll t1 t2 t3 d1 d2 d3).iscut = true ↔
      CutClausesExceptDcaPion cfg env.libm (scored cfg env coll t1 t2 t3 d1 d2 d3) ∨
      |d2.1| < cfg.minDcaPion ∨ |d2.2| < cfg.minDcaPion := by
  rw [scored_iscut]
  unfold CutClausesExceptDcaPion
  constructor
  · rintro (h | h | h | h | h | h | h | h | h | h)
    · exact Or.inl (Or.inl h)
    · exact Or.inl (Or.inr (Or.inl h))
    · exact Or.inl (Or.inr (Or.inr (Or.inl h)))
    · exact Or.inr h
    · exact Or.inl (Or.inr (Or.inr (Or.inr (Or.inl h))))
    · exact Or.inl (Or.inr (Or.inr (Or.inr (Or.inr (Or.inl h)))))
    · exact Or.inl (Or.inr (Or.inr (Or.inr (Or.inr (Or.inr (Or.inl h))))))
    · exact Or.inl (Or.inr (Or.inr (Or.inr (Or.inr (Or.inr (Or.inr (Or.inl h)))))))
    · exact Or.inl (Or.inr (Or.inr (Or.inr (Or.inr (Or.inr (Or.inr (Or.inr (Or.inl h))))))))
    · exact Or.inl (Or.inr (Or.inr (Or.inr (Or.inr (Or.inr (Or.inr (Or.inr (Or.inr h))))))))
  · rintro ((h | h | h | h | h | h | h | h | h) | h)
    · exact Or.inl h
    · exact Or.inr (Or.inl h)
    · exact Or.inr (Or.inr (Or.inl h))
    · exact Or.inr (Or.inr (Or.inr (Or.inr (Or.inl h))))
    · exact Or.inr (Or.inr (Or.inr (Or.inr (Or.inr (Or.inl h)))))
    · exact Or.inr (Or.inr (Or.inr (Or.inr (Or.inr (Or.inr (Or.inl h))))))
    · exact Or.inr (Or.inr (Or.inr (Or.inr (Or.inr (Or.inr (Or.inr (Or.inl h)))))))
    · exact Or.inr (Or.inr (Or.inr (Or.inr (Or.inr (Or.inr (Or.inr (Or.inr (Or.inl h))))))))
    · exact Or.inr (Or.inr (Or.inr (Or.inr (Or.inr (Or.inr (Or.inr (Or.inr (Or.inr h))))))))
    · exact Or.inr (Or.inr (Or.inr (Or.inl h)))

/-- The candidate of a triplet is the same under two configurations that differ
in `minDcaPion` only, when the cut flag is the same. -/
theorem scored_withMinDcaPion (cfg : Config F) (x : F) (env : Env F) (coll : Collision F)
    (t1 t2 t3 : Track F) (d1 d2 d3 : F × F)
    (h1 : |d2.1| < x ↔ |d2.1| < cfg.minDcaPion) (h2 : |d2.2| < x ↔ |d2.2| < cfg.minDcaPion) :
    scored { cfg with minDcaPion := x } env coll t1 t2 t3 d1 d2 d3 =
      scored cfg env coll t1 t2 t3 d1 d2 d3 := by
  have hb : (scored { cfg with minDcaPion := x } env coll t1 t2 t3 d1 d2 d3).iscut =
      (scored cfg env coll t1 t2 t3 d1 d2 d3).iscut := by
    rw [Bool.eq_iff_iff, scored_iscut_exceptDcaPion, scored_iscut_exceptDcaPion]
    change CutClausesExceptDcaPion cfg env.libm (scored cfg env coll t1 t2 t3 d1 d2 d3) ∨
      |d2.1| < x ∨ |d2.2| < x ↔ _
    rw [h1, h2]
  have e : scored { cfg with minDcaPion := x } env coll t1 t2 t3 d1 d2 d3 =
      { scored cfg env coll t1 t2 t3 d1 d2 d3 with
        iscut := (scored { cfg with minDcaPion := x } env coll t1 t2 t3 d1 d2 d3).iscut } :=
    rfl
  rw [e, hb]

/-- C22: for every entry of the registry, the second track of the candidate is
a row that passed the kaon species filter and `dca2` is the result of its
propagation; the candidate is cut if and only if a clause that does not read
`minDcaPion` holds or a component of `dca2` is below `minDcaPion` in absolute
value; the entry is in the registry for every other value of `minDcaPion` that
leaves these two comparisons unchanged; and a candidate whose `dca3` components
are below `minDcaPion` in absolute value is not cut when no other clause holds
and the `dca2` components are not below `minDcaPion`. -/
theorem C22_minDcaPion_acts_on_second_track (cfg : Config F) (env : Env F)
    (coll : Collision F) (tracks : List (Track F)) (f : Fill F)
    (hf : f ∈ (process cfg env coll tracks).fills) :
    f.cand.track2.mcParticle.pdgCode = -321 ∧
    propagate cfg env coll f.cand.track2 = some f.cand.dca2 ∧
    (f.cand.iscut = true ↔
      CutClausesExceptDcaPion cfg env.libm f.cand ∨
      |f.cand.dca2.1| < cfg.minDcaPion ∨ |f.cand.dca2.2| < cfg.minDcaPion) ∧
    (∀ x : F, (|f.cand.dca2.1| < x ↔ |f.cand.dca2.1| < cfg.minDcaPion) →
      (|f.cand.dca2.2| < x ↔ |f.cand.dca2.2| < cfg.minDcaPion) →
      f ∈ (process { cfg with minDcaPion := x } env coll tracks).fills) ∧
    (|f.cand.dca3.1| < cfg.minDcaPion → |f.cand.dca3.2| < cfg.minDcaPion →
      ¬ CutClausesExceptDcaPion cfg env.libm f.cand →
      cfg.minDcaPion ≤ |f.cand.dca2.1| → cfg.minDcaPion ≤ |f.cand.dca2.2| →
      f.cand.iscut = false ∧ f.tag.isCutGroup = false) := by
  obtain ⟨t1, t2, t3, d1, d2, d3, m1, m2, m3, hv, hd1, hd2, hd3, hd⟩ :=
    (mem_process_fills cfg env coll tracks f).mp hf
  have hc : f.cand = scored cfg env coll t1 t2 t3 d1 d2 d3 := by
    rcases (mem_dispatch _ f).mp hd with h | h <;> rw [h]
  have hi := scored_iscut_exceptDcaPion cfg env coll t1 t2 t3 d1 d2 d3
  rw [hc]
  refine ⟨hv.2.1, hd2, hi, ?_, ?_⟩
  · intro x h1 h2
    refine (mem_process_fills _ env coll tracks f).mpr
      ⟨t1, t2, t3, d1, d2, d3, m1, m2, m3, hv, hd1, hd2, hd3, ?_⟩
    rw [scored_withMinDcaPion cfg x env coll t1 t2 t3 d1 d2 d3 h1 h2]
    exact hd
  · intro _ _ hn h1 h2
    have hb : (scored cfg env coll t1 t2 t3 d1 d2 d3).iscut = false := by
      rw [← Bool.not_eq_true, hi]
      rintro (h | h | h)
      · exact hn h
      · exact absurd h (not_lt.mpr h1)
      · exact absurd h (not_lt.mpr h2)
    refine ⟨hb, ?_⟩
    rcases (mem_dispatch _ f).mp hd with h | h
    · rw [h]
      cases (scored cfg env coll t1 t2 t3 d1 d2 d3).issig <;> rfl
    · rw [h, hb]
      cases (scored cfg env coll t1 t2 t3 d1 d2 d3).issig <;> rfl


/-! ## The default thresholds and the range of the pointing angle -/

theorem scored_radius_magMom (cfg : Config F) (env : Env F) (coll : Collision F)
    (t1 t2 t3 : Track F) (d1 d2 d3 : F × F) :
    (scored cfg env coll t1 t2 t3 d1 d2 d3).decay_radius =
      env.libm.sqrt
        ((env.fitterProcess t1 t2 t3).pca.x * (env.fitterProcess t1 t2 t3).pca.x +
          (env.fitterProcess t1 t2 t3).pca.y * (env.fitterProcess t1 t2 t3).pca.y +
          (env.fitterProcess t1 t2 t3).pca.z * (env.fitterProcess t1 t2 t3).pca.z) ∧
    (scored cfg env coll t1 t2 t3 d1 d2 d3).magMom =
      env.libm.sqrt
        ((scored cfg env coll t1 t2 t3 d1 d2 d3).v1.x * (scored cfg env coll t1 t2 t3 d1 d2 d3).v1.x +
          (scored cfg env coll t1 t2 t3 d1 d2 d3).v1.y * (scored cfg env coll t1 t2 t3 d1 d2 d3).v1.y +
          (scored cfg env coll t1 t2 t3 d1 d2 d3).v1.z * (scored cfg env coll t1 t2 t3 d1 d2 d3).v1.z) ∧
    (scored cfg env coll t1 t2 t3 d1 d2 d3).CPA =
      ((scored cfg env coll t1 t2 t3 d1 d2 d3).v1.x * (env.fitterProcess t1 t2 t3).pca.x +
        (scored cfg env coll t1 t2 t3 d1 d2 d3).v1.y * (env.fitterProcess t1 t2 t3).pca.y +
        (scored cfg env coll t1 t2 t3 d1 d2 d3).v1.z * (env.fitterProcess t1 t2 t3).pca.z) /
      ((scored cfg env coll t1 t2 t3 d1 d2 d3).decay_radius *
        (scored cfg env coll t1 t2 t3 d1 d2 d3).magMom) ∧
    (scored cfg env coll t1 t2 t3 d1 d2 d3).fit = env.fitterProcess t1 t2 t3 :=
  ⟨rfl, rfl, rfl, rfl⟩

/-- C27: under the default configuration, in real arithmetic, an entry of the
registry whose second and third track have a non-negative transverse momentum
holds a cut candidate if and only if a DCA component of one of its three tracks
is above 100 in absolute value or its decay radius is above 100; the clauses on
`minDca`, `minDcaPion`, `minKaonPt`, `minPionPt`, `minMomPt` (the combined
transverse momentum is a square root), `minRadius` and `minCpa` never hold. -/
theorem C27_default_verdict (prop : Track ℝ → Point3D ℝ → ℝ → ℝ → Option (ℝ × ℝ))
    (fitter : Track ℝ → Track ℝ → Track ℝ → FitResult ℝ) (mc : Int → McParticle ℝ)
    (coll : Collision ℝ) (tracks : List (Track ℝ)) (f : Fill ℝ)
    (hf : f ∈ (process (Config.default ℝ)
      ⟨⟨Real.sqrt, Real.cos, Real.sin, Real.sinh⟩, prop, fitter, mc⟩ coll tracks).fills)
    (h2 : 0 ≤ f.cand.track2.pt) (h3 : 0 ≤ f.cand.track3.pt) :
    (f.cand.iscut = true ↔
      100 < |f.cand.dca1.1| ∨ 100 < |f.cand.dca1.2| ∨
      100 < |f.cand.dca2.1| ∨ 100 < |f.cand.dca2.2| ∨
      100 < |f.cand.dca3.1| ∨ 100 < |f.cand.dca3.2| ∨
      100 < f.cand.decay_radius) ∧
    (∀ x : ℝ, ¬ |x| < (Config.default ℝ).minDca) ∧
    (∀ x : ℝ, ¬ |x| < (Config.default ℝ).minDcaPion) ∧
    ¬ f.cand.track2.pt < (Config.default ℝ).minKaonPt ∧
    ¬ f.cand.track3.pt < (Config.default ℝ).minPionPt ∧
    ¬ TLorentzVector.Pt ⟨Real.sqrt, Real.cos, Real.sin, Real.sinh⟩ f.cand.v1 <
      (Config.default ℝ).minMomPt ∧
    ¬ f.cand.decay_radius < (Config.default ℝ).minRadius ∧
    ¬ |f.cand.CPA| < (Config.default ℝ).minCpa := by
  obtain ⟨t1, t2, t3, d1, d2, d3, -, -, -, -, -, -, -, hc⟩ :=
    cand_of_mem_process_fills _ _ coll tracks f hf
  have hd : ∀ x : ℝ, ¬ |x| < -100 := fun x h =>
    absurd (lt_of_le_of_lt (abs_nonneg x) h) (by norm_num)
  have hk : ¬ f.cand.track2.pt < -100 := fun h => absurd (lt_of_le_of_lt h2 h) (by norm_num)
  have hp : ¬ f.cand.track3.pt < -100 := fun h => absurd (lt_of_le_of_lt h3 h) (by norm_num)
  have hm : ¬ TLorentzVector.Pt ⟨Real.sqrt, Real.cos, Real.sin, Real.sinh⟩ f.cand.v1 < -100 :=
    fun h => absurd (lt_of_le_of_lt (Real.sqrt_nonneg _) h) (by norm_num)
  have hr : ¬ f.cand.decay_radius < -100 := by
    rw [hc, (scored_radius_magMom _ _ coll t1 t2 t3 d1 d2 d3).1]
    exact fun h => absurd (lt_of_le_of_lt (Real.sqrt_nonneg _) h) (by norm_num)
  have ha : ¬ |f.cand.CPA| < 0 := not_lt.mpr (abs_nonneg _)
  refine ⟨?_, hd, hd, hk, hp, hm, hr, ha⟩
  have hi := scored_iscut_cutClauses (Config.default ℝ)
    ⟨⟨Real.sqrt, Real.cos, Real.sin, Real.sinh⟩, prop, fitter, mc⟩ coll t1 t2 t3 d1 d2 d3
  rw [← hc] at hi
  rw [hi]
  unfold CutClauses
  change (|f.cand.dca1.1| < -100 ∨ |f.cand.dca1.2| < -100 ∨
      |f.cand.dca1.1| > 100 ∨ |f.cand.dca1.2| > 100) ∨
    (|f.cand.dca2.1| < -100 ∨ |f.cand.dca2.2| < -100 ∨
      |f.cand.dca2.1| > 100 ∨ |f.cand.dca2.2| > 100) ∨
    (|f.cand.dca3.1| < -100 ∨ |f.cand.dca3.2| < -100 ∨
      |f.cand.dca3.1| > 100 ∨ |f.cand.dca3.2| > 100) ∨
    (|f.cand.dca2.1| < -100 ∨ |f.cand.dca2.2| < -100) ∨
    f.cand.track2.pt < -100 ∨ f.cand.track3.pt < -100 ∨
    TLorentzVector.Pt ⟨Real.sqrt, Real.cos, Real.sin, Real.sinh⟩ f.cand.v1 < -100 ∨
    f.cand.decay_radius < -100 ∨ f.cand.decay_radius > 100 ∨ |f.cand.CPA| < 0 ↔ _
  have e1 := hd f.cand.dca1.1
  have e2 := hd f.cand.dca1.2
  have e3 := hd f.cand.dca2.1
  have e4 := hd f.cand.dca2.2
  have e5 := hd f.cand.dca3.1
  have e6 := hd f.cand.dca3.2
  simp only [e1, e2, e3, e4, e5, e6, hk, hp, hm, hr, ha, false_or, or_false, gt_iff_lt]
  tauto

/-- C29: in real arithmetic, for every entry of the registry whose candidate
has a non-zero decay radius and a non-zero combined momentum, the recorded CPA
is `(px x + py y + pz z) / (sqrt(x^2 + y^2 + z^2) sqrt(px^2 + py^2 + pz^2))` and
lies between -1 and 1; the CPA clause does not hold when `minCpa <= 0`, and
when `minCpa > 1` the candidate is cut and its entries are in the no-cut and
cut groups only. -/
theorem C29_cpa_range (cfg : Config ℝ) (prop : Track ℝ → Point3D ℝ → ℝ → ℝ → Option (ℝ × ℝ))
    (fitter : Track ℝ → Track ℝ → Track ℝ → FitResult ℝ) (mc : Int → McParticle ℝ)
    (coll : Collision ℝ) (tracks : List (Track ℝ)) (f : Fill ℝ)
    (hf : f ∈ (process cfg
      ⟨⟨Real.sqrt, Real.cos, Real.sin, Real.sinh⟩, prop, fitter, mc⟩ coll tracks).fills)
    (hr : f.cand.decay_radius ≠ 0) (hm : f.cand.magMom ≠ 0) :
    f.cand.CPA =
      (f.cand.v1.Px * f.cand.fit.pca.x + f.cand.v1.Py * f.cand.fit.pca.y +
        f.cand.v1.Pz * f.cand.fit.pca.z) /
      (Real.sqrt (f.cand.fit.pca.x ^ 2 + f.cand.fit.pca.y ^ 2 + f.cand.fit.pca.z ^ 2) *
        Real.sqrt (f.cand.v1.Px ^ 2 + f.cand.v1.Py ^ 2 + f.cand.v1.Pz ^ 2)) ∧
    -1 ≤ f.cand.CPA ∧ f.cand.CPA ≤ 1 ∧
    (cfg.minCpa ≤ 0 → ¬ |f.cand.CPA| < cfg.minCpa) ∧
    (1 < cfg.minCpa → f.cand.iscut = true ∧ f.tag.isPassing = false) := by
  obtain ⟨t1, t2, t3, d1, d2, d3, m1, m2, m3, hv, hd1, hd2, hd3, hd⟩ :=
    (mem_process_fills _ _ coll tracks f).mp hf
  have hc : f.cand = scored cfg ⟨⟨Real.sqrt, Real.cos, Real.sin, Real.sinh⟩, prop, fitter, mc⟩
      coll t1 t2 t3 d1 d2 d3 := by
    rcases (mem_dispatch _ f).mp hd with h | h <;> rw [h]
  obtain ⟨eR, eM, eC, eF⟩ := scored_radius_magMom cfg
    ⟨⟨Real.sqrt, Real.cos, Real.sin, Real.sinh⟩, prop, fitter, mc⟩ coll t1 t2 t3 d1 d2 d3
  rw [← hc] at eR eM eC eF
  rw [← eF] at eR eC
  dsimp only at eR eM eC
  have eR2 : f.cand.decay_radius =
      Real.sqrt (f.cand.fit.pca.x ^ 2 + f.cand.fit.pca.y ^ 2 + f.cand.fit.pca.z ^ 2) := by
    rw [eR]
    congr 1
    ring
  have eM2 : f.cand.magMom =
      Real.sqrt (f.cand.v1.x ^ 2 + f.cand.v1.y ^ 2 + f.cand.v1.z ^ 2) := by
    rw [eM]
    congr 1
    ring
  have hRpos : 0 < f.cand.decay_radius :=
    lt_of_le_of_ne (by rw [eR2]; exact Real.sqrt_nonneg _) (Ne.symm hr)
  have hMpos : 0 < f.cand.magMom :=
    lt_of_le_of_ne (by rw [eM2]; exact Real.sqrt_nonneg _) (Ne.symm hm)
  have hpos : 0 < f.cand.decay_radius * f.cand.magMom := mul_pos hRpos hMpos
  have hup := dot_le_sqrt_mul_sqrt f.cand.v1.x f.cand.v1.y f.cand.v1.z
    f.cand.fit.pca.x f.cand.fit.pca.y f.cand.fit.pca.z
  have hlo := dot_le_sqrt_mul_sqrt (-f.cand.v1.x) (-f.cand.v1.y) (-f.cand.v1.z)
    f.cand.fit.pca.x f.cand.fit.pca.y f.cand.fit.pca.z
  simp only [neg_sq] at hlo
  rw [← eR2, ← eM2] at hup hlo
  have h1 : -1 ≤ f.cand.CPA := by
    rw [eC, le_div_iff₀ hpos]
    linarith
  have h2 : f.cand.CPA ≤ 1 := by
    rw [eC, div_le_iff₀ hpos]
    linarith
  refine ⟨?_, h1, h2, ?_, ?_⟩
  · rw [eC, eR2, eM2]
    rfl
  · intro h0 h
    exact absurd (lt_of_lt_of_le h h0) (not_lt.mpr (abs_nonneg _))
  · intro hmin
    have hcut : f.cand.iscut = true := by
      have hi := scored_iscut_cutClauses cfg
        ⟨⟨Real.sqrt, Real.cos, Real.sin, Real.sinh⟩, prop, fitter, mc⟩ coll t1 t2 t3 d1 d2 d3
      rw [← hc] at hi
      rw [hi]
      unfold CutClauses
      have : |f.cand.CPA| < cfg.minCpa := lt_of_le_of_lt (abs_le.mpr ⟨h1, h2⟩) hmin
      simp only [this, or_true]
    refine ⟨hcut, ?_⟩
    rw [hc] at hcut
    rcases (mem_dispatch _ f).mp hd with h | h
    · rw [h]
      cases (scored cfg ⟨⟨Real.sqrt, Real.cos, Real.sin, Real.sinh⟩, prop, fitter, mc⟩
        coll t1 t2 t3 d1 d2 d3).issig <;> rfl
    · rw [h, hcut]
      cases (scored cfg ⟨⟨Real.sqrt, Real.cos, Real.sin, Real.sinh⟩, prop, fitter, mc⟩
        coll t1 t2 t3 d1 d2 d3).issig <;> rfl



/-! ## Sample runs for the thresholds -/

theorem cutClauses_of_exceptDcaPion (cfg : Config F) (m : Libm F) (c : Candidate F)
    (h : CutClausesExceptDcaPion cfg m c) : CutClauses cfg m c := by
  unfold CutClausesExceptDcaPion at h
  unfold CutClauses
  rcases h with h | h | h | h | h | h | h | h | h
  · exact Or.inl h
  · exact Or.inr (Or.inl h)
  · exact Or.inr (Or.inr (Or.inl h))
  · exact Or.inr (Or.inr (Or.inr (Or.inr (Or.inl h))))
  · exact Or.inr (Or.inr (Or.inr (Or.inr (Or.inr (Or.inl h)))))
  · exact Or.inr (Or.inr (Or.inr (Or.inr (Or.inr (Or.inr (Or.inl h))))))
  · exact Or.inr (Or.inr (Or.inr (Or.inr (Or.inr (Or.inr (Or.inr (Or.inl h)))))))
  · exact Or.inr (Or.inr (Or.inr (Or.inr (Or.inr (Or.inr (Or.inr (Or.inr (Or.inl h))))))))
  · exact Or.inr (Or.inr (Or.inr (Or.inr (Or.inr (Or.inr (Or.inr (Or.inr (Or.inr h))))))))

theorem sample_viable_wide (cfg : Config F) (m : Libm F) (coll : Collision F) :
    Viable cfg (sampleEnv m samplePropWide 1) coll sampleDeuteron sampleKaon samplePion := by
  refine ⟨rfl, rfl, rfl, by simp [sampleDeuteron, sampleKaon, sampleTrack],
    by simp [sampleKaon, samplePion, sampleTrack],
    by simp [sampleDeuteron, samplePion, sampleTrack],
    ?_, ?_, ?_, ?_, ?_, ?_, ?_⟩
  · simp [propagate, sampleEnv, samplePropWide, sampleDeuteron, sampleTrack]
  · simp [propagate, sampleEnv, samplePropWide, sampleKaon, sampleTrack]
  · simp [propagate, sampleEnv, samplePropWide, samplePion, sampleTrack]
  · norm_num [covOk, sampleDeuteron, sampleTrack]
  · norm_num [covOk, sampleKaon, sampleTrack]
  · norm_num [covOk, samplePion, sampleTrack]
  · simp [sampleEnv]

theorem sample_propagate_wide (cfg : Config F) (m : Libm F) (coll : Collision F) :
    propagate cfg (sampleEnv m samplePropWide 1) coll sampleDeuteron = some (1 / 2, 1 / 2) ∧
    propagate cfg (sampleEnv m samplePropWide 1) coll sampleKaon = some (1 / 2, 1 / 2) ∧
    propagate cfg (sampleEnv m samplePropWide 1) coll samplePion = some (1 / 100, 1 / 100) := by
  refine ⟨?_, ?_, ?_⟩
  · simp [propagate, sampleEnv, samplePropWide, sampleDeuteron, sampleTrack]
  · simp [propagate, sampleEnv, samplePropWide, sampleKaon, sampleTrack]
  · simp [propagate, sampleEnv, samplePropWide, samplePion, sampleTrack]

/-- On the sample event with the wide propagation and `minDcaPion = 1/10`, in
real arithmetic, no clause that does not read `minDcaPion` holds. -/
theorem sample_wide_not_cut :
    ¬ CutClausesExceptDcaPion { Config.default ℝ with minDcaPion := 1 / 10 }
      ⟨Real.sqrt, Real.cos, Real.sin, Real.sinh⟩
      (scored { Config.default ℝ with minDcaPion := 1 / 10 }
        (sampleEnv ⟨Real.sqrt, Real.cos, Real.sin, Real.sinh⟩ samplePropWide 1) sampleColl
        sampleDeuteron sampleKaon samplePion
        (1 / 2, 1 / 2) (1 / 2, 1 / 2) (1 / 100, 1 / 100)) := by
  intro h
  refine not_cutClauses_of_cutsDisabledFor _ _ _ ?_ (cutClauses_of_exceptDcaPion _ _ _ h)
  have hd : (-100 : ℝ) ≤ |1 / 100| ∧ |(1 : ℝ) / 100| ≤ 100 := by
    rw [abs_of_pos (by norm_num : (0 : ℝ) < 1 / 100)]
    constructor <;> norm_num
  have hw : (-100 : ℝ) ≤ |1 / 2| ∧ |(1 : ℝ) / 2| ≤ 100 ∧ (1 : ℝ) / 10 ≤ |1 / 2| := by
    rw [abs_of_pos (by norm_num : (0 : ℝ) < 1 / 2)]
    refine ⟨?_, ?_, ?_⟩ <;> norm_num
  refine ⟨⟨hw.1, hw.1, hw.2.1, hw.2.1⟩, ⟨hw.1, hw.1, hw.2.1, hw.2.1⟩,
    ⟨hd.1, hd.1, hd.2, hd.2⟩, ⟨hw.2.2, hw.2.2⟩, ?_, ?_, ?_, ?_, ?_, ?_⟩
  · show (-100 : ℝ) ≤ 1
    norm_num
  · show (-100 : ℝ) ≤ 1
    norm_num
  · exact le_trans (by norm_num [Config.default]) (Real.sqrt_nonneg _)
  · exact le_trans (by norm_num [Config.default]) (Real.sqrt_nonneg _)
  · show Real.sqrt (3 / 100 * (3 / 100) + 0 * 0 + 4 / 100 * (4 / 100)) ≤ 100
    rw [Real.sqrt_le_iff]
    constructor <;> norm_num
  · exact abs_nonneg _

/-- Witness of C22 on the sample event with the wide propagation and
`minDcaPion = 1/10` (real arithmetic): the DCA components of the pion, `1/100`,
are below `minDcaPion`, those of the kaon, `1/2`, are not, and the candidate is
not cut. -/
theorem C22_minDcaPion_acts_on_second_track_witness :
    ∃ f ∈ (process { Config.default ℝ with minDcaPion := 1 / 10 }
        (sampleEnv ⟨Real.sqrt, Real.cos, Real.sin, Real.sinh⟩ samplePropWide 1) sampleColl
        [sampleDeuteron, sampleKaon, samplePion]).fills,
      f.cand.dca3 = (1 / 100, 1 / 100) ∧ f.cand.dca2 = (1 / 2, 1 / 2) ∧
      f.cand.iscut = false ∧ f.tag.isCutGroup = false :=
  have hf := noCut_mem_process_fills { Config.default ℝ with minDcaPion := 1 / 10 }
    (sampleEnv ⟨Real.sqrt, Real.cos, Real.sin, Real.sinh⟩ samplePropWide 1) sampleColl
    [sampleDeuteron, sampleKaon, samplePion] sampleDeuteron sampleKaon samplePion
    (1 / 2, 1 / 2) (1 / 2, 1 / 2) (1 / 100, 1 / 100) (by simp) (by simp) (by simp)
    (sample_viable_wide _ _ _) (sample_propagate_wide _ _ _).1
    (sample_propagate_wide _ _ _).2.1 (sample_propagate_wide _ _ _).2.2
  ⟨_, hf, rfl, rfl,
    (C22_minDcaPion_acts_on_second_track _ _ _ _ _ hf).2.2.2.2
      (by show |(1 : ℝ) / 100| < 1 / 10
          rw [abs_of_pos (by norm_num : (0 : ℝ) < 1 / 100)]; norm_num)
      (by show |(1 : ℝ) / 100| < 1 / 10
          rw [abs_of_pos (by norm_num : (0 : ℝ) < 1 / 100)]; norm_num)
      sample_wide_not_cut
      (by show (1 : ℝ) / 10 ≤ |1 / 2|
          rw [abs_of_pos (by norm_num : (0 : ℝ) < 1 / 2)]; norm_num)
      (by show (1 : ℝ) / 10 ≤ |1 / 2|
          rw [abs_of_pos (by norm_num : (0 : ℝ) < 1 / 2)]; norm_num)⟩

/-- Witness of C27 on the sample event (real arithmetic, default
configuration): the candidate of the sample triplet, whose DCA components are
`1/100` and whose decay radius is `sqrt(0.0025)`, is not cut. -/
theorem C27_default_verdict_witness :
    ∃ f ∈ (process (Config.default ℝ)
        (sampleEnv ⟨Real.sqrt, Real.cos, Real.sin, Real.sinh⟩ sampleProp 1) sampleColl
        [sampleDeuteron, sampleKaon, samplePion]).fills,
      f.cand.iscut = false := by
  have hf := sample_noCut_mem (Config.default ℝ) ⟨Real.sqrt, Real.cos, Real.sin, Real.sinh⟩ 1
    (by decide) 7 7 7 1 1 0 (by norm_num)
  refine ⟨_, hf, ?_⟩
  rw [← Bool.not_eq_true,
    (C27_default_verdict _ _ _ _ _ _ hf (by show (0 : ℝ) ≤ 1; norm_num)
      (by show (0 : ℝ) ≤ 1; norm_num)).1]
  have hd : ¬ (100 : ℝ) < |1 / 100| := by
    rw [abs_of_pos (by norm_num : (0 : ℝ) < 1 / 100)]
    norm_num
  have hr : ¬ (100 : ℝ) < Real.sqrt (3 / 100 * (3 / 100) + 0 * 0 + 4 / 100 * (4 / 100)) := by
    rw [not_lt, Real.sqrt_le_iff]
    constructor <;> norm_num
  rintro (h | h | h | h | h | h | h)
  · exact hd h
  · exact hd h
  · exact hd h
  · exact hd h
  · exact hd h
  · exact hd h
  · exact hr h

/-- Witness of C29 on the sample event (real arithmetic): the decay radius
`sqrt(0.0025)` and the combined momentum `sqrt(9)` of the sample candidate are
not zero, its CPA lies between -1 and 1. -/
theorem C29_cpa_range_witness :
    ∃ f ∈ (process (Config.default ℝ)
        (sampleEnv ⟨Real.sqrt, Real.cos, Real.sin, Real.sinh⟩ sampleProp 1) sampleColl
        [sampleDeuteron, sampleKaon, samplePion]).fills,
      f.cand.decay_radius ≠ 0 ∧ f.cand.magMom ≠ 0 ∧ -1 ≤ f.cand.CPA ∧ f.cand.CPA ≤ 1 := by
  have hf := sample_noCut_mem (Config.default ℝ) ⟨Real.sqrt, Real.cos, Real.sin, Real.sinh⟩ 1
    (by decide) 7 7 7 1 1 0 (by norm_num)
  have hr : (scored (Config.default ℝ)
      (sampleEnv ⟨Real.sqrt, Real.cos, Real.sin, Real.sinh⟩ sampleProp 1) sampleColl
      (sampleTrack 0 1000010020 7 1 1 0) (sampleTrack 1 (-321) 7 1 1 0)
      (sampleTrack 2 211 7 1 1 0)
      (1 / 100, 1 / 100) (1 / 100, 1 / 100) (1 / 100, 1 / 100)).decay_radius ≠ 0 := by
    show Real.sqrt (3 / 100 * (3 / 100) + 0 * 0 + 4 / 100 * (4 / 100)) ≠ 0
    exact (Real.sqrt_pos.mpr (by norm_num)).ne'
  have hm : (scored (Config.default ℝ)
      (sampleEnv ⟨Real.sqrt, Real.cos, Real.sin, Real.sinh⟩ sampleProp 1) sampleColl
      (sampleTrack 0 1000010020 7 1 1 0) (sampleTrack 1 (-321) 7 1 1 0)
      (sampleTrack 2 211 7 1 1 0)
      (1 / 100, 1 / 100) (1 / 100, 1 / 100) (1 / 100, 1 / 100)).magMom ≠ 0 := by
    obtain ⟨hx, hy, hz⟩ := sample_v1_real (Config.default ℝ) sampleColl
    rw [(scored_radius_magMom _ _ _ _ _ _ _ _ _).2.1]
    unfold sampleDeuteron sampleKaon samplePion at hx hy hz
    rw [hx, hy, hz]
    exact (Real.sqrt_pos.mpr (by norm_num)).ne'
  exact ⟨_, hf, hr, hm,
    (C29_cpa_range _ _ _ _ _ _ _ hf hr hm).2.1,
    (C29_cpa_range _ _ _ _ _ _ _ hf hr hm).2.2.1⟩

/-! ## The index comparisons -/

theorem pionBody_eq_noIndexCheck (cfg : Config F) (env : Env F) (coll : Collision F)
    (t1 t2 : Track F) (st : State F) (t3 : Track F)
    (h1 : t1.globalIndex = t3.globalIndex → t3.mcParticle.pdgCode ≠ 211)
    (h2 : t2.globalIndex = t3.globalIndex → t3.mcParticle.pdgCode ≠ 211) :
    pionBody cfg env coll t1 t2 st t3 = pionBodyNoIndexCheck cfg env coll t1 t2 st t3 := by
  have e : pionBody cfg env coll t1 t2 st t3 =
      if t2.globalIndex = t3.globalIndex then st
      else if t1.globalIndex = t3.globalIndex then st
      else pionBodyNoIndexCheck cfg env coll t1 t2 st t3 := rfl
  rw [e]
  by_cases a : t2.globalIndex = t3.globalIndex
  · rw [if_pos a]
    unfold pionBodyNoIndexCheck
    rw [if_pos (h2 a)]
  · rw [if_neg a]
    by_cases b : t1.globalIndex = t3.globalIndex
    · rw [if_pos b]
      unfold pionBodyNoIndexCheck
      rw [if_pos (h1 b)]
    · rw [if_neg b]

theorem kaonBody_eq_noIndexCheck (cfg : Config F) (env : Env F) (coll : Collision F)
    (tracks : List (Track F)) (t1 : Track F) (st : State F) (t2 : Track F)
    (hinj : ∀ a ∈ tracks, ∀ b ∈ tracks, a.globalIndex = b.globalIndex → a = b)
    (m1 : t1 ∈ tracks) (m2 : t2 ∈ tracks) (p1 : t1.mcParticle.pdgCode = 1000010020) :
    kaonBody cfg env coll tracks t1 st t2 = kaonBodyNoIndexCheck cfg env coll tracks t1 st t2 := by
  unfold kaonBody kaonBodyNoIndexCheck
  dsimp only
  by_cases p2 : t2.mcParticle.pdgCode = -321
  · have hne : ¬ t1.globalIndex = t2.globalIndex := by
      intro h
      have := hinj t1 m1 t2 m2 h
      rw [this, p2] at p1
      exact absurd p1 (by decide)
    rw [if_neg hne, if_neg (not_not.mpr p2), if_neg (not_not.mpr p2)]
    cases env.propagateParamToDCA t2 (collPos coll) (cfg.magField * 10) 100 with
    | none => rfl
    | some d2 =>
      dsimp only
      apply List.foldl_ext
      intro s t3 m3
      apply pionBody_eq_noIndexCheck
      · intro h
        have := hinj t1 m1 t3 m3 h
        rw [← this, p1]
        decide
      · intro h
        have := hinj t2 m2 t3 m3 h
        rw [← this, p2]
        decide
  · rw [if_pos p2, if_pos p2]
    split_ifs <;> rfl

theorem deuteronBody_eq_noIndexCheck (cfg : Config F) (env : Env F) (coll : Collision F)
    (tracks : List (Track F)) (st : State F) (t1 : Track F)
    (hinj : ∀ a ∈ tracks, ∀ b ∈ tracks, a.globalIndex = b.globalIndex → a = b)
    (m1 : t1 ∈ tracks) :
    deuteronBody cfg env coll tracks st t1 =
      deuteronBodyNoIndexCheck cfg env coll tracks st t1 := by
  unfold deuteronBody deuteronBodyNoIndexCheck
  dsimp only
  by_cases p1 : t1.mcParticle.pdgCode = 1000010020
  · rw [if_neg (not_not.mpr p1), if_neg (not_not.mpr p1)]
    cases env.propagateParamToDCA t1 (collPos coll) (cfg.magField * 10) 100 with
    | none => rfl
    | some d1 =>
      dsimp only
      rw [List.foldl_ext (kaonBody cfg env coll tracks t1)
        (kaonBodyNoIndexCheck cfg env coll tracks t1) _
        (fun s t2 m2 => kaonBody_eq_noIndexCheck cfg env coll tracks t1 s t2 hinj m1 m2 p1)]
  · rw [if_pos p1, if_pos p1]

/-- C28: when rows of the track table with equal global indices are the same
row, three rows that pass the species filters `1000010020`, `-321` and `211`
have pairwise distinct global indices, and the search without the three index
comparisons ends in the same state as `process`: the same entries in the same
groups in the same order, the same values filled in `event/candperdeuteron`,
the same calls of the fitter. -/
theorem C28_index_checks_redundant (cfg : Config F) (env : Env F) (coll : Collision F)
    (tracks : List (Track F))
    (hinj : ∀ a ∈ tracks, ∀ b ∈ tracks, a.globalIndex = b.globalIndex → a = b) :
    (∀ t1 ∈ tracks, ∀ t2 ∈ tracks, ∀ t3 ∈ tracks,
      t1.mcParticle.pdgCode = 1000010020 → t2.mcParticle.pdgCode = -321 →
      t3.mcParticle.pdgCode = 211 →
      t1.globalIndex ≠ t2.globalIndex ∧ t2.globalIndex ≠ t3.globalIndex ∧
        t1.globalIndex ≠ t3.globalIndex) ∧
    processNoIndexCheck cfg env coll tracks = process cfg env coll tracks ∧
    (processNoIndexCheck cfg env coll tracks).fills = (process cfg env coll tracks).fills ∧
    (processNoIndexCheck cfg env coll tracks).candperdeuteron =
      (process cfg env coll tracks).candperdeuteron := by
  have key : processNoIndexCheck cfg env coll tracks = process cfg env coll tracks := by
    unfold processNoIndexCheck process
    symm
    apply List.foldl_ext
    intro s t1 m1
    exact deuteronBody_eq_noIndexCheck cfg env coll tracks s t1 hinj m1
  refine ⟨?_, key, by rw [key], by rw [key]⟩
  intro t1 m1 t2 m2 t3 m3 p1 p2 p3
  refine ⟨?_, ?_, ?_⟩
  · intro h
    have := hinj t1 m1 t2 m2 h
    rw [this, p2] at p1
    exact absurd p1 (by decide)
  · intro h
    have := hinj t2 m2 t3 m3 h
    rw [this, p3] at p2
    exact absurd p2 (by decide)
  · intro h
    have := hinj t1 m1 t3 m3 h
    rw [this, p3] at p1
    exact absurd p1 (by decide)

theorem sample_indices_injective :
    ∀ a ∈ [(sampleDeuteron : Track F), sampleKaon, samplePion],
      ∀ b ∈ [(sampleDeuteron : Track F), sampleKaon, samplePion],
      a.globalIndex = b.globalIndex → a = b := by
  intro a ha b hb h
  simp only [List.mem_cons, List.mem_singleton, List.not_mem_nil, or_false] at ha hb
  rcases ha with rfl | rfl | rfl <;> rcases hb with rfl | rfl | rfl <;>
    first
    | rfl
    | (simp [sampleDeuteron, sampleKaon, samplePion, sampleTrack] at h)

/-- Witness of C28 on the sample event, whose three rows have the global
indices 0, 1 and 2: both searches fill the value 1 in
`event/candperdeuteron`. -/
theorem C28_index_checks_redundant_witness :
    (processNoIndexCheck (Config.default ℚ) (sampleEnv ⟨id, id, id, id⟩ sampleProp 1) sampleColl
        [sampleDeuteron, sampleKaon, samplePion]).candperdeuteron = [1] ∧
    (process (Config.default ℚ) (sampleEnv ⟨id, id, id, id⟩ sampleProp 1) sampleColl
        [sampleDeuteron, sampleKaon, samplePion]).candperdeuteron = [1] := by
  have h := (C28_index_checks_redundant (Config.default ℚ)
    (sampleEnv ⟨id, id, id, id⟩ sampleProp 1) sampleColl
    [sampleDeuteron, sampleKaon, samplePion] sample_indices_injective).2.2.2
  have e : (process (Config.default ℚ) (sampleEnv ⟨id, id, id, id⟩ sampleProp 1) sampleColl
      [sampleDeuteron, sampleKaon, samplePion]).candperdeuteron = [1] := by
    norm_num [process, deuteronBody, kaonBody, pionBody, sampleEnv, sampleProp, sampleColl,
      sampleDeuteron, sampleKaon, samplePion, sampleTrack, initState, collPos]
  exact ⟨h.trans e, e⟩

/-! ## The routing of the scored candidates -/

omit [LinearOrderedField F] in
theorem routed_eq_dispatch (c : Candidate F) : routed c = dispatch c := by
  rw [dispatch_eq]
  rfl

theorem tripletCandidates_of_viable (cfg : Config F) (env : Env F) (coll : Collision F)
    (t1 t2 t3 : Track F) (hv : Viable cfg env coll t1 t2 t3) :
    ∃ d1 d2 d3, propagate cfg env coll t1 = some d1 ∧ propagate cfg env coll t2 = some d2 ∧
      propagate cfg env coll t3 = some d3 ∧
      tripletCandidates cfg env coll t1 t2 t3 = [scored cfg env coll t1 t2 t3 d1 d2 d3] ∧
      tripletFills cfg env coll t1 t2 t3 = dispatch (scored cfg env coll t1 t2 t3 d1 d2 d3) := by
  obtain ⟨d1, hd1⟩ := Option.isSome_iff_exists.mp hv.2.2.2.2.2.2.1
  obtain ⟨d2, hd2⟩ := Option.isSome_iff_exists.mp hv.2.2.2.2.2.2.2.1
  obtain ⟨d3, hd3⟩ := Option.isSome_iff_exists.mp hv.2.2.2.2.2.2.2.2.1
  refine ⟨d1, d2, d3, hd1, hd2, hd3, ?_, ?_⟩
  · unfold tripletCandidates
    rw [if_pos hv, hd1, hd2, hd3]
  · unfold tripletFills
    rw [if_pos hv, hd1, hd2, hd3]

theorem tripletFills_eq_routed (cfg : Config F) (env : Env F) (coll : Collision F)
    (t1 t2 t3 : Track F) :
    tripletFills cfg env coll t1 t2 t3 =
      (tripletCandidates cfg env coll t1 t2 t3).flatMap routed := by
  by_cases hv : Viable cfg env coll t1 t2 t3
  · obtain ⟨d1, d2, d3, -, -, -, hc, hf⟩ := tripletCandidates_of_viable cfg env coll t1 t2 t3 hv
    rw [hc, hf, List.flatMap_singleton, routed_eq_dispatch]
  · rw [tripletFills_of_not_viable cfg env coll t1 t2 t3 hv]
    unfold tripletCandidates
    rw [if_neg hv]
    rfl

/-- The registry is the routing of the scored candidates. -/
theorem process_fills_routed (cfg : Config F) (env : Env F) (coll : Collision F)
    (tracks : List (Track F)) :
    (process cfg env coll tracks).fills =
      (scoredCandidates cfg env coll tracks).flatMap routed := by
  rw [process_fills_triplets]
  unfold scoredCandidates
  rw [List.flatMap_assoc]
  apply flatMap_ext
  rintro ⟨t1, t2, t3⟩ _
  exact tripletFills_eq_routed cfg env coll t1 t2 t3

theorem scoredCandidates_triplets (cfg : Config F) (env : Env F) (coll : Collision F)
    (tracks : List (Track F)) :
    (scoredCandidates cfg env coll tracks).map (fun c => (c.track1, c.track2, c.track3)) =
      (triplets tracks).filter (fun t => decide (Viable cfg env coll t.1 t.2.1 t.2.2)) := by
  unfold scoredCandidates
  rw [List.map_flatMap, ← flatMap_ite_singleton]
  apply flatMap_ext
  rintro ⟨t1, t2, t3⟩ _
  dsimp only
  by_cases hv : Viable cfg env coll t1 t2 t3
  · obtain ⟨d1, d2, d3, -, -, -, hc, -⟩ := tripletCandidates_of_viable cfg env coll t1 t2 t3 hv
    rw [if_pos hv, hc]
    rfl
  · unfold tripletCandidates
    rw [if_neg hv, if_neg hv]
    rfl

theorem scoredCandidates_length (cfg : Config F) (env : Env F) (coll : Collision F)
    (tracks : List (Track F)) :
    ((scoredCandidates cfg env coll tracks).length : Int) =
      (process cfg env coll tracks).candperdeuteron.sum := by
  rw [sum_candperdeuteron, process_fills_routed, noCutCount_flatMap]
  have : (fun a : Candidate F => noCutCount (routed a)) = fun _ => 1 := by
    funext a
    rw [routed_eq_dispatch, noCutCount_dispatch]
  rw [this]
  simp

/-- C3: the scored candidates of an event are read off the track table: one
for each ordered triplet of rows that passes every guard of the loops, in loop
order, as many as the sum of the values filled in `event/candperdeuteron`. The
registry after `process` is, scored candidate by scored candidate, the pair of
entries `routed`: the no-cut group of the candidate's flavour, then the cut
group of that flavour when `iscut` and the passing group otherwise, both
entries holding the same candidate (hence the same twenty-five values). For
every entry the flavour of the group is `issig`, a passing group holds
candidates that are not cut and a cut group candidates that are cut, so no
candidate has an entry in a passing and an entry in a cut group. -/
theorem C3_two_buckets_per_candidate (cfg : Config F) (env : Env F) (coll : Collision F)
    (tracks : List (Track F)) :
    (process cfg env coll tracks).fills =
      (scoredCandidates cfg env coll tracks).flatMap routed ∧
    (scoredCandidates cfg env coll tracks).map (fun c => (c.track1, c.track2, c.track3)) =
      (triplets tracks).filter (fun t => decide (Viable cfg env coll t.1 t.2.1 t.2.2)) ∧
    ((scoredCandidates cfg env coll tracks).length : Int) =
      (process cfg env coll tracks).candperdeuteron.sum ∧
    (∀ c : Candidate F,
      (routed c).map Fill.cand = [c, c] ∧
      (routed c).map (fun f => FillHistos env.libm f.cand) =
        [FillHistos env.libm c, FillHistos env.libm c] ∧
      (routed c).map (fun f => f.tag.isNoCut) = [true, false] ∧
      (routed c).map (fun f => f.tag.isSignal) = [c.issig, c.issig] ∧
      (routed c).map (fun f => f.tag.isPassing) = [false, !c.iscut] ∧
      (routed c).map (fun f => f.tag.isCutGroup) = [false, c.iscut]) ∧
    (∀ f ∈ (process cfg env coll tracks).fills,
      f.cand ∈ scoredCandidates cfg env coll tracks ∧
      f.tag.isSignal = f.cand.issig ∧
      (f.tag.isPassing = true → f.cand.iscut = false) ∧
      (f.tag.isCutGroup = true → f.cand.iscut = true)) ∧
    ∀ f ∈ (process cfg env coll tracks).fills, ∀ g ∈ (process cfg env coll tracks).fills,
      f.cand = g.cand → ¬ (f.tag.isPassing = true ∧ g.tag.isCutGroup = true) := by
  have hentry : ∀ f ∈ (process cfg env coll tracks).fills,
      f.cand ∈ scoredCandidates cfg env coll tracks ∧
      f.tag.isSignal = f.cand.issig ∧
      (f.tag.isPassing = true → f.cand.iscut = false) ∧
      (f.tag.isCutGroup = true → f.cand.iscut = true) := by
    intro f hf
    rw [process_fills_routed, List.mem_flatMap] at hf
    obtain ⟨c, hc, hm⟩ := hf
    rw [routed_eq_dispatch] at hm
    rcases (mem_dispatch _ f).mp hm with h | h <;> subst h <;>
      refine ⟨hc, ?_⟩ <;>
      cases c.issig <;> cases c.iscut <;>
      simp [Tag.isSignal, Tag.isPassing, Tag.isCutGroup]
  refine ⟨process_fills_routed cfg env coll tracks, scoredCandidates_triplets cfg env coll tracks,
    scoredCandidates_length cfg env coll tracks, ?_, hentry, ?_⟩
  · intro c
    unfold routed
    cases c.issig <;> cases c.iscut <;>
      simp [Tag.isNoCut, Tag.isSignal, Tag.isPassing, Tag.isCutGroup]
  · intro f hf g hg he h
    have h1 := (hentry f hf).2.2.1 h.1
    have h2 := (hentry g hg).2.2.2 h.2
    rw [he, h2] at h1
    exact Bool.noConfusion h1

theorem sample_scoredCandidates (cfg : Config F) (m : Libm F) :
    scoredCandidates cfg (sampleEnv m sampleProp 1) sampleColl
        [sampleDeuteron, sampleKaon, samplePion] =
      [scored cfg (sampleEnv m sampleProp 1) sampleColl sampleDeuteron sampleKaon samplePion
        (1 / 100, 1 / 100) (1 / 100, 1 / 100) (1 / 100, 1 / 100)] := by
  have hn : ∀ t1 t2 t3 : Track F,
      ¬ (t1.mcParticle.pdgCode = 1000010020 ∧ t2.mcParticle.pdgCode = -321 ∧
        t3.mcParticle.pdgCode = 211) →
      tripletCandidates cfg (sampleEnv m sampleProp 1) sampleColl t1 t2 t3 = [] := by
    intro t1 t2 t3 h
    unfold tripletCandidates
    rw [if_neg (fun hv => h ⟨hv.1, hv.2.1, hv.2.2.1⟩)]
  have hy : tripletCandidates cfg (sampleEnv m sampleProp 1) sampleColl
      sampleDeuteron sampleKaon samplePion =
      [scored cfg (sampleEnv m sampleProp 1) sampleColl sampleDeuteron sampleKaon samplePion
        (1 / 100, 1 / 100) (1 / 100, 1 / 100) (1 / 100, 1 / 100)] := by
    unfold tripletCandidates
    rw [if_pos (sample_viable_at cfg m sampleColl)]
    rfl
  unfold scoredCandidates triplets
  simp only [List.flatMap_cons, List.flatMap_nil, List.map_cons, List.map_nil, List.append_nil,
    List.cons_append, List.nil_append]
  rw [hy]
  repeat rw [hn _ _ _ (by simp [sampleDeuteron, sampleKaon, samplePion, sampleTrack])]
  rfl


/-- Witness of C3 on the sample event (real arithmetic, default
configuration): one candidate is scored, the sum of the values filled in
`event/candperdeuteron` is 1, and the registry holds exactly its two entries,
first in `signocut`, then in `sig`. -/
theorem C3_two_buckets_per_candidate_witness :
    (process (Config.default ℝ)
        (sampleEnv ⟨Real.sqrt, Real.cos, Real.sin, Real.sinh⟩ sampleProp 1) sampleColl
        [sampleDeuteron, sampleKaon, samplePion]).fills =
      [Fill.mk Tag.signocut
          (scored (Config.default ℝ)
            (sampleEnv ⟨Real.sqrt, Real.cos, Real.sin, Real.sinh⟩ sampleProp 1) sampleColl
            sampleDeuteron sampleKaon samplePion
            (1 / 100, 1 / 100) (1 / 100, 1 / 100) (1 / 100, 1 / 100)),
        Fill.mk Tag.sig
          (scored (Config.default ℝ)
            (sampleEnv ⟨Real.sqrt, Real.cos, Real.sin, Real.sinh⟩ sampleProp 1) sampleColl
            sampleDeuteron sampleKaon samplePion
            (1 / 100, 1 / 100) (1 / 100, 1 / 100) (1 / 100, 1 / 100))] ∧
    (process (Config.default ℝ)
        (sampleEnv ⟨Real.sqrt, Real.cos, Real.sin, Real.sinh⟩ sampleProp 1) sampleColl
        [sampleDeuteron, sampleKaon, samplePion]).candperdeuteron.sum = 1 := by
  have h := C3_two_buckets_per_candidate (Config.default ℝ)
    (sampleEnv ⟨Real.sqrt, Real.cos, Real.sin, Real.sinh⟩ sampleProp 1) sampleColl
    [sampleDeuteron, sampleKaon, samplePion]
  have hs : (scored (Config.default ℝ)
      (sampleEnv ⟨Real.sqrt, Real.cos, Real.sin, Real.sinh⟩ sampleProp 1) sampleColl
      sampleDeuteron sampleKaon samplePion
      (1 / 100, 1 / 100) (1 / 100, 1 / 100) (1 / 100, 1 / 100)).issig = true := by
    show issig (sampleDeuteron : Track ℝ) sampleKaon samplePion = true
    exact (issig_iff (sampleDeuteron : Track ℝ) sampleKaon samplePion).mpr ⟨rfl, rfl⟩
  have hc : (scored (Config.default ℝ)
      (sampleEnv ⟨Real.sqrt, Real.cos, Real.sin, Real.sinh⟩ sampleProp 1) sampleColl
      sampleDeuteron sampleKaon samplePion
      (1 / 100, 1 / 100) (1 / 100, 1 / 100) (1 / 100, 1 / 100)).iscut = false := by
    rw [← Bool.not_eq_true, scored_iscut_cutClauses]
    exact not_cutClauses_of_cutsDisabledFor _ _ _ sample_cutsDisabled
  constructor
  · rw [h.1, sample_scoredCandidates, List.flatMap_singleton]
    unfold routed
    rw [hs, hc]
    rfl
  · rw [← h.2.2.1, sample_scoredCandidates]
    rfl

end Alice3CDeuteron

namespace HfCorrelatorD0D0bar

variable {F : Type} [LinearOrderedField F]

/-! ## getDeltaPhi -/

theorem constrainAngleUp_spec (twoPi : F) (min : F) (fuel : Nat) :
    ∀ angle : F, min - angle ≤ fuel * twoPi →
      ∃ k : Nat, constrainAngleUp twoPi (fuel + 1) angle min = some (angle + k * twoPi) ∧
        min ≤ angle + k * twoPi ∧ (angle + k * twoPi < min + twoPi ∨ k = 0) := by
  induction fuel with
  | zero =>
    intro angle h
    have hge : ¬ angle < min := by
      simp only [Nat.cast_zero, zero_mul] at h
      exact not_lt.mpr (by linarith)
    refine ⟨0, ?_, ?_, Or.inr rfl⟩
    · unfold constrainAngleUp
      rw [if_neg hge]
      simp
    · simp only [Nat.cast_zero, zero_mul, add_zero]
      exact not_lt.mp hge
  | succ n ih =>
    intro angle h
    by_cases hlt : angle < min
    · have h' : min - (angle + twoPi) ≤ n * twoPi := by
        push_cast at h
        linarith
      obtain ⟨k, hk, hmin, hor⟩ := ih (angle + twoPi) h'
      refine ⟨k + 1, ?_, ?_, Or.inl ?_⟩
      · unfold constrainAngleUp
        rw [if_pos hlt, hk]
        push_cast
        congr 1
        ring
      · push_cast
        linarith
      · push_cast
        rcases hor with hor | hor
        · linarith
        · rw [hor]
          simp only [Nat.cast_zero, zero_add, one_mul]
          linarith
    · refine ⟨0, ?_, ?_, Or.inr rfl⟩
      · unfold constrainAngleUp
        rw [if_neg hlt]
        simp
      · simp only [Nat.cast_zero, zero_mul, add_zero]
        exact not_lt.mp hlt

theorem constrainAngleDown_spec (twoPi : F) (min : F) (fuel : Nat) :
    ∀ angle : F, min ≤ angle → angle - (min + twoPi) < fuel * twoPi →
      ∃ k : Nat, constrainAngleDown twoPi (fuel + 1) angle min = some (angle - k * twoPi) ∧
        min ≤ angle - k * twoPi ∧ angle - k * twoPi < min + twoPi := by
  induction fuel with
  | zero =>
    intro angle hmin h
    have hlt : ¬ angle ≥ min + twoPi := by
      simp only [Nat.cast_zero, zero_mul] at h
      exact not_le.mpr (by linarith)
    refine ⟨0, ?_, ?_, ?_⟩
    · unfold constrainAngleDown
      rw [if_neg hlt]
      simp
    · simpa using hmin
    · simpa using not_le.mp hlt
  | succ n ih =>
    intro angle hmin h
    by_cases hge : angle ≥ min + twoPi
    · have h' : angle - twoPi - (min + twoPi) < n * twoPi := by
        push_cast at h
        linarith
      obtain ⟨k, hk, hlo, hhi⟩ := ih (angle - twoPi) (by linarith) h'
      refine ⟨k + 1, ?_, ?_, ?_⟩
      · unfold constrainAngleDown
        rw [if_pos hge, hk]
        push_cast
        congr 1
        ring
      · push_cast
        linarith
      · push_cast
        linarith
    · refine ⟨0, ?_, ?_, ?_⟩
      · unfold constrainAngleDown
        rw [if_neg hge]
        simp
      · simpa using hmin
      · simpa using not_le.mp hge

theorem constrainAngleUp_mono (twoPi : F) (min : F) (fuel : Nat) :
    ∀ (angle r : F), constrainAngleUp twoPi fuel angle min = some r →
      ∀ fuel', fuel ≤ fuel' → constrainAngleUp twoPi fuel' angle min = some r := by
  induction fuel with
  | zero =>
    intro angle r h
    exact absurd h (by simp [constrainAngleUp])
  | succ n ih =>
    intro angle r h fuel' hle
    obtain ⟨m, rfl⟩ : ∃ m, fuel' = m + 1 := ⟨fuel' - 1, by omega⟩
    unfold constrainAngleUp at h ⊢
    by_cases hlt : angle < min
    · rw [if_pos hlt] at h ⊢
      exact ih _ _ h m (by omega)
    · rw [if_neg hlt] at h ⊢
      exact h

theorem constrainAngleDown_mono (twoPi : F) (min : F) (fuel : Nat) :
    ∀ (angle r : F), constrainAngleDown twoPi fuel angle min = some r →
      ∀ fuel', fuel ≤ fuel' → constrainAngleDown twoPi fuel' angle min = some r := by
  induction fuel with
  | zero =>
    intro angle r h
    exact absurd h (by simp [constrainAngleDown])
  | succ n ih =>
    intro angle r h fuel' hle
    obtain ⟨m, rfl⟩ : ∃ m, fuel' = m + 1 := ⟨fuel' - 1, by omega⟩
    unfold constrainAngleDown at h ⊢
    by_cases hge : angle ≥ min + twoPi
    · rw [if_pos hge] at h ⊢
      exact ih _ _ h m (by omega)
    · rw [if_neg hge] at h ⊢
      exact h

/-- With enough fuel the two loops of `constrainAngle` end, and the result
is in the half-open range from `min` to `min + 2 pi` and differs from `angle`
by a whole number of turns. -/
theorem constrainAngle_spec [Archimedean F] (pi : F) (hpi : 0 < pi) (angle min : F) :
    ∃ (N : Nat) (r : F) (k : Int),
      (∀ fuel, N ≤ fuel → constrainAngle pi fuel angle min = some r) ∧
      min ≤ r ∧ r < min + 2 * pi ∧ r - angle = k * (2 * pi) := by
  have hpos : (0 : F) < 2 * pi := by linarith
  obtain ⟨n1, hn1⟩ := exists_nat_ge ((min - angle) / (2 * pi))
  have hn1' : min - angle ≤ n1 * (2 * pi) := by
    rw [div_le_iff₀ hpos] at hn1
    exact hn1
  obtain ⟨k1, hk1, hlo1, -⟩ := constrainAngleUp_spec (2 * pi) min n1 angle hn1'
  obtain ⟨n2, hn2⟩ := exists_nat_gt ((angle + k1 * (2 * pi) - (min + 2 * pi)) / (2 * pi))
  have hn2' : angle + k1 * (2 * pi) - (min + 2 * pi) < n2 * (2 * pi) := by
    rw [div_lt_iff₀ hpos] at hn2
    exact hn2
  obtain ⟨k2, hk2, hlo2, hhi2⟩ :=
    constrainAngleDown_spec (2 * pi) min n2 (angle + k1 * (2 * pi)) hlo1 hn2'
  refine ⟨max n1 n2 + 1, angle + k1 * (2 * pi) - k2 * (2 * pi), (k1 : Int) - (k2 : Int),
    ?_, hlo2, hhi2, ?_⟩
  · intro fuel hfuel
    unfold constrainAngle
    rw [constrainAngleUp_mono (2 * pi) min (n1 + 1) angle _ hk1 fuel (by omega)]
    exact constrainAngleDown_mono (2 * pi) min (n2 + 1) _ _ hk2 fuel (by omega)
  · push_cast
    ring

/-- C19: for all real `phiD` and `phiDbar` the loops of `getDeltaPhi` end
(every sufficient fuel gives the same result), the result is in the range
from `-pi/2` to `3 pi/2` and differs from `phiDbar - phiD` by an integer
multiple of `2 pi`. -/
theorem C19_getDeltaPhi_range (phiD phiDbar : ℝ) :
    ∃ (N : Nat) (r : ℝ) (k : Int),
      (∀ fuel, N ≤ fuel → getDeltaPhi Real.pi fuel phiD phiDbar = some r) ∧
      -Real.pi / 2 ≤ r ∧ r ≤ 3 * Real.pi / 2 ∧
      r - (phiDbar - phiD) = k * (2 * Real.pi) := by
  obtain ⟨N, r, k, hN, hlo, hhi, hk⟩ :=
    constrainAngle_spec Real.pi Real.pi_pos (phiDbar - phiD) (-Real.pi / 2)
  refine ⟨N, r, k, hN, hlo, ?_, hk⟩
  linarith

/-! ## The pair status of processMcRec -/

omit [LinearOrderedField F] in
theorem decayBit_pos (env : CorrelatorEnv F) : 0 < decayBit env := by
  unfold decayBit
  rw [Nat.shiftLeft_eq]
  positivity

omit [LinearOrderedField F] in
theorem status_eq_documented (env : CorrelatorEnv F) (c1 c2 : HfCandidate F) :
    pairSignalStatus (decide (c1.flagMCMatchRec = decayBit env))
      (decide (c1.flagMCMatchRec = -decayBit env))
      (decide (c2.flagMCMatchRec = -decayBit env))
      (decide (c2.flagMCMatchRec = decayBit env)) =
      documentedStatus (classD0 env c1) (classD0bar env c2) := by
  have hb := decayBit_pos env
  have h1 : ¬ decayBit env = -decayBit env := by omega
  have h2 : ¬ -decayBit env = decayBit env := by omega
  unfold classD0 classD0bar pairSignalStatus
  by_cases a : c1.flagMCMatchRec = decayBit env <;>
    by_cases b : c1.flagMCMatchRec = -decayBit env <;>
    by_cases c : c2.flagMCMatchRec = -decayBit env <;>
    by_cases d : c2.flagMCMatchRec = decayBit env <;>
    first
    | (exfalso; omega)
    | simp [a, b, c, d, h1, h2, documentedStatus]

omit [LinearOrderedField F] in
theorem documentedStatus_eq (a b : MatchClass) :
    documentedStatus a b = 3 * a.code + b.code ∧ 0 ≤ documentedStatus a b ∧
      documentedStatus a b ≤ 8 := by
  cases a <;> cases b <;> decide

theorem mcRecInner_statusDocumented (cfg : CorrelatorConfig F) (env : CorrelatorEnv F)
    (fuel : Nat) (c1 : HfCandidate F) (st : McRecState F) (c2 : HfCandidate F)
    (h : (st.flagD0Signal = decide (c1.flagMCMatchRec = decayBit env) ∧
      st.flagD0Reflection = decide (c1.flagMCMatchRec = -decayBit env)) ∧
      StatusDocumented env st) :
    ((mcRecInner cfg env fuel c1 st c2).flagD0Signal =
        decide (c1.flagMCMatchRec = decayBit env) ∧
      (mcRecInner cfg env fuel c1 st c2).flagD0Reflection =
        decide (c1.flagMCMatchRec = -decayBit env)) ∧
      StatusDocumented env (mcRecInner cfg env fuel c1 st c2) := by
  obtain ⟨⟨hs, hr⟩, hd⟩ := h
  unfold mcRecInner
  dsimp only
  split_ifs <;> first
    | exact ⟨⟨hs, hr⟩, hd⟩
    | (refine ⟨⟨hs, hr⟩, ?_⟩
       intro e he
       dsimp only at he
       rcases List.mem_append.mp he with he | he
       · exact hd e he
       · rw [List.mem_singleton.mp he]
         dsimp only
         rw [hs, hr]
         exact status_eq_documented env c1 c2)

theorem mcRecOuter_statusDocumented (cfg : CorrelatorConfig F) (env : CorrelatorEnv F)
    (fuel : Nat) (candidates : List (HfCandidate F)) (st : McRecState F) (c1 : HfCandidate F)
    (h : StatusDocumented env st) :
    StatusDocumented env (mcRecOuter cfg env fuel candidates st c1) := by
  unfold mcRecOuter
  dsimp only
  cases efficiencyWeight cfg env c1.pt <;> dsimp only <;> split_ifs <;> first
    | exact h
    | exact (Alice3CDeuteron.foldl_invariant
        (fun s => (s.flagD0Signal = decide (c1.flagMCMatchRec = decayBit env) ∧
          s.flagD0Reflection = decide (c1.flagMCMatchRec = -decayBit env)) ∧
          StatusDocumented env s) (mcRecInner cfg env fuel c1)
        (fun s a hs => mcRecInner_statusDocumented cfg env fuel c1 s a hs) candidates
        { st with
          flagD0Signal := decide (c1.flagMCMatchRec = decayBit env),
          flagD0Reflection := decide (c1.flagMCMatchRec = -decayBit env) }
        ⟨⟨rfl, rfl⟩, h⟩).2

/-- Every row written by `processMcRec` follows the documented table. -/
theorem processMcRec_statusDocumented (cfg : CorrelatorConfig F) (env : CorrelatorEnv F)
    (fuel : Nat) (numContrib : Int) (tracks : List (TrackExtended F))
    (candidates : List (HfCandidate F)) :
    StatusDocumented env (processMcRec cfg env fuel numContrib tracks candidates) := by
  have h0 : StatusDocumented env (mcRecInit : McRecState F) :=
    fun e he => absurd he (List.not_mem_nil e)
  unfold processMcRec
  dsimp only
  split_ifs
  · exact h0
  · exact Alice3CDeuteron.foldl_invariant (StatusDocumented env) _
      (fun s a hs => mcRecOuter_statusDocumented cfg env fuel candidates s a hs) candidates _ h0

/-- C20: every row written by `processMcRec` has the `pairSignalStatus` of
the documented table for the class of candidate1 taken as D0 and the class of
candidate2 taken as D0bar, that is three times the number of the first class
plus the number of the second (background 0, reflection 1, signal 2); it lies
between 0 and 8, and different pairs of classes have different values. -/
theorem C20_pairSignalStatus_table (cfg : CorrelatorConfig F) (env : CorrelatorEnv F)
    (fuel : Nat) (numContrib : Int) (tracks : List (TrackExtended F))
    (candidates : List (HfCandidate F)) (e : PairEntry F)
    (he : e ∈ (processMcRec cfg env fuel numContrib tracks candidates).entries) :
    e.signalStatus =
      documentedStatus (classD0 env e.candidate1) (classD0bar env e.candidate2) ∧
    e.signalStatus =
      3 * (classD0 env e.candidate1).code + (classD0bar env e.candidate2).code ∧
    0 ≤ e.signalStatus ∧ e.signalStatus ≤ 8 ∧
    ∀ a b a' b' : MatchClass,
      3 * a.code + b.code = 3 * a'.code + b'.code → a = a' ∧ b = b' := by
  have h := processMcRec_statusDocumented cfg env fuel numContrib tracks candidates e he
  obtain ⟨h1, h2, h3⟩ :=
    documentedStatus_eq (classD0 env e.candidate1) (classD0bar env e.candidate2)
  refine ⟨h, by rw [h, h1], by rw [h]; exact h2, by rw [h]; exact h3, ?_⟩
  intro a b a' b'
  cases a <;> cases b <;> cases a' <;> cases b' <;> decide

/-- The rows of the sample event: a candidate selected as D0 and matched to a
D0, a candidate selected as D0bar and matched to a D0bar. -/
theorem sample_entries (pi : F) (fuel : Nat) :
    (processMcRec sampleConfig (sampleCorrelatorEnv pi) fuel 2 []
      [sampleCandidate 0 1 0 1 0, sampleCandidate 1 0 1 (-1) 1]).entries =
      [{ candidate1 := sampleCandidate 0 1 0 1 0, candidate2 := sampleCandidate 1 0 1 (-1) 1,
         deltaPhi := getDeltaPhi pi fuel 1 0, deltaEta := 0 - 0, ptD := 3, ptDbar := 3,
         mD0 := 1864 / 1000, mD0bar := 1864 / 1000, signalStatus := 8 }] := by
  norm_num [processMcRec, mcRecOuter, mcRecInner, countTracks, mcRecInit, sampleConfig,
    sampleCorrelatorEnv, sampleCandidate, hasDecayFlag, decayBit, efficiencyWeight,
    pairSignalStatus]

/-- Witness of C20 on the sample event (real arithmetic): the registry holds a
row, of status 8, signal with signal. -/
theorem C20_pairSignalStatus_table_witness :
    ∃ e ∈ (processMcRec sampleConfig (sampleCorrelatorEnv Real.pi) 8 2 []
        [sampleCandidate 0 1 0 1 0, sampleCandidate 1 0 1 (-1) 1]).entries,
      e.signalStatus = 8 ∧
      e.signalStatus =
        documentedStatus (classD0 (sampleCorrelatorEnv Real.pi) e.candidate1)
          (classD0bar (sampleCorrelatorEnv Real.pi) e.candidate2) :=
  ⟨_, by rw [sample_entries]; exact List.mem_singleton.mpr rfl, rfl,
    (C20_pairSignalStatus_table sampleConfig (sampleCorrelatorEnv Real.pi) 8 2 []
      [sampleCandidate 0 1 0 1 0, sampleCandidate 1 0 1 (-1) 1] _
      (by rw [sample_entries]; exact List.mem_singleton.mpr rfl)).1⟩

/-! ## The pairs written by processData and processMcRec -/

theorem foldl_invariant_mem {σ α : Type} (P : σ → Prop) (f : σ → α → σ) (l : List α)
    (hstep : ∀ s, ∀ a ∈ l, P s → P (f s a)) (s : σ) (hs : P s) : P (l.foldl f s) := by
  induction l generalizing s with
  | nil => exact hs
  | cons a l ih =>
    exact ih (fun s b hb => hstep s b (List.mem_cons_of_mem a hb)) (f s a)
      (hstep s a (List.mem_cons_self a l) hs)

theorem dataInner_cases (cfg : CorrelatorConfig F) (env : CorrelatorEnv F) (fuel : Nat)
    (c1 : HfCandidate F) (st : DataState F) (c2 : HfCandidate F) :
    (dataInner cfg env fuel c1 st c2).aborted = st.aborted ∧
    ((¬ (SelectedD0bar cfg env c2 ∧ c1.mRowIndex ≠ c2.mRowIndex) ∧
        (dataInner cfg env fuel c1 st c2).entries = st.entries) ∨
      ((SelectedD0bar cfg env c2 ∧ c1.mRowIndex ≠ c2.mRowIndex) ∧
        ∃ e : PairEntry F, e.candidate1 = c1 ∧ e.candidate2 = c2 ∧
          (dataInner cfg env fuel c1 st c2).entries = st.entries ++ [e])) := by
  unfold dataInner SelectedD0bar PassKinematics
  split_ifs with h1 h2 h3 h4 h5
  · exact ⟨rfl, Or.inl ⟨fun h => by rw [h.1.1] at h1; exact Bool.noConfusion h1, rfl⟩⟩
  · exact ⟨rfl, Or.inl ⟨fun h => absurd h2 (not_lt.mpr h.1.2.1), rfl⟩⟩
  · exact ⟨rfl, Or.inl ⟨fun h => h.1.2.2.1 h3, rfl⟩⟩
  · exact ⟨rfl, Or.inl ⟨fun h => h.1.2.2.2 h4, rfl⟩⟩
  · exact ⟨rfl, Or.inl ⟨fun h => h.2 h5, rfl⟩⟩
  · refine ⟨rfl, Or.inr ⟨⟨⟨?_, not_lt.mp h2, h3, h4⟩, h5⟩, _, rfl, rfl, rfl⟩⟩
    cases h : hasDecayFlag env c2
    · exact absurd h h1
    · rfl


theorem dataInnerLoop_spec (cfg : CorrelatorConfig F) (env : CorrelatorEnv F) (fuel : Nat)
    (c1 : HfCandidate F) (l : List (HfCandidate F)) (st : DataState F) :
    (l.foldl (dataInner cfg env fuel c1) st).aborted = st.aborted ∧
    ∃ suffix : List (PairEntry F),
      (l.foldl (dataInner cfg env fuel c1) st).entries = st.entries ++ suffix ∧
      (∀ e ∈ suffix, e.candidate1 = c1 ∧ e.candidate2 ∈ l ∧
        SelectedD0bar cfg env e.candidate2 ∧ c1.mRowIndex ≠ e.candidate2.mRowIndex) ∧
      (∀ c2 ∈ l, SelectedD0bar cfg env c2 → c1.mRowIndex ≠ c2.mRowIndex →
        ∃ e ∈ suffix, e.candidate1 = c1 ∧ e.candidate2 = c2) := by
  induction l generalizing st with
  | nil => exact ⟨rfl, [], by simp, by simp, by simp⟩
  | cons c2 l ih =>
    rw [List.foldl_cons]
    obtain ⟨ha, suf, he, hs, hc⟩ := ih (dataInner cfg env fuel c1 st c2)
    obtain ⟨ha0, h0⟩ := dataInner_cases cfg env fuel c1 st c2
    refine ⟨ha.trans ha0, ?_⟩
    rcases h0 with ⟨hn, hst⟩ | ⟨hy, e, e1, e2, hst⟩
    · rw [hst] at he
      refine ⟨suf, he, ?_, ?_⟩
      · intro x hx
        obtain ⟨a, b, c, d⟩ := hs x hx
        exact ⟨a, List.mem_cons_of_mem _ b, c, d⟩
      · intro c hcm hsel hdiff
        rcases List.mem_cons.mp hcm with rfl | hcm
        · exact absurd ⟨hsel, hdiff⟩ hn
        · exact hc c hcm hsel hdiff
    · rw [hst, List.append_assoc] at he
      refine ⟨[e] ++ suf, he, ?_, ?_⟩
      · intro x hx
        rcases List.mem_append.mp hx with hx | hx
        · rw [List.mem_singleton] at hx
          rw [hx, e1, e2]
          exact ⟨rfl, List.mem_cons_self _ _, hy.1, hy.2⟩
        · obtain ⟨a, b, c, d⟩ := hs x hx
          exact ⟨a, List.mem_cons_of_mem _ b, c, d⟩
      · intro c hcm hsel hdiff
        rcases List.mem_cons.mp hcm with rfl | hcm
        · exact ⟨e, by simp, e1, e2⟩
        · obtain ⟨x, hx, hx1, hx2⟩ := hc c hcm hsel hdiff
          exact ⟨x, List.mem_append_right _ hx, hx1, hx2⟩

theorem dataOuter_spec (cfg : CorrelatorConfig F) (env : CorrelatorEnv F) (fuel : Nat)
    (candidates : List (HfCandidate F)) (st : DataState F) (c1 : HfCandidate F) :
    ∃ suffix : List (PairEntry F),
      (dataOuter cfg env fuel candidates st c1).entries = st.entries ++ suffix ∧
      (∀ e ∈ suffix, e.candidate1 = c1 ∧ SelectedD0 cfg env c1 ∧ e.candidate2 ∈ candidates ∧
        SelectedD0bar cfg env e.candidate2 ∧ c1.mRowIndex ≠ e.candidate2.mRowIndex) ∧
      ((dataOuter cfg env fuel candidates st c1).aborted = false →
        st.aborted = false ∧
        (Preselected cfg env c1 → (efficiencyWeight cfg env c1.pt).isSome = true) ∧
        (SelectedD0 cfg env c1 → ∀ c2 ∈ candidates, SelectedD0bar cfg env c2 →
          c1.mRowIndex ≠ c2.mRowIndex → ∃ e ∈ suffix, e.candidate1 = c1 ∧ e.candidate2 = c2)) := by
  unfold dataOuter
  by_cases hab : st.aborted = true
  · rw [if_pos hab]
    refine ⟨[], by simp, by simp, ?_⟩
    intro h
    rw [hab] at h
    exact Bool.noConfusion h
  rw [if_neg hab]
  have hab' : st.aborted = false := by
    cases h : st.aborted
    · rfl
    · exact absurd h hab
  by_cases hy : cfg.cutYCandMax ≥ 0 ∧ |env.YD0 c1| > cfg.cutYCandMax
  · rw [if_pos hy]
    exact ⟨[], by simp, by simp, fun _ => ⟨hab', fun h => absurd hy h.1.1,
      fun h => absurd hy h.1.1.1⟩⟩
  rw [if_neg hy]
  by_cases hp : cfg.cutPtCandMin ≥ 0 ∧ c1.pt < cfg.cutPtCandMin
  · rw [if_pos hp]
    exact ⟨[], by simp, by simp, fun _ => ⟨hab', fun h => absurd hp h.1.2,
      fun h => absurd hp h.1.1.2⟩⟩
  rw [if_neg hp]
  by_cases hd : hasDecayFlag env c1 = false
  · rw [if_pos hd]
    refine ⟨[], by simp, by simp, fun _ => ⟨hab', fun h => ?_, fun h => ?_⟩⟩
    · rw [h.2] at hd
      exact Bool.noConfusion hd
    · rw [h.1.2] at hd
      exact Bool.noConfusion hd
  rw [if_neg hd]
  have hd' : hasDecayFlag env c1 = true := by
    cases h : hasDecayFlag env c1
    · exact absurd h hd
    · rfl
  cases hw : efficiencyWeight cfg env c1.pt with
  | none =>
    dsimp only
    refine ⟨[], by simp, by simp, fun h => ?_⟩
    exact Bool.noConfusion h
  | some w =>
    dsimp only
    by_cases hs : c1.isSelD0 < cfg.selectionFlagD0
    · rw [if_pos hs]
      exact ⟨[], by simp, by simp, fun _ => ⟨hab', fun _ => rfl,
        fun h => absurd hs (not_lt.mpr h.2)⟩⟩
    · rw [if_neg hs]
      obtain ⟨-, suf, he, hsound, hcomp⟩ := dataInnerLoop_spec cfg env fuel c1 candidates st
      have hsel : SelectedD0 cfg env c1 := ⟨⟨⟨hy, hp⟩, hd'⟩, not_lt.mp hs⟩
      refine ⟨suf, he, ?_, fun _ => ⟨hab', fun _ => rfl, fun _ => hcomp⟩⟩
      intro e hm
      obtain ⟨a, b, c, d⟩ := hsound e hm
      exact ⟨a, hsel, b, c, d⟩

theorem dataOuterLoop_spec (cfg : CorrelatorConfig F) (env : CorrelatorEnv F) (fuel : Nat)
    (candidates : List (HfCandidate F)) (l : List (HfCandidate F)) (st : DataState F) :
    ∃ suffix : List (PairEntry F),
      (l.foldl (dataOuter cfg env fuel candidates) st).entries = st.entries ++ suffix ∧
      (∀ e ∈ suffix, e.candidate1 ∈ l ∧ SelectedD0 cfg env e.candidate1 ∧
        e.candidate2 ∈ candidates ∧ SelectedD0bar cfg env e.candidate2 ∧
        e.candidate1.mRowIndex ≠ e.candidate2.mRowIndex) ∧
      ((l.foldl (dataOuter cfg env fuel candidates) st).aborted = false →
        st.aborted = false ∧
        ∀ c1 ∈ l, (Preselected cfg env c1 → (efficiencyWeight cfg env c1.pt).isSome = true) ∧
          (SelectedD0 cfg env c1 → ∀ c2 ∈ candidates, SelectedD0bar cfg env c2 →
            c1.mRowIndex ≠ c2.mRowIndex →
            ∃ e ∈ suffix, e.candidate1 = c1 ∧ e.candidate2 = c2)) := by
  induction l generalizing st with
  | nil => exact ⟨[], by simp, by simp, fun h => ⟨h, by simp⟩⟩
  | cons c l ih =>
    rw [List.foldl_cons]
    obtain ⟨suf, he, hs, hc⟩ := ih (dataOuter cfg env fuel candidates st c)
    obtain ⟨suf0, he0, hs0, hc0⟩ := dataOuter_spec cfg env fuel candidates st c
    rw [he0, List.append_assoc] at he
    refine ⟨suf0 ++ suf, he, ?_, ?_⟩
    · intro e hm
      rcases List.mem_append.mp hm with hm | hm
      · obtain ⟨a, b, c', d, f⟩ := hs0 e hm
        rw [a]
        exact ⟨List.mem_cons_self _ _, b, c', d, f⟩
      · obtain ⟨a, b, c', d, f⟩ := hs e hm
        exact ⟨List.mem_cons_of_mem _ a, b, c', d, f⟩
    · intro hab
      obtain ⟨hab1, hrest⟩ := hc hab
      obtain ⟨hab0, hw0, hcomp0⟩ := hc0 hab1
      refine ⟨hab0, ?_⟩
      intro c1 hm
      rcases List.mem_cons.mp hm with rfl | hm
      · refine ⟨hw0, fun hsel c2 hc2 hsel2 hdiff => ?_⟩
        obtain ⟨e, hx, h1, h2⟩ := hcomp0 hsel c2 hc2 hsel2 hdiff
        exact ⟨e, List.mem_append_left _ hx, h1, h2⟩
      · refine ⟨(hrest c1 hm).1, fun hsel c2 hc2 hsel2 hdiff => ?_⟩
        obtain ⟨e, hx, h1, h2⟩ := (hrest c1 hm).2 hsel c2 hc2 hsel2 hdiff
        exact ⟨e, List.mem_append_right _ hx, h1, h2⟩


theorem mcRecInner_cases (cfg : CorrelatorConfig F) (env : CorrelatorEnv F) (fuel : Nat)
    (c1 : HfCandidate F) (st : McRecState F) (c2 : HfCandidate F) :
    (mcRecInner cfg env fuel c1 st c2).aborted = st.aborted ∧
    ((¬ (SelectedD0bar cfg env c2 ∧ c1.mRowIndex ≠ c2.mRowIndex) ∧
        (mcRecInner cfg env fuel c1 st c2).entries = st.entries) ∨
      ((SelectedD0bar cfg env c2 ∧ c1.mRowIndex ≠ c2.mRowIndex) ∧
        ∃ e : PairEntry F, e.candidate1 = c1 ∧ e.candidate2 = c2 ∧
          (mcRecInner cfg env fuel c1 st c2).entries = st.entries ++ [e])) := by
  unfold mcRecInner SelectedD0bar PassKinematics
  dsimp only
  split_ifs with h1 h2 h3 h4 h5
  · exact ⟨rfl, Or.inl ⟨fun h => by rw [h.1.1] at h1; exact Bool.noConfusion h1, rfl⟩⟩
  · exact ⟨rfl, Or.inl ⟨fun h => absurd h2 (not_lt.mpr h.1.2.1), rfl⟩⟩
  · exact ⟨rfl, Or.inl ⟨fun h => h.1.2.2.1 h3, rfl⟩⟩
  · exact ⟨rfl, Or.inl ⟨fun h => h.1.2.2.2 h4, rfl⟩⟩
  · exact ⟨rfl, Or.inl ⟨fun h => h.2 h5, rfl⟩⟩
  · refine ⟨rfl, Or.inr ⟨⟨⟨?_, not_lt.mp h2, h3, h4⟩, h5⟩, _, rfl, rfl, rfl⟩⟩
    cases h : hasDecayFlag env c2
    · exact absurd h h1
    · rfl

theorem mcRecInnerLoop_spec (cfg : CorrelatorConfig F) (env : CorrelatorEnv F) (fuel : Nat)
    (c1 : HfCandidate F) (l : List (HfCandidate F)) (st : McRecState F) :
    (l.foldl (mcRecInner cfg env fuel c1) st).aborted = st.aborted ∧
    ∃ suffix : List (PairEntry F),
      (l.foldl (mcRecInner cfg env fuel c1) st).entries = st.entries ++ suffix ∧
      (∀ e ∈ suffix, e.candidate1 = c1 ∧ e.candidate2 ∈ l ∧
        SelectedD0bar cfg env e.candidate2 ∧ c1.mRowIndex ≠ e.candidate2.mRowIndex) ∧
      (∀ c2 ∈ l, SelectedD0bar cfg env c2 → c1.mRowIndex ≠ c2.mRowIndex →
        ∃ e ∈ suffix, e.candidate1 = c1 ∧ e.candidate2 = c2) := by
  induction l generalizing st with
  | nil => exact ⟨rfl, [], by simp, by simp, by simp⟩
  | cons c2 l ih =>
    rw [List.foldl_cons]
    obtain ⟨ha, suf, he, hs, hc⟩ := ih (mcRecInner cfg env fuel c1 st c2)
    obtain ⟨ha0, h0⟩ := mcRecInner_cases cfg env fuel c1 st c2
    refine ⟨ha.trans ha0, ?_⟩
    rcases h0 with ⟨hn, hst⟩ | ⟨hy, e, e1, e2, hst⟩
    · rw [hst] at he
      refine ⟨suf, he, ?_, ?_⟩
      · intro x hx
        obtain ⟨a, b, c, d⟩ := hs x hx
        exact ⟨a, List.mem_cons_of_mem _ b, c, d⟩
      · intro c hcm hsel hdiff
        rcases List.mem_cons.mp hcm with rfl | hcm
        · exact absurd ⟨hsel, hdiff⟩ hn
        · exact hc c hcm hsel hdiff
    · rw [hst, List.append_assoc] at he
      refine ⟨[e] ++ suf, he, ?_, ?_⟩
      · intro x hx
        rcases List.mem_append.mp hx with hx | hx
        · rw [List.mem_singleton] at hx
          rw [hx, e1, e2]
          exact ⟨rfl, List.mem_cons_self _ _, hy.1, hy.2⟩
        · obtain ⟨a, b, c, d⟩ := hs x hx
          exact ⟨a, List.mem_cons_of_mem _ b, c, d⟩
      · intro c hcm hsel hdiff
        rcases List.mem_cons.mp hcm with rfl | hcm
        · exact ⟨e, by simp, e1, e2⟩
        · obtain ⟨x, hx, hx1, hx2⟩ := hc c hcm hsel hdiff
          exact ⟨x, List.mem_append_right _ hx, hx1, hx2⟩

theorem mcRecOuter_spec (cfg : CorrelatorConfig F) (env : CorrelatorEnv F) (fuel : Nat)
    (candidates : List (HfCandidate F)) (st : McRecState F) (c1 : HfCandidate F) :
    ∃ suffix : List (PairEntry F),
      (mcRecOuter cfg env fuel candidates st c1).entries = st.entries ++ suffix ∧
      (∀ e ∈ suffix, e.candidate1 = c1 ∧ SelectedD0 cfg env c1 ∧ e.candidate2 ∈ candidates ∧
        SelectedD0bar cfg env e.candidate2 ∧ c1.mRowIndex ≠ e.candidate2.mRowIndex) ∧
      ((mcRecOuter cfg env fuel candidates st c1).aborted = false →
        st.aborted = false ∧
        (Preselected cfg env c1 → (efficiencyWeight cfg env c1.pt).isSome = true) ∧
        (SelectedD0 cfg env c1 → ∀ c2 ∈ candidates, SelectedD0bar cfg env c2 →
          c1.mRowIndex ≠ c2.mRowIndex → ∃ e ∈ suffix, e.candidate1 = c1 ∧ e.candidate2 = c2)) := by
  unfold mcRecOuter
  by_cases hab : st.aborted = true
  · rw [if_pos hab]
    refine ⟨[], by simp, by simp, ?_⟩
    intro h
    rw [hab] at h
    exact Bool.noConfusion h
  rw [if_neg hab]
  have hab' : st.aborted = false := by
    cases h : st.aborted
    · rfl
    · exact absurd h hab
  by_cases hd : hasDecayFlag env c1 = false
  · rw [if_pos hd]
    refine ⟨[], by simp, by simp, fun _ => ⟨hab', fun h => ?_, fun h => ?_⟩⟩
    · rw [h.2] at hd
      exact Bool.noConfusion hd
    · rw [h.1.2] at hd
      exact Bool.noConfusion hd
  rw [if_neg hd]
  have hd' : hasDecayFlag env c1 = true := by
    cases h : hasDecayFlag env c1
    · exact absurd h hd
    · rfl
  by_cases hy : cfg.cutYCandMax ≥ 0 ∧ |env.YD0 c1| > cfg.cutYCandMax
  · rw [if_pos hy]
    exact ⟨[], by simp, by simp, fun _ => ⟨hab', fun h => absurd hy h.1.1,
      fun h => absurd hy h.1.1.1⟩⟩
  rw [if_neg hy]
  by_cases hp : cfg.cutPtCandMin ≥ 0 ∧ c1.pt < cfg.cutPtCandMin
  · rw [if_pos hp]
    exact ⟨[], by simp, by simp, fun _ => ⟨hab', fun h => absurd hp h.1.2,
      fun h => absurd hp h.1.1.2⟩⟩
  rw [if_neg hp]
  cases hw : efficiencyWeight cfg env c1.pt with
  | none =>
    dsimp only
    refine ⟨[], by simp, by simp, fun h => ?_⟩
    exact Bool.noConfusion h
  | some w =>
    dsimp only
    by_cases hs : c1.isSelD0 < cfg.selectionFlagD0
    · rw [if_pos hs]
      exact ⟨[], by simp, by simp, fun _ => ⟨hab', fun _ => rfl,
        fun h => absurd hs (not_lt.mpr h.2)⟩⟩
    · rw [if_neg hs]
      obtain ⟨-, suf, he, hsound, hcomp⟩ := mcRecInnerLoop_spec cfg env fuel c1 candidates
        { st with
          flagD0Signal := decide (c1.flagMCMatchRec = decayBit env),
          flagD0Reflection := decide (c1.flagMCMatchRec = -decayBit env) }
      have hsel : SelectedD0 cfg env c1 := ⟨⟨⟨hy, hp⟩, hd'⟩, not_lt.mp hs⟩
      refine ⟨suf, he, ?_, fun _ => ⟨hab', fun _ => rfl, fun _ => hcomp⟩⟩
      intro e hm
      obtain ⟨a, b, c, d⟩ := hsound e hm
      exact ⟨a, hsel, b, c, d⟩

theorem mcRecOuterLoop_spec (cfg : CorrelatorConfig F) (env : CorrelatorEnv F) (fuel : Nat)
    (candidates : List (HfCandidate F)) (l : List (HfCandidate F)) (st : McRecState F) :
    ∃ suffix : List (PairEntry F),
      (l.foldl (mcRecOuter cfg env fuel candidates) st).entries = st.entries ++ suffix ∧
      (∀ e ∈ suffix, e.candidate1 ∈ l ∧ SelectedD0 cfg env e.candidate1 ∧
        e.candidate2 ∈ candidates ∧ SelectedD0bar cfg env e.candidate2 ∧
        e.candidate1.mRowIndex ≠ e.candidate2.mRowIndex) ∧
      ((l.foldl (mcRecOuter cfg env fuel candidates) st).aborted = false →
        st.aborted = false ∧
        ∀ c1 ∈ l, (Preselected cfg env c1 → (efficiencyWeight cfg env c1.pt).isSome = true) ∧
          (SelectedD0 cfg env c1 → ∀ c2 ∈ candidates, SelectedD0bar cfg env c2 →
            c1.mRowIndex ≠ c2.mRowIndex →
            ∃ e ∈ suffix, e.candidate1 = c1 ∧ e.candidate2 = c2)) := by
  induction l generalizing st with
  | nil => exact ⟨[], by simp, by simp, fun h => ⟨h, by simp⟩⟩
  | cons c l ih =>
    rw [List.foldl_cons]
    obtain ⟨suf, he, hs, hc⟩ := ih (mcRecOuter cfg env fuel candidates st c)
    obtain ⟨suf0, he0, hs0, hc0⟩ := mcRecOuter_spec cfg env fuel candidates st c
    rw [he0, List.append_assoc] at he
    refine ⟨suf0 ++ suf, he, ?_, ?_⟩
    · intro e hm
      rcases List.mem_append.mp hm with hm | hm
      · obtain ⟨a, b, c', d, f⟩ := hs0 e hm
        rw [a]
        exact ⟨List.mem_cons_self _ _, b, c', d, f⟩
      · obtain ⟨a, b, c', d, f⟩ := hs e hm
        exact ⟨List.mem_cons_of_mem _ a, b, c', d, f⟩
    · intro hab
      obtain ⟨hab1, hrest⟩ := hc hab
      obtain ⟨hab0, hw0, hcomp0⟩ := hc0 hab1
      refine ⟨hab0, ?_⟩
      intro c1 hm
      rcases List.mem_cons.mp hm with rfl | hm
      · refine ⟨hw0, fun hsel c2 hc2 hsel2 hdiff => ?_⟩
        obtain ⟨e, hx, h1, h2⟩ := hcomp0 hsel c2 hc2 hsel2 hdiff
        exact ⟨e, List.mem_append_left _ hx, h1, h2⟩
      · refine ⟨(hrest c1 hm).1, fun hsel c2 hc2 hsel2 hdiff => ?_⟩
        obtain ⟨e, hx, h1, h2⟩ := (hrest c1 hm).2 hsel c2 hc2 hsel2 hdiff
        exact ⟨e, List.mem_append_right _ hx, h1, h2⟩

/-- The pairs written by `processData`: every row belongs to a selected pair
of different rows of an accepted event; when the event is accepted and the
processing is not ended by an exception, every candidate that reaches the
efficiency weight has one and every selected pair of different rows has a row. -/
theorem processData_spec (cfg : CorrelatorConfig F) (env : CorrelatorEnv F) (fuel : Nat)
    (numContrib : Int) (tracks : List (TrackExtended F)) (candidates : List (HfCandidate F)) :
    (∀ e ∈ (processData cfg env fuel numContrib tracks candidates).entries,
      PairSelected cfg env candidates e ∧ MultiplicityAccepted cfg numContrib tracks) ∧
    (MultiplicityAccepted cfg numContrib tracks →
      (processData cfg env fuel numContrib tracks candidates).aborted = false →
      ∀ c1 ∈ candidates,
        (Preselected cfg env c1 → (efficiencyWeight cfg env c1.pt).isSome = true) ∧
        (SelectedD0 cfg env c1 → ∀ c2 ∈ candidates, SelectedD0bar cfg env c2 →
          c1.mRowIndex ≠ c2.mRowIndex →
          ∃ e ∈ (processData cfg env fuel numContrib tracks candidates).entries,
            e.candidate1 = c1 ∧ e.candidate2 = c2)) := by
  unfold processData MultiplicityAccepted
  dsimp only
  by_cases hm : ((countTracks numContrib tracks : Int) : F) < cfg.multMin ∨
      ((countTracks numContrib tracks : Int) : F) > cfg.multMax
  · rw [if_pos hm]
    exact ⟨by simp, fun h => absurd hm h⟩
  · rw [if_neg hm]
    obtain ⟨suf, he, hs, hc⟩ := dataOuterLoop_spec cfg env fuel candidates candidates
      { entries := [], aborted := false }
    rw [he]
    simp only [List.nil_append]
    refine ⟨fun e hmem => ⟨⟨(hs e hmem).1, (hs e hmem).2.2.1, (hs e hmem).2.1,
      (hs e hmem).2.2.2⟩, hm⟩, fun _ hab => (hc hab).2⟩

/-- The pairs written by `processMcRec`, as for `processData`. -/
theorem processMcRec_spec (cfg : CorrelatorConfig F) (env : CorrelatorEnv F) (fuel : Nat)
    (numContrib : Int) (tracks : List (TrackExtended F)) (candidates : List (HfCandidate F)) :
    (∀ e ∈ (processMcRec cfg env fuel numContrib tracks candidates).entries,
      PairSelected cfg env candidates e ∧ MultiplicityAccepted cfg numContrib tracks) ∧
    (MultiplicityAccepted cfg numContrib tracks →
      (processMcRec cfg env fuel numContrib tracks candidates).aborted = false →
      ∀ c1 ∈ candidates,
        (Preselected cfg env c1 → (efficiencyWeight cfg env c1.pt).isSome = true) ∧
        (SelectedD0 cfg env c1 → ∀ c2 ∈ candidates, SelectedD0bar cfg env c2 →
          c1.mRowIndex ≠ c2.mRowIndex →
          ∃ e ∈ (processMcRec cfg env fuel numContrib tracks candidates).entries,
            e.candidate1 = c1 ∧ e.candidate2 = c2)) := by
  unfold processMcRec MultiplicityAccepted
  dsimp only
  by_cases hm : ((countTracks numContrib tracks : Int) : F) < cfg.multMin ∨
      ((countTracks numContrib tracks : Int) : F) > cfg.multMax
  · rw [if_pos hm]
    exact ⟨by simp [mcRecInit], fun h => absurd hm h⟩
  · rw [if_neg hm]
    obtain ⟨suf, he, hs, hc⟩ := mcRecOuterLoop_spec cfg env fuel candidates candidates
      mcRecInit
    rw [he]
    simp only [mcRecInit, List.nil_append]
    refine ⟨fun e hmem => ⟨⟨(hs e hmem).1, (hs e hmem).2.2.1, (hs e hmem).2.1,
      (hs e hmem).2.2.2⟩, hm⟩, fun _ hab => (hc hab).2⟩


theorem dataInner_pairValues (cfg : CorrelatorConfig F) (env : CorrelatorEnv F) (fuel : Nat)
    (c1 : HfCandidate F) (st : DataState F) (c2 : HfCandidate F)
    (h : ∀ e ∈ st.entries, PairValues env fuel e) :
    ∀ e ∈ (dataInner cfg env fuel c1 st c2).entries, PairValues env fuel e := by
  unfold dataInner
  split_ifs
  all_goals first
    | exact h
    | (intro e he
       rcases List.mem_append.mp he with he | he
       · exact h e he
       · rw [List.mem_singleton.mp he]
         exact ⟨rfl, rfl, rfl, rfl⟩)

theorem dataOuter_pairValues (cfg : CorrelatorConfig F) (env : CorrelatorEnv F) (fuel : Nat)
    (candidates : List (HfCandidate F)) (st : DataState F) (c1 : HfCandidate F)
    (h : ∀ e ∈ st.entries, PairValues env fuel e) :
    ∀ e ∈ (dataOuter cfg env fuel candidates st c1).entries, PairValues env fuel e := by
  unfold dataOuter
  split_ifs
  all_goals first
    | exact h
    | (cases efficiencyWeight cfg env c1.pt with
       | none => exact h
       | some w =>
         first
           | exact h
           | exact Alice3CDeuteron.foldl_invariant
               (fun s : DataState F => ∀ e ∈ s.entries, PairValues env fuel e)
               (dataInner cfg env fuel c1)
               (fun s a hs => dataInner_pairValues cfg env fuel c1 s a hs) candidates st h)

theorem processData_pairValues (cfg : CorrelatorConfig F) (env : CorrelatorEnv F) (fuel : Nat)
    (numContrib : Int) (tracks : List (TrackExtended F)) (candidates : List (HfCandidate F)) :
    ∀ e ∈ (processData cfg env fuel numContrib tracks candidates).entries,
      PairValues env fuel e := by
  unfold processData
  dsimp only
  split_ifs
  · simp
  · exact Alice3CDeuteron.foldl_invariant
      (fun s : DataState F => ∀ e ∈ s.entries, PairValues env fuel e)
      (dataOuter cfg env fuel candidates)
      (fun s a hs => dataOuter_pairValues cfg env fuel candidates s a hs) candidates
      { entries := [], aborted := false } (by simp)

theorem mcRecInner_pairValues (cfg : CorrelatorConfig F) (env : CorrelatorEnv F) (fuel : Nat)
    (c1 : HfCandidate F) (st : McRecState F) (c2 : HfCandidate F)
    (h : ∀ e ∈ st.entries, PairValues env fuel e) :
    ∀ e ∈ (mcRecInner cfg env fuel c1 st c2).entries, PairValues env fuel e := by
  unfold mcRecInner
  dsimp only
  split_ifs
  all_goals first
    | exact h
    | (intro e he
       rcases List.mem_append.mp he with he | he
       · exact h e he
       · rw [List.mem_singleton.mp he]
         exact ⟨rfl, rfl, rfl, rfl⟩)

theorem mcRecOuter_pairValues (cfg : CorrelatorConfig F) (env : CorrelatorEnv F) (fuel : Nat)
    (candidates : List (HfCandidate F)) (st : McRecState F) (c1 : HfCandidate F)
    (h : ∀ e ∈ st.entries, PairValues env fuel e) :
    ∀ e ∈ (mcRecOuter cfg env fuel candidates st c1).entries, PairValues env fuel e := by
  unfold mcRecOuter
  split_ifs
  all_goals first
    | exact h
    | (cases efficiencyWeight cfg env c1.pt with
       | none => exact h
       | some w =>
         first
           | exact h
           | exact Alice3CDeuteron.foldl_invariant
               (fun s : McRecState F => ∀ e ∈ s.entries, PairValues env fuel e)
               (mcRecInner cfg env fuel c1)
               (fun s a hs => mcRecInner_pairValues cfg env fuel c1 s a hs) candidates _ h)

theorem processMcRec_pairValues (cfg : CorrelatorConfig F) (env : CorrelatorEnv F) (fuel : Nat)
    (numContrib : Int) (tracks : List (TrackExtended F)) (candidates : List (HfCandidate F)) :
    ∀ e ∈ (processMcRec cfg env fuel numContrib tracks candidates).entries,
      PairValues env fuel e := by
  unfold processMcRec
  dsimp only
  split_ifs
  · simp [mcRecInit]
  · exact Alice3CDeuteron.foldl_invariant
      (fun s : McRecState F => ∀ e ∈ s.entries, PairValues env fuel e)
      (mcRecOuter cfg env fuel candidates)
      (fun s a hs => mcRecOuter_pairValues cfg env fuel candidates s a hs) candidates
      mcRecInit (by simp [mcRecInit])


/-- C23 (amended): in `processData` and in `processMcRec` every row written
belongs to two rows of the candidate table with different row indices, the
first passing the rapidity, transverse momentum, decay channel and
`isSelD0 >= selectionFlagD0` requirements, the second the decay channel,
`isSelD0bar >= selectionFlagD0bar`, rapidity and transverse momentum
requirements; and when the event passes the multiplicity selection and the
processing is not ended by an exception of the efficiency lookup, every such
pair of rows has a row written. -/
theorem C23_pairs_written (cfg : CorrelatorConfig F) (env : CorrelatorEnv F) (fuel : Nat)
    (numContrib : Int) (tracks : List (TrackExtended F)) (candidates : List (HfCandidate F)) :
    (∀ e ∈ (processData cfg env fuel numContrib tracks candidates).entries,
      e.candidate1.mRowIndex ≠ e.candidate2.mRowIndex ∧ PairSelected cfg env candidates e) ∧
    (∀ e ∈ (processMcRec cfg env fuel numContrib tracks candidates).entries,
      e.candidate1.mRowIndex ≠ e.candidate2.mRowIndex ∧ PairSelected cfg env candidates e) ∧
    (MultiplicityAccepted cfg numContrib tracks →
      ((processData cfg env fuel numContrib tracks candidates).aborted = false →
        ∀ c1 ∈ candidates, ∀ c2 ∈ candidates, SelectedD0 cfg env c1 →
          SelectedD0bar cfg env c2 → c1.mRowIndex ≠ c2.mRowIndex →
          ∃ e ∈ (processData cfg env fuel numContrib tracks candidates).entries,
            e.candidate1 = c1 ∧ e.candidate2 = c2) ∧
      ((processMcRec cfg env fuel numContrib tracks candidates).aborted = false →
        ∀ c1 ∈ candidates, ∀ c2 ∈ candidates, SelectedD0 cfg env c1 →
          SelectedD0bar cfg env c2 → c1.mRowIndex ≠ c2.mRowIndex →
          ∃ e ∈ (processMcRec cfg env fuel numContrib tracks candidates).entries,
            e.candidate1 = c1 ∧ e.candidate2 = c2)) := by
  obtain ⟨hd1, hd2⟩ := processData_spec cfg env fuel numContrib tracks candidates
  obtain ⟨hm1, hm2⟩ := processMcRec_spec cfg env fuel numContrib tracks candidates
  refine ⟨fun e he => ⟨(hd1 e he).1.2.2.2.2, (hd1 e he).1⟩,
    fun e he => ⟨(hm1 e he).1.2.2.2.2, (hm1 e he).1⟩, fun hacc => ⟨?_, ?_⟩⟩
  · intro hab c1 h1 c2 h2 s1 s2 hne
    exact (hd2 hacc hab c1 h1).2 s1 c2 h2 s2 hne
  · intro hab c1 h1 c2 h2 s1 s2 hne
    exact (hm2 hacc hab c1 h1).2 s1 c2 h2 s2 hne

theorem sample_passKinematics (cfg : CorrelatorConfig F) (env : CorrelatorEnv F)
    (hy : cfg.cutYCandMax = -1) (hp : cfg.cutPtCandMin = -1) (c : HfCandidate F) :
    PassKinematics cfg env c := by
  unfold PassKinematics
  rw [hy, hp]
  constructor <;> (intro h; exact absurd h.1 (by norm_num))

theorem sample_hasDecayFlag (pi : F) (c : HfCandidate F) (hf : c.hfflag = 1) :
    hasDecayFlag (sampleCorrelatorEnv pi) c = true := by
  simp [hasDecayFlag, sampleCorrelatorEnv, hf]

theorem sample_selectedD0 (cfg : CorrelatorConfig F) (pi : F) (hy : cfg.cutYCandMax = -1)
    (hp : cfg.cutPtCandMin = -1) (h1 : cfg.selectionFlagD0 = 1) (c : HfCandidate F)
    (hf : c.hfflag = 1) (hs : c.isSelD0 = 1) : SelectedD0 cfg (sampleCorrelatorEnv pi) c :=
  ⟨⟨sample_passKinematics cfg _ hy hp c, sample_hasDecayFlag pi c hf⟩, by rw [h1, hs]⟩

theorem sample_selectedD0bar (cfg : CorrelatorConfig F) (pi : F) (hy : cfg.cutYCandMax = -1)
    (hp : cfg.cutPtCandMin = -1) (h2 : cfg.selectionFlagD0bar = 1) (c : HfCandidate F)
    (hf : c.hfflag = 1) (hs : c.isSelD0bar = 1) : SelectedD0bar cfg (sampleCorrelatorEnv pi) c :=
  ⟨sample_hasDecayFlag pi c hf, by rw [h2, hs], sample_passKinematics cfg _ hy hp c⟩

/-- C23 (counterexample): two sample rows of the candidate table with
different row indices pass the requirements on the first and on the second
candidate, and no row is written for them, neither by `processData` nor by
`processMcRec`, when the event fails the multiplicity selection (`multMin = 1`
and no track), nor when the efficiency lookup throws (weights enabled with an
empty efficiency vector). -/
theorem C23_pair_not_written_counterexample :
    SelectedD0 ({ sampleConfig with multMin := 1 } : CorrelatorConfig ℚ)
      (sampleCorrelatorEnv 3) (sampleCandidate 0 1 0 1 0) ∧
    SelectedD0bar ({ sampleConfig with multMin := 1 } : CorrelatorConfig ℚ)
      (sampleCorrelatorEnv 3) (sampleCandidate 1 0 1 (-1) 1) ∧
    (sampleCandidate 0 1 0 1 0 : HfCandidate ℚ).mRowIndex ≠
      (sampleCandidate 1 0 1 (-1) 1 : HfCandidate ℚ).mRowIndex ∧
    (processData ({ sampleConfig with multMin := 1 } : CorrelatorConfig ℚ)
      (sampleCorrelatorEnv 3) 1 2 []
      [sampleCandidate 0 1 0 1 0, sampleCandidate 1 0 1 (-1) 1]).entries = [] ∧
    (processMcRec ({ sampleConfig with multMin := 1 } : CorrelatorConfig ℚ)
      (sampleCorrelatorEnv 3) 1 2 []
      [sampleCandidate 0 1 0 1 0, sampleCandidate 1 0 1 (-1) 1]).entries = [] ∧
    SelectedD0 ({ sampleConfig with flagApplyEfficiency := 1 } : CorrelatorConfig ℚ)
      (sampleCorrelatorEnv 3) (sampleCandidate 0 1 0 1 0) ∧
    SelectedD0bar ({ sampleConfig with flagApplyEfficiency := 1 } : CorrelatorConfig ℚ)
      (sampleCorrelatorEnv 3) (sampleCandidate 1 0 1 (-1) 1) ∧
    (processData ({ sampleConfig with flagApplyEfficiency := 1 } : CorrelatorConfig ℚ)
      (sampleCorrelatorEnv 3) 1 2 []
      [sampleCandidate 0 1 0 1 0, sampleCandidate 1 0 1 (-1) 1]).entries = [] ∧
    (processMcRec ({ sampleConfig with flagApplyEfficiency := 1 } : CorrelatorConfig ℚ)
      (sampleCorrelatorEnv 3) 1 2 []
      [sampleCandidate 0 1 0 1 0, sampleCandidate 1 0 1 (-1) 1]).entries = [] := by
  refine ⟨(sample_selectedD0 _ 3 rfl rfl rfl _ rfl rfl),
    (sample_selectedD0bar _ 3 rfl rfl rfl _ rfl rfl), by decide, ?_, ?_,
    (sample_selectedD0 _ 3 rfl rfl rfl _ rfl rfl),
    (sample_selectedD0bar _ 3 rfl rfl rfl _ rfl rfl), ?_, ?_⟩
  · norm_num [processData, countTracks, sampleConfig]
  · norm_num [processMcRec, countTracks, sampleConfig, mcRecInit]
  · norm_num [processData, dataOuter, dataInner, countTracks, sampleConfig,
      sampleCorrelatorEnv, sampleCandidate, hasDecayFlag, efficiencyWeight, vectorAt]
  · norm_num [processMcRec, mcRecOuter, mcRecInner, countTracks, mcRecInit, sampleConfig,
      sampleCorrelatorEnv, sampleCandidate, hasDecayFlag, efficiencyWeight, vectorAt]

theorem sample_multiplicityAccepted :
    MultiplicityAccepted (sampleConfig : CorrelatorConfig F) 2 [] := by
  unfold MultiplicityAccepted
  norm_num [countTracks, sampleConfig]

/-- Witness of C23 (amended) on the sample event: the event is accepted, the
processing is not ended by an exception, and the row of the sample pair is
written by `processData` and by `processMcRec`. -/
theorem C23_pairs_written_witness :
    (∃ e ∈ (processData (sampleConfig : CorrelatorConfig ℚ) (sampleCorrelatorEnv 3) 1 2 []
        [sampleCandidate 0 1 0 1 0, sampleCandidate 1 0 1 (-1) 1]).entries,
      e.candidate1 = sampleCandidate 0 1 0 1 0 ∧ e.candidate2 = sampleCandidate 1 0 1 (-1) 1) ∧
    (∃ e ∈ (processMcRec (sampleConfig : CorrelatorConfig ℚ) (sampleCorrelatorEnv 3) 1 2 []
        [sampleCandidate 0 1 0 1 0, sampleCandidate 1 0 1 (-1) 1]).entries,
      e.candidate1 = sampleCandidate 0 1 0 1 0 ∧ e.candidate2 = sampleCandidate 1 0 1 (-1) 1) :=
  have h := (C23_pairs_written (sampleConfig : CorrelatorConfig ℚ) (sampleCorrelatorEnv 3) 1 2 []
    [sampleCandidate 0 1 0 1 0, sampleCandidate 1 0 1 (-1) 1]).2.2 sample_multiplicityAccepted
  ⟨h.1 (by norm_num [processData, dataOuter, dataInner, countTracks, sampleConfig,
        sampleCorrelatorEnv, sampleCandidate, hasDecayFlag, efficiencyWeight])
      _ (by simp) _ (by simp) (sample_selectedD0 _ 3 rfl rfl rfl _ rfl rfl)
      (sample_selectedD0bar _ 3 rfl rfl rfl _ rfl rfl) (by decide),
    h.2 (by norm_num [processMcRec, mcRecOuter, mcRecInner, countTracks, mcRecInit,
        sampleConfig, sampleCorrelatorEnv, sampleCandidate, hasDecayFlag, efficiencyWeight])
      _ (by simp) _ (by simp) (sample_selectedD0 _ 3 rfl rfl rfl _ rfl rfl)
      (sample_selectedD0bar _ 3 rfl rfl rfl _ rfl rfl) (by decide)⟩


/-! ## The orientation of the recorded delta-phi -/

theorem getDeltaPhi_small (x y : ℝ) (h1 : -1 ≤ y - x) (h2 : y - x ≤ 1) :
    getDeltaPhi Real.pi 1 x y = some (y - x) := by
  have hpi := Real.pi_gt_three
  have a : ¬ (y - x < -Real.pi / 2) := by
    rw [not_lt]
    linarith
  have b : ¬ (y - x ≥ -Real.pi / 2 + 2 * Real.pi) := by
    rw [ge_iff_le, not_le]
    linarith
  unfold getDeltaPhi constrainAngle constrainAngleUp
  rw [if_neg a]
  show constrainAngleDown (2 * Real.pi) 1 (y - x) (-Real.pi / 2) = some (y - x)
  unfold constrainAngleDown
  rw [if_neg b]

/-- C24 (the code at the failing input): for the sample pair with
`candidate1` (the D0) at `phi = 0`, `eta = 0` and `candidate2` (the D0bar) at
`phi = 1`, `eta = 1/2`, `processMcRec` and `processData` record
`deltaEta = 1/2 = eta2 - eta1` and `deltaPhi = -1 = phi1 - phi2`, while
`getDeltaPhi` called with the azimuth of the first candidate as `phiD` and
that of the second as `phiDbar` returns `1 = phi2 - phi1`. -/
theorem C24_deltaPhi_orientation_at_sample :
    (processMcRec sampleConfig (sampleCorrelatorEnv Real.pi) 1 2 []
        [{ mRowIndex := 0, hfflag := 1, isSelD0 := 1, isSelD0bar := 0, flagMCMatchRec := 1,
           pt := 3, eta := 0, phi := 0 },
         { mRowIndex := 1, hfflag := 1, isSelD0 := 0, isSelD0bar := 1, flagMCMatchRec := -1,
           pt := 3, eta := 1 / 2, phi := 1 }]).entries.map
      (fun e => (e.candidate1.phi, e.candidate2.phi, e.deltaPhi, e.deltaEta)) =
      [(0, 1, some (-1), 1 / 2)] ∧
    (processData sampleConfig (sampleCorrelatorEnv Real.pi) 1 2 []
        [{ mRowIndex := 0, hfflag := 1, isSelD0 := 1, isSelD0bar := 0, flagMCMatchRec := 1,
           pt := 3, eta := 0, phi := 0 },
         { mRowIndex := 1, hfflag := 1, isSelD0 := 0, isSelD0bar := 1, flagMCMatchRec := -1,
           pt := 3, eta := 1 / 2, phi := 1 }]).entries.map
      (fun e => (e.candidate1.phi, e.candidate2.phi, e.deltaPhi, e.deltaEta)) =
      [(0, 1, some (-1), 1 / 2)] ∧
    getDeltaPhi Real.pi 1 0 1 = some 1 := by
  have h1 : getDeltaPhi Real.pi 1 1 0 = some (-1) := by
    have := getDeltaPhi_small 1 0 (by norm_num) (by norm_num)
    rw [this]
    norm_num
  have h2 : getDeltaPhi Real.pi 1 0 1 = some 1 := by
    have := getDeltaPhi_small 0 1 (by norm_num) (by norm_num)
    rw [this]
    norm_num
  refine ⟨?_, ?_, h2⟩
  · norm_num [processMcRec, mcRecOuter, mcRecInner, countTracks, mcRecInit, sampleConfig,
      sampleCorrelatorEnv, hasDecayFlag, decayBit, efficiencyWeight, pairSignalStatus, h1]
  · norm_num [processData, dataOuter, dataInner, countTracks, sampleConfig,
      sampleCorrelatorEnv, hasDecayFlag, efficiencyWeight, h1]

/-! ## The efficiency weight -/

omit [LinearOrderedField F] in
theorem vectorAt_isSome (v : List F) (i : Int) :
    (vectorAt v i).isSome = true ↔ 0 ≤ i ∧ i < (v.length : Int) := by
  unfold vectorAt
  by_cases h : i < 0
  · rw [if_pos h]
    simp only [Option.isSome_none, Bool.false_eq_true, false_iff, not_and, not_lt]
    intro h0
    omega
  · rw [if_neg h]
    rw [List.get?_eq_getElem?, Option.isSome_iff_exists]
    constructor
    · rintro ⟨a, ha⟩
      have := (List.getElem?_eq_some_iff.mp ha).1
      omega
    · rintro ⟨_, h2⟩
      have hlt : i.toNat < v.length := by omega
      exact ⟨v[i.toNat], List.getElem?_eq_getElem hlt⟩

omit [LinearOrderedField F] in
theorem vectorAt_mem (v : List F) (i : Int) (e : F) (h : vectorAt v i = some e) : e ∈ v := by
  unfold vectorAt at h
  by_cases hi : i < 0
  · rw [if_pos hi] at h
    exact Option.noConfusion h
  · rw [if_neg hi, List.get?_eq_getElem?] at h
    obtain ⟨hlt, he⟩ := List.getElem?_eq_some_iff.mp h
    rw [← he]
    exact List.getElem_mem hlt

omit [LinearOrderedField F] in
theorem vectorAt_get (v : List F) (i : Int) (e : F) (h : vectorAt v i = some e) :
    v.get? i.toNat = some e := by
  unfold vectorAt at h
  by_cases hi : i < 0
  · rw [if_pos hi] at h
    exact Option.noConfusion h
  · rw [if_neg hi] at h
    exact h

theorem efficiencyWeight_eq (cfg : CorrelatorConfig F) (env : CorrelatorEnv F) (pt : F) :
    efficiencyWeight cfg env pt =
      if cfg.flagApplyEfficiency ≠ 0 then (efficiencyDivisor cfg env pt).map fun e => 1 / e
      else some 1 := by
  unfold efficiencyWeight efficiencyDivisor
  split_ifs
  · cases vectorAt cfg.efficiencyDmeson (env.findBin cfg.bins pt) <;> rfl
  · rfl

/-- C25 (amended): with efficiency weighting enabled the weight of a candidate
is `1 / efficiencyDmeson.at(findBin(bins, pt))`; the lookup succeeds exactly
when the bin index is in `0 .. size - 1` and throws otherwise; the divisor is
the element of the configured efficiency vector at that index, so it is not
zero when no configured efficiency is zero; in `processData` and `processMcRec`, when the
event is accepted and the processing is not ended by an exception, every
candidate that passes the rapidity, transverse momentum and decay channel
requirements has a weight; and under the default configuration, whose
efficiency vector holds zeros only, the divisor of a candidate is zero
whenever its lookup succeeds. -/
theorem C25_efficiency_weight_defined (cfg : CorrelatorConfig F) (env : CorrelatorEnv F)
    (fuel : Nat) (numContrib : Int) (tracks : List (TrackExtended F))
    (candidates : List (HfCandidate F)) :
    (∀ pt : F, cfg.flagApplyEfficiency ≠ 0 →
      efficiencyWeight cfg env pt = (efficiencyDivisor cfg env pt).map (fun e => 1 / e) ∧
      ((efficiencyDivisor cfg env pt).isSome = true ↔
        0 ≤ env.findBin cfg.bins pt ∧
          env.findBin cfg.bins pt < (cfg.efficiencyDmeson.length : Int)) ∧
      ((efficiencyDivisor cfg env pt).isSome = false → efficiencyWeight cfg env pt = none) ∧
      ∀ e : F, efficiencyDivisor cfg env pt = some e →
        cfg.efficiencyDmeson.get? (env.findBin cfg.bins pt).toNat = some e ∧
        e ∈ cfg.efficiencyDmeson ∧ ((∀ x ∈ cfg.efficiencyDmeson, x ≠ 0) → e ≠ 0)) ∧
    (MultiplicityAccepted cfg numContrib tracks →
      ((processData cfg env fuel numContrib tracks candidates).aborted = false →
        ∀ c ∈ candidates, Preselected cfg env c →
          (efficiencyWeight cfg env c.pt).isSome = true) ∧
      ((processMcRec cfg env fuel numContrib tracks candidates).aborted = false →
        ∀ c ∈ candidates, Preselected cfg env c →
          (efficiencyWeight cfg env c.pt).isSome = true)) ∧
    (∀ (pTBins_v : List F) (npTBins : Nat) (pt : F),
      (CorrelatorConfig.default pTBins_v npTBins).flagApplyEfficiency ≠ 0 ∧
      ∀ e : F, efficiencyDivisor (CorrelatorConfig.default pTBins_v npTBins) env pt = some e →
        e = 0) := by
  refine ⟨?_, ?_, ?_⟩
  · intro pt hflag
    refine ⟨?_, vectorAt_isSome _ _, ?_, ?_⟩
    · rw [efficiencyWeight_eq, if_pos hflag]
    · intro hn
      rw [efficiencyWeight_eq, if_pos hflag]
      cases h : efficiencyDivisor cfg env pt with
      | none => rfl
      | some e =>
        rw [h] at hn
        exact Bool.noConfusion hn
    · intro e he
      have hm := vectorAt_mem _ _ e he
      exact ⟨vectorAt_get _ _ e he, hm, fun hall => hall e hm⟩
  · intro hacc
    constructor
    · intro hab c hc hp
      exact ((processData_spec cfg env fuel numContrib tracks candidates).2 hacc hab c hc).1 hp
    · intro hab c hc hp
      exact ((processMcRec_spec cfg env fuel numContrib tracks candidates).2 hacc hab c hc).1 hp
  · intro pTBins_v npTBins pt
    refine ⟨by simp [CorrelatorConfig.default], ?_⟩
    intro e he
    have hm := vectorAt_mem _ _ e he
    exact List.eq_of_mem_replicate hm

/-- C25 (counterexample): under the default configuration with the sample bin
limits and five bins, the sample candidate at `pt = 3` passes the rapidity,
transverse momentum and decay channel requirements, its bin index 2 is in
range, and the divisor of its weight is zero. -/
theorem C25_default_divisor_zero_counterexample :
    (CorrelatorConfig.default (sampleBins : List ℚ) 5).flagApplyEfficiency ≠ 0 ∧
    Preselected (CorrelatorConfig.default (sampleBins : List ℚ) 5)
      { sampleCorrelatorEnv 3 with findBin := sampleFindBin } (sampleCandidate 0 1 0 1 0) ∧
    sampleFindBin (CorrelatorConfig.default (sampleBins : List ℚ) 5).bins
      (sampleCandidate 0 1 0 1 0 : HfCandidate ℚ).pt = 2 ∧
    efficiencyDivisor (CorrelatorConfig.default (sampleBins : List ℚ) 5)
      { sampleCorrelatorEnv 3 with findBin := sampleFindBin }
      (sampleCandidate 0 1 0 1 0 : HfCandidate ℚ).pt = some 0 := by
  have hb : sampleFindBin (CorrelatorConfig.default (sampleBins : List ℚ) 5).bins
      (sampleCandidate 0 1 0 1 0 : HfCandidate ℚ).pt = 2 := by
    norm_num [sampleFindBin, CorrelatorConfig.default, sampleBins, sampleCandidate,
      List.filter_cons]
  refine ⟨by simp [CorrelatorConfig.default], ⟨sample_passKinematics _ _ rfl rfl _, ?_⟩, hb, ?_⟩
  · simp [hasDecayFlag, sampleCorrelatorEnv, sampleCandidate]
  · unfold efficiencyDivisor
    show vectorAt _ (sampleFindBin (CorrelatorConfig.default (sampleBins : List ℚ) 5).bins
      (sampleCandidate 0 1 0 1 0 : HfCandidate ℚ).pt) = some 0
    rw [hb]
    simp [vectorAt, CorrelatorConfig.default, List.replicate]

/-- Witness of C25 (amended): with the efficiency `1/2` configured for each of
the five sample bins, the divisor of the weight of the sample candidate is
`1/2`, not zero. -/
theorem C25_efficiency_weight_defined_witness :
    efficiencyDivisor
      ({ CorrelatorConfig.default (sampleBins : List ℚ) 5 with
          efficiencyDmeson := List.replicate 5 (1 / 2) })
      { sampleCorrelatorEnv 3 with findBin := sampleFindBin }
      (sampleCandidate 0 1 0 1 0 : HfCandidate ℚ).pt = some (1 / 2) ∧
    (1 / 2 : ℚ) ≠ 0 := by
  have hb : sampleFindBin (sampleBins : List ℚ) (sampleCandidate 0 1 0 1 0 : HfCandidate ℚ).pt
      = 2 := by
    norm_num [sampleFindBin, sampleBins, sampleCandidate, List.filter_cons]
  have he : efficiencyDivisor
      ({ CorrelatorConfig.default (sampleBins : List ℚ) 5 with
          efficiencyDmeson := List.replicate 5 (1 / 2) })
      { sampleCorrelatorEnv 3 with findBin := sampleFindBin }
      (sampleCandidate 0 1 0 1 0 : HfCandidate ℚ).pt = some (1 / 2) := by
    unfold efficiencyDivisor
    show vectorAt _ (sampleFindBin (sampleBins : List ℚ)
      (sampleCandidate 0 1 0 1 0 : HfCandidate ℚ).pt) = some (1 / 2)
    rw [hb]
    simp [vectorAt, List.replicate]
  exact ⟨he, ((C25_efficiency_weight_defined _ _ 1 2 [] []).1 _
    (by simp [CorrelatorConfig.default])).2.2.2 _ he |>.2.2
    (fun x hx => by rw [List.eq_of_mem_replicate hx]; norm_num)⟩

/-! ## The acceptance scan -/

/-- The coordinates filled by one run of the inner loop over the values `j` of
`l`, for the threshold `etaCut` of the cell row `k`. -/
theorem scanPt_spec (c1 c2 : HfCandidate F) (k : Nat) :
    ∀ (d j fuel : Nat) (fills : List (F × F)), j + d = 20 → 1 ≤ d → d ≤ fuel →
      scanPt c1 c2 (etaCutAt k) fuel (ptCutAt j) fills =
        some (ptCutAt 20, fills ++
          ((List.range' j d).filter fun j => decide (CellFilled c1 c2 k j)).map
            fun j => cellCoordinates k j) := by
  intro d
  induction d with
  | zero => intro j fuel fills _ h; omega
  | succ d ih =>
    intro j fuel fills hj _ hf
    obtain ⟨fuel, rfl⟩ : ∃ f, fuel = f + 1 := ⟨fuel - 1, by omega⟩
    have hstep : (ptCutAt j : F) + incrementPtThreshold = ptCutAt (j + 1) := by
      unfold ptCutAt incrementPtThreshold
      push_cast
      ring
    rw [List.range'_succ]
    unfold scanPt
    dsimp only
    rw [hstep]
    by_cases hd : d = 0
    · subst hd
      have hj20 : j + 1 = 20 := by omega
      have hstop : ¬ ((ptCutAt (j + 1) : F) < ptThresholdForMaxEtaCut - epsilon) := by
        rw [hj20]
        unfold ptCutAt ptThresholdForMaxEtaCut epsilon
        norm_num
      rw [if_neg hstop, hj20]
      by_cases hc : CellFilled c1 c2 k j
      · have hc' := hc
        unfold CellFilled at hc'
        rw [if_pos hc']
        simp [List.filter_cons, hc, cellCoordinates]
      · have hc' := hc
        unfold CellFilled at hc'
        rw [if_neg hc']
        simp [List.filter_cons, hc]
    · have hlt : ((ptCutAt (j + 1) : F) < ptThresholdForMaxEtaCut - epsilon) := by
        have h19 : ((j + 1 : Nat) : F) ≤ 19 := by
          have : j + 1 ≤ 19 := by omega
          exact_mod_cast this
        unfold ptCutAt ptThresholdForMaxEtaCut epsilon
        have : ((j + 1 : Nat) : F) / 2 ≤ 19 / 2 := by
          apply div_le_div_of_nonneg_right h19 (by norm_num)
        refine lt_of_le_of_lt this ?_
        norm_num
      rw [if_pos hlt]
      rw [ih (j + 1) fuel _ (by omega) (by omega) (by omega)]
      by_cases hc : CellFilled c1 c2 k j
      · have hc' := hc
        unfold CellFilled at hc'
        rw [if_pos hc']
        simp [List.filter_cons, hc, cellCoordinates]
      · have hc' := hc
        unfold CellFilled at hc'
        rw [if_neg hc']
        simp [List.filter_cons, hc]


theorem ptCut_step (j : Nat) :
    (ptCutAt j : F) + incrementPtThreshold = ptCutAt (j + 1) := by
  unfold ptCutAt incrementPtThreshold
  push_cast
  ring

theorem ptCut_continue (j : Nat) (h : j + 1 ≤ 19) :
    (ptCutAt (j + 1) : F) < ptThresholdForMaxEtaCut - epsilon := by
  have h19 : ((j + 1 : Nat) : F) ≤ 19 := by exact_mod_cast h
  unfold ptCutAt ptThresholdForMaxEtaCut epsilon
  have : ((j + 1 : Nat) : F) / 2 ≤ 19 / 2 := div_le_div_of_nonneg_right h19 (by norm_num)
  refine lt_of_le_of_lt this ?_
  norm_num

theorem etaCut_step (k : Nat) :
    (etaCutAt k : F) + incrementEtaCut = etaCutAt (k + 1) := by
  unfold etaCutAt incrementEtaCut
  push_cast
  ring

theorem etaCut_continue (k : Nat) (h : k + 1 ≤ 49) :
    (etaCutAt (k + 1) : F) < maxEtaCut - epsilon := by
  have h49 : ((k + 1 : Nat) : F) ≤ 49 := by exact_mod_cast h
  unfold etaCutAt maxEtaCut epsilon
  have : ((k + 1 : Nat) : F) / 10 ≤ 49 / 10 := div_le_div_of_nonneg_right h49 (by norm_num)
  refine lt_of_le_of_lt this ?_
  norm_num

theorem etaCut_stop : ¬ ((etaCutAt 50 : F) < maxEtaCut - epsilon) := by
  unfold etaCutAt maxEtaCut epsilon
  norm_num

/-- The inner loop does not end within fewer than the remaining number of
values of `ptCut`. -/
theorem scanPt_none (c1 c2 : HfCandidate F) (etaCut : F) :
    ∀ (fuel d j : Nat) (fills : List (F × F)), j + d = 20 → fuel < d →
      scanPt c1 c2 etaCut fuel (ptCutAt j) fills = none := by
  intro fuel
  induction fuel with
  | zero =>
    intro d j fills _ _
    rfl
  | succ fuel ih =>
    intro d j fills hj hf
    unfold scanPt
    dsimp only
    rw [ptCut_step, if_pos (ptCut_continue j (by omega))]
    exact ih (d - 1) (j + 1) _ (by omega) (by omega)

/-- The coordinates filled by the outer loop from the row after `k` on. -/
theorem scanEta_spec (c1 c2 : HfCandidate F) (fuelPt : Nat) (hpt : 20 ≤ fuelPt) :
    ∀ (d k fuel : Nat) (fills : List (F × F)), k + d = 50 → 1 ≤ d → d ≤ fuel →
      scanEta c1 c2 fuelPt fuel (etaCutAt k) fills =
        some (etaCutAt 50, fills ++
          (List.range' k d).flatMap fun k =>
            ((List.range 20).filter fun j => decide (CellFilled c1 c2 (k + 1) j)).map
              fun j => cellCoordinates (k + 1) j) := by
  intro d
  induction d with
  | zero => intro k fuel fills _ h; omega
  | succ d ih =>
    intro k fuel fills hk _ hf
    obtain ⟨fuel, rfl⟩ : ∃ f, fuel = f + 1 := ⟨fuel - 1, by omega⟩
    rw [List.range'_succ, List.flatMap_cons]
    unfold scanEta
    dsimp only
    rw [etaCut_step]
    have h0 : (0 : F) = ptCutAt 0 := by
      unfold ptCutAt
      simp
    rw [h0, scanPt_spec c1 c2 (k + 1) 20 0 fuelPt fills (by omega) (by omega) hpt]
    dsimp only
    rw [← List.range_eq_range']
    by_cases hd : d = 0
    · subst hd
      have hk50 : k + 1 = 50 := by omega
      rw [hk50, if_neg etaCut_stop]
      simp
    · rw [if_pos (etaCut_continue k (by omega))]
      rw [ih (k + 1) fuel _ (by omega) (by omega) (by omega)]
      simp [List.append_assoc]

/-- The outer loop does not end within fewer than the remaining number of
values of `etaCut`, nor when an inner loop does not end. -/
theorem scanEta_none (c1 c2 : HfCandidate F) (fuelPt : Nat) :
    ∀ (fuel d k : Nat) (fills : List (F × F)), k + d = 50 → 1 ≤ d →
      (fuel < d ∨ fuelPt < 20) →
      scanEta c1 c2 fuelPt fuel (etaCutAt k) fills = none := by
  intro fuel
  induction fuel with
  | zero =>
    intro d k fills _ _ _
    rfl
  | succ fuel ih =>
    intro d k fills hk hd hf
    unfold scanEta
    dsimp only
    rw [etaCut_step]
    have h0 : (0 : F) = ptCutAt 0 := by
      unfold ptCutAt
      simp
    by_cases hpt : fuelPt < 20
    · rw [h0, scanPt_none c1 c2 _ fuelPt 20 0 fills (by omega) hpt]
    · rw [h0, scanPt_spec c1 c2 (k + 1) 20 0 fuelPt fills (by omega) (by omega) (by omega)]
      dsimp only
      have hlt : fuel + 1 < d := by
        rcases hf with h | h
        · exact h
        · exact absurd h hpt
      rw [if_pos (etaCut_continue k (by omega))]
      exact ih (d - 1) (k + 1) _ (by omega) (by omega) (Or.inl (by omega))

theorem etaPtScan_eq (c1 c2 : HfCandidate F) (fuelEta fuelPt : Nat) (h1 : 50 ≤ fuelEta)
    (h2 : 20 ≤ fuelPt) : etaPtScan fuelEta fuelPt c1 c2 = some (gridFills c1 c2) := by
  unfold etaPtScan gridFills
  dsimp only
  have h0 : (0 : F) = etaCutAt 0 := by
    unfold etaCutAt
    simp
  rw [h0, scanEta_spec c1 c2 fuelPt h2 50 0 fuelEta [] (by omega) (by omega) h1,
    ← List.range_eq_range']
  simp

theorem etaPtScan_none (c1 c2 : HfCandidate F) (fuelEta fuelPt : Nat)
    (h : fuelEta < 50 ∨ fuelPt < 20) : etaPtScan fuelEta fuelPt c1 c2 = none := by
  unfold etaPtScan
  dsimp only
  have h0 : (0 : F) = etaCutAt 0 := by
    unfold etaCutAt
    simp
  rw [h0, scanEta_none c1 c2 fuelPt fuelEta 50 0 [] (by omega) (by omega) h]
  rfl


theorem cellCoordinates_injective (k j k' j' : Nat)
    (h : (cellCoordinates k j : F × F) = cellCoordinates k' j') : k = k' ∧ j = j' := by
  unfold cellCoordinates etaCutAt ptCutAt at h
  rw [Prod.mk.injEq] at h
  obtain ⟨h1, h2⟩ := h
  have e1 : (k : F) = (k' : F) := by linarith
  have e2 : (j : F) = (j' : F) := by linarith
  exact ⟨Nat.cast_injective e1, Nat.cast_injective e2⟩

theorem mem_gridFills (c1 c2 : HfCandidate F) (x : F × F) :
    x ∈ gridFills c1 c2 ↔
      ∃ k j : Nat, 1 ≤ k ∧ k ≤ 50 ∧ j ≤ 19 ∧ CellFilled c1 c2 k j ∧ x = cellCoordinates k j := by
  unfold gridFills
  simp only [List.mem_flatMap, List.mem_map, List.mem_filter, List.mem_range,
    decide_eq_true_eq]
  constructor
  · rintro ⟨k, hk, j, ⟨hj, hc⟩, rfl⟩
    exact ⟨k + 1, j, by omega, by omega, by omega, hc, rfl⟩
  · rintro ⟨k, j, h1, h2, h3, hc, rfl⟩
    obtain ⟨k, rfl⟩ : ∃ n, k = n + 1 := ⟨k - 1, by omega⟩
    exact ⟨k, by omega, j, ⟨by omega, hc⟩, rfl⟩

theorem gridFills_nodup (c1 c2 : HfCandidate F) : (gridFills c1 c2).Nodup := by
  unfold gridFills
  rw [List.nodup_flatMap]
  constructor
  · intro k _
    apply List.Nodup.map_on
    · intro a _ b _ h
      exact (cellCoordinates_injective _ _ _ _ h).2
    · exact List.Nodup.filter _ (List.nodup_range 20)
  · refine List.Pairwise.imp ?_ (List.nodup_range 50)
    intro a b hab
    show List.Disjoint _ _
    intro x hx hy
    rw [List.mem_map] at hx hy
    obtain ⟨j, _, rfl⟩ := hx
    obtain ⟨j', _, h⟩ := hy
    have := (cellCoordinates_injective _ _ _ _ h).1
    exact hab (by omega)

theorem cellCoordinates_inAxisBin (k j : Nat) :
    InAxisBin 50 (0 : F) 5 k (cellCoordinates k j).1 ∧
    InAxisBin 20 (0 : F) 10 (j + 1) (cellCoordinates k j).2 := by
  unfold InAxisBin cellCoordinates etaCutAt ptCutAt epsilon
  dsimp only
  push_cast
  refine ⟨⟨?_, ?_⟩, ?_, ?_⟩
  · linarith
  · linarith
  · linarith
  · linarith

theorem cellFilled_mono (c1 c2 : HfCandidate F) (k j k' j' : Nat)
    (h : CellFilled c1 c2 k j) (hk : k ≤ k') (hj : j' ≤ j) : CellFilled c1 c2 k' j' := by
  unfold CellFilled etaCutAt ptCutAt at *
  have e1 : (k : F) ≤ (k' : F) := by exact_mod_cast hk
  have e2 : (j' : F) ≤ (j : F) := by exact_mod_cast hj
  obtain ⟨h1, h2, h3, h4⟩ := h
  refine ⟨?_, ?_, ?_, ?_⟩ <;> linarith

/-- C26: for every pair of candidates, in exact arithmetic, the acceptance scan
ends with the fills of the grid whenever the outer loop is allowed 50 and each
inner loop 20 executions of the body, and does not end with fewer: the outer
body runs for `etaCut = 0.1 k`, `k = 1..50`, the inner body for
`ptCut = 0.5 j`, `j = 0..19`. No coordinate is filled twice; the coordinates
of the cell `(k, j)` are filled exactly when `|eta1| < etaCut`,
`|eta2| < etaCut`, `pt1 > ptCut` and `pt2 > ptCut`; they fall in bin `k` of
the 50 bins over `[0, 5]` and in bin `j + 1` of the 20 bins over `[0, 10]`;
the filled cells are closed under increasing `k` and decreasing `j`. -/
theorem C26_acceptance_scan_covers_grid (candidate1 candidate2 : HfCandidate F) :
    (∀ fuelEta fuelPt : Nat, 50 ≤ fuelEta → 20 ≤ fuelPt →
      etaPtScan fuelEta fuelPt candidate1 candidate2 = some (gridFills candidate1 candidate2)) ∧
    (∀ fuelEta fuelPt : Nat, fuelEta < 50 ∨ fuelPt < 20 →
      etaPtScan fuelEta fuelPt candidate1 candidate2 = none) ∧
    (gridFills candidate1 candidate2).Nodup ∧
    (∀ k j : Nat, 1 ≤ k → k ≤ 50 → j ≤ 19 →
      ((cellCoordinates k j : F × F) ∈ gridFills candidate1 candidate2 ↔
        CellFilled candidate1 candidate2 k j) ∧
      InAxisBin 50 (0 : F) 5 k (cellCoordinates k j).1 ∧
      InAxisBin 20 (0 : F) 10 (j + 1) (cellCoordinates k j).2) ∧
    (∀ x ∈ gridFills candidate1 candidate2,
      ∃ k j : Nat, 1 ≤ k ∧ k ≤ 50 ∧ j ≤ 19 ∧ x = cellCoordinates k j) ∧
    (∀ k j k' j' : Nat, CellFilled candidate1 candidate2 k j → k ≤ k' → j' ≤ j →
      CellFilled candidate1 candidate2 k' j') := by
  refine ⟨fun a b h1 h2 => etaPtScan_eq candidate1 candidate2 a b h1 h2,
    fun a b h => etaPtScan_none candidate1 candidate2 a b h,
    gridFills_nodup candidate1 candidate2, ?_, ?_,
    fun k j k' j' h hk hj => cellFilled_mono candidate1 candidate2 k j k' j' h hk hj⟩
  · intro k j h1 h2 h3
    refine ⟨?_, cellCoordinates_inAxisBin k j⟩
    rw [mem_gridFills]
    constructor
    · rintro ⟨k', j', _, _, _, hc, he⟩
      obtain ⟨rfl, rfl⟩ := cellCoordinates_injective _ _ _ _ he
      exact hc
    · intro hc
      exact ⟨k, j, h1, h2, h3, hc, rfl⟩
  · intro x hx
    obtain ⟨k, j, h1, h2, h3, _, he⟩ := (mem_gridFills candidate1 candidate2 x).mp hx
    exact ⟨k, j, h1, h2, h3, he⟩

end HfCorrelatorD0D0bar
